import Mathlib

/-!
# Buildpack packaging: module manager and package builder

A shallow embedding of `pkg/buildpack/module_manager.go` and
`pkg/buildpack/builder.go`.

* Go slices are lists, `append` is `++`.
* A Go `map[string]V` is an association list with unique keys (`GoMap`); the
  order in which `range` visits a map is not fixed by the language, so every
  `range` over a map takes a `RangeOrder`, an arbitrary rearrangement.
* `int` depths are `Int`.
* Errors are values of `PkgError`: the format string of `errors.Errorf` or
  `errors.Wrapf` with its arguments (as passed to `style.Symbol`, which only
  decorates them for the terminal) and, for a wrapped error, its cause.
* Everything outside the builder (file system, tar and hash helpers, the
  destination image) is a `World`: it answers each call given the calls made
  before it. A run returns its result together with the sequence of calls.
* The module locator resolver (`pkg/buildpack/downloader`) has only its test
  among the sources: it is modelled from the specification, its recognizers
  and collaborators being parameters, and returns its outcome together with
  the collaborator calls made.
-/

namespace Pack

/-! ## Descriptor model (`pkg/dist`) -/

/-- Identity of a module: `dist.ModuleInfo`. -/
structure ModuleInfo where
  ID : String
  Version : String
  deriving DecidableEq, Repr

/-- Modelled from the spec: `dist.ModuleInfo.FullName` (package `pkg/dist` is
not among the sources): the composite full name, `id@version` when the version
is present, else `id`. -/
def ModuleInfo.FullName (b : ModuleInfo) : String :=
  if b.Version ≠ "" then b.ID ++ "@" ++ b.Version else b.ID

/-- A reference inside an order group: `dist.ModuleRef`. -/
structure ModuleRef where
  ModuleInfo : ModuleInfo
  Optional : Bool
  deriving DecidableEq, Repr

/-- One order group: `dist.OrderEntry`. -/
structure OrderEntry where
  Group : List ModuleRef
  deriving DecidableEq, Repr

/-- The type `dist.Order`. -/
abbrev Order := List OrderEntry

/-- A declared stack: `dist.Stack`. -/
structure Stack where
  ID : String
  Mixins : List String
  deriving DecidableEq, Repr

/-- What `BuildModule.Descriptor()` exposes: `API()`, `Info()`, `Stacks()`,
`Order()`. -/
structure Descriptor where
  API : String
  Info : ModuleInfo
  Stacks : List Stack
  Order : Order
  deriving DecidableEq, Repr

/-- A build module: its descriptor and a handle on its content blob. Go compares
`BuildModule` interface values by identity; here two modules are the same value
when descriptor and blob agree. -/
structure BuildModule where
  Descriptor : Descriptor
  blob : String
  deriving DecidableEq, Repr

/-- Shorthand for `bp.Descriptor().Info().FullName()`. -/
def BuildModule.FullName (bp : BuildModule) : String :=
  bp.Descriptor.Info.FullName

/-! ## Module manager (`module_manager.go`) -/

def FlattenMaxDepth : Int := -1

def FlattenNone : Int := 0

structure ModuleManager where
  modules : List BuildModule
  flattenModules : List (List BuildModule)
  flatten : Bool
  maxDepth : Int
  deriving DecidableEq, Repr

def NewModuleManager (flatten : Bool) (maxDepth : Int) : ModuleManager :=
  { flatten := flatten, maxDepth := maxDepth, modules := [], flattenModules := [] }

/-- The string set built by the first loop of `buildpacksFromGroup`: the full
name of every reference of every group. -/
def orderNames (orders : Order) : List String :=
  orders.flatMap (fun order => order.Group.map (fun group => group.ModuleInfo.FullName))

/-- Source `buildpacksFromGroup`: split `deps` into the ones whose full name is
in the set of `orders` (`bps`) and the others (`newDeps`), order kept. -/
def buildpacksFromGroup (orders : Order) (deps : List BuildModule) :
    List BuildModule × List BuildModule :=
  let set := orderNames orders
  deps.foldl
    (fun acc dep =>
      if dep.FullName ∈ set then (acc.1 ++ [dep], acc.2) else (acc.1, acc.2 ++ [dep]))
    ([], [])

/-- Source `flattenModuleRecurser.calculateFlattenModules`, the receiver's
`maxDepth` passed first. -/
def calculateFlattenModules (maxDepth : Int) (main : BuildModule) (deps : List BuildModule)
    (depth : Int) : List (List BuildModule) :=
  let orders := main.Descriptor.Order
  if orders.length > 0 then
    (if depth = maxDepth then [main :: deps] else []) ++
    (if _h : depth < maxDepth then
      let split := buildpacksFromGroup orders deps
      [main] :: split.1.flatMap (fun bp => calculateFlattenModules maxDepth bp split.2 (depth + 1))
    else [])
  else
    [[main]]
termination_by (maxDepth - depth).toNat
decreasing_by omega

/-- Source `ModuleManager.AddModules`. -/
def ModuleManager.AddModules (f : ModuleManager) (main : BuildModule)
    (deps : List BuildModule) : ModuleManager :=
  if !f.flatten then
    { f with modules := f.modules ++ (main :: deps) }
  else if f.maxDepth ≤ FlattenMaxDepth then
    { f with flattenModules := f.flattenModules ++ [main :: deps] }
  else
    { f with flattenModules :=
        f.flattenModules ++ calculateFlattenModules f.maxDepth main deps 0 }

/-- Source `ModuleManager.Modules`. -/
def ModuleManager.Modules (f : ModuleManager) : List BuildModule :=
  f.flattenModules.foldl (fun all modules => all ++ modules) f.modules

/-- Source `ModuleManager.GetFlattenModules`; `nil` is the empty list. -/
def ModuleManager.GetFlattenModules (f : ModuleManager) : List (List BuildModule) :=
  if f.flatten then f.flattenModules else []

/-- Source `ModuleManager.IsFlatten`. -/
def ModuleManager.IsFlatten (f : ModuleManager) (module : BuildModule) : Bool :=
  f.flatten && f.flattenModules.any (fun modules => modules.any (fun v => v == module))

/-- Number of places a module holds in the manager state: its occurrences in
the individual list plus its occurrences in every flatten group. -/
def ModuleManager.occurrences (f : ModuleManager) (m : BuildModule) : Nat :=
  f.modules.count m + (f.flattenModules.map (fun g => g.count m)).sum

/-! ## Go maps and errors -/

/-- A Go `map[string]V`: entries with pairwise distinct keys. -/
structure GoMap (V : Type) where
  entries : List (String × V)
  deriving Repr

/-- Assignment `m[k] = v` on the entries: an existing key keeps its place. -/
def setEntry {V : Type} (k : String) (v : V) : List (String × V) → List (String × V)
  | [] => [(k, v)]
  | e :: rest => if e.1 = k then (k, v) :: rest else e :: setEntry k v rest

def GoMap.empty {V : Type} : GoMap V := ⟨[]⟩

/-- Assignment `m[k] = v`. -/
def GoMap.set {V : Type} (m : GoMap V) (k : String) (v : V) : GoMap V :=
  ⟨setEntry k v m.entries⟩

/-- Lookup `v, ok := m[k]` on the entries. -/
def getEntry {V : Type} (k : String) : List (String × V) → Option V
  | [] => none
  | e :: rest => if e.1 = k then some e.2 else getEntry k rest

/-- Lookup `v, ok := m[k]`. -/
def GoMap.get? {V : Type} (m : GoMap V) (k : String) : Option V :=
  getEntry k m.entries

def GoMap.keys {V : Type} (m : GoMap V) : List String :=
  m.entries.map Prod.fst

/-- The order in which one `range` statement visits the entries of a map: any
rearrangement of them. -/
structure RangeOrder (α : Type) where
  pick : List α → List α
  perm : ∀ l, (pick l).Perm l

/-- The range order that visits entries as they are stored. -/
def RangeOrder.stored {α : Type} : RangeOrder α := ⟨fun l => l, fun l => List.Perm.refl l⟩

/-- The range order that visits entries last to first. -/
def RangeOrder.backwards {α : Type} : RangeOrder α :=
  ⟨fun l => l.reverse, fun l => List.reverse_perm l⟩

/-- An error value: `new` is `errors.New` or `errors.Errorf`, `wrap` is `errors.Wrap` or
`errors.Wrapf`, `nilDereference` is the runtime panic on a nil `BuildModule`. -/
inductive PkgError where
  | new (format : String) (args : List String)
  | wrap (cause : PkgError) (format : String) (args : List String)
  | nilDereference
  deriving DecidableEq, Repr

/-- Modelled from the spec: `dist.ModuleInfo.FullNameWithVersion` (package
`pkg/dist` is not among the sources): `id@version` and no error when the version
is present; for a reference lacking an explicit version, the id together with
an error. -/
def ModuleInfo.FullNameWithVersion (b : ModuleInfo) : String × Option PkgError :=
  if b.Version = "" then
    (b.ID, some (PkgError.new "buildpack %s does not have a version defined" [b.ID]))
  else
    (b.ID ++ "@" ++ b.Version, none)

/-- Modelled from the spec: `stack.MergeCompatible` (package `internal/stack` is
not among the sources), taken as the intersection by stack ID: the stacks of
the first list whose ID also occurs in the second. -/
def MergeCompatible (stacksA stacksB : List Stack) : List Stack :=
  stacksA.filter (fun a => stacksB.any (fun b => b.ID == a.ID))

/-! ## Package builder (`builder.go`): validation -/

/-- Modelled from the spec: the type `FlattenModules` of the field
`flattenBuildpacks` (declared outside the sources): the recorded flatten
groups. -/
structure FlattenModules where
  groups : List (List BuildModule)
  deriving DecidableEq, Repr

/-- Modelled from the spec: `FlattenModules.AddFlattenModules` records one more group. -/
def FlattenModules.AddFlattenModules (f : FlattenModules) (modules : List BuildModule) :
    FlattenModules :=
  ⟨f.groups ++ [modules]⟩

/-- Modelled from the spec: `FlattenModules.Flatten`, true iff the module appears in any
recorded flatten group; a nil module appears in none. -/
def FlattenModules.Flatten (f : FlattenModules) (module : Option BuildModule) : Bool :=
  match module with
  | none => false
  | some m => f.groups.any (fun g => g.any (fun v => v == m))

/-- Modelled from the spec: `FlattenModules.GetFlattenModules`, the recorded groups. -/
def FlattenModules.GetFlattenModules (f : FlattenModules) : List (List BuildModule) :=
  f.groups

/-- The fields of `PackageBuilder` that the builder logic reads; `imageFactory` and
`logger` are collaborators. A nil `BuildModule` is `none`. -/
structure PackageBuilder where
  buildpack : Option BuildModule
  extension : Option BuildModule
  dependencies : List BuildModule
  flattenMetaBuildpacks : Bool
  flattenAllBuildpacks : Bool
  flattenBuildpacks : FlattenModules
  deriving DecidableEq, Repr

/-- Source `NewBuilder`. -/
def NewBuilder : PackageBuilder :=
  { buildpack := none, extension := none, dependencies := [],
    flattenMetaBuildpacks := false, flattenAllBuildpacks := false,
    flattenBuildpacks := ⟨[]⟩ }

def PackageBuilder.SetBuildpack (b : PackageBuilder) (buildpack : BuildModule) :
    PackageBuilder :=
  { b with buildpack := some buildpack }

def PackageBuilder.SetExtension (b : PackageBuilder) (extension : BuildModule) :
    PackageBuilder :=
  { b with extension := some extension }

def PackageBuilder.AddDependency (b : PackageBuilder) (buildpack : BuildModule) :
    PackageBuilder :=
  { b with dependencies := b.dependencies ++ [buildpack] }

def PackageBuilder.AddFlattenModules (b : PackageBuilder) (modules : List BuildModule) :
    PackageBuilder :=
  if b.flattenMetaBuildpacks then
    { b with flattenBuildpacks := b.flattenBuildpacks.AddFlattenModules modules }
  else b

def PackageBuilder.FlattenMetaBuildpacks (b : PackageBuilder) : PackageBuilder :=
  { b with flattenMetaBuildpacks := true }

def PackageBuilder.FlattenAllBuildpacks (b : PackageBuilder) : PackageBuilder :=
  { b with flattenAllBuildpacks := true }

def PackageBuilder.MustBeFlatten (b : PackageBuilder) (module : Option BuildModule) : Bool :=
  b.flattenMetaBuildpacks && b.flattenBuildpacks.Flatten module

def PackageBuilder.FlattenModules (b : PackageBuilder) : List (List BuildModule) :=
  if !b.flattenMetaBuildpacks then [] else b.flattenBuildpacks.GetFlattenModules

/-- Source `PackageBuilder.resolvedStacks`, as a function of the two fields it reads: the
root `buildpack` (non-nil wherever the method is called) and `dependencies`. -/
def resolvedStacks (buildpack : BuildModule) (dependencies : List BuildModule) : List Stack :=
  dependencies.foldl
    (fun stackList bp =>
      if stackList.length = 0 then bp.Descriptor.Stacks
      else if bp.Descriptor.Stacks.length > 0 then
        MergeCompatible stackList bp.Descriptor.Stacks
      else stackList)
    buildpack.Descriptor.Stacks

/-- Body of the innermost loop of `validateBuildpacks` for one group entry of the
module described by `bpd`. -/
def checkGroupEntry (bpd : Descriptor) (depsWithRefs : GoMap (List ModuleInfo))
    (groupEntry : ModuleRef) : Except PkgError (GoMap (List ModuleInfo)) :=
  match groupEntry.ModuleInfo.FullNameWithVersion with
  | (bpFullName, some err) =>
    .error (.wrap err "buildpack %s must specify a version when referencing buildpack %s"
      [bpd.Info.FullName, bpFullName])
  | (bpFullName, none) =>
    match depsWithRefs.get? bpFullName with
    | none =>
      .error (.new "buildpack %s references buildpack %s which is not present"
        [bpd.Info.FullName, bpFullName])
    | some refs => .ok (depsWithRefs.set bpFullName (refs ++ [bpd.Info]))

/-- Source `validateBuildpacks`; `ro` is the order of its `range` over `depsWithRefs`. -/
def validateBuildpacks (ro : RangeOrder (String × List ModuleInfo)) (mainBP : BuildModule)
    (depBPs : List BuildModule) : Except PkgError Unit :=
  let depsWithRefs0 : GoMap (List ModuleInfo) :=
    depBPs.foldl (fun m bp => m.set bp.FullName []) GoMap.empty
  let walked : Except PkgError (GoMap (List ModuleInfo)) :=
    (mainBP :: depBPs).foldlM
      (fun m bp =>
        bp.Descriptor.Order.foldlM
          (fun m orderEntry => orderEntry.Group.foldlM (checkGroupEntry bp.Descriptor) m)
          m)
      depsWithRefs0
  match walked with
  | .error err => .error err
  | .ok depsWithRefs =>
    match (ro.pick depsWithRefs.entries).find? (fun e => e.2.length = 0) with
    | some e =>
      .error (.new "buildpack %s is not used by buildpack %s" [e.1, mainBP.FullName])
    | none => .ok ()

/-- Source `PackageBuilder.validate`. -/
def PackageBuilder.validate (ro : RangeOrder (String × List ModuleInfo))
    (b : PackageBuilder) : Except PkgError Unit :=
  if b.buildpack.isNone && b.extension.isNone then
    .error (.new "buildpack or extension must be set" [])
  else
    match b.buildpack, b.extension with
    | some buildpack, none =>
      match validateBuildpacks ro buildpack b.dependencies with
      | .error err => .error err
      | .ok _ =>
        if (resolvedStacks buildpack b.dependencies).length = 0 then
          .error (.new "no compatible stacks among provided buildpacks" [])
        else .ok ()
    | _, _ => .ok ()

/-! ## Package builder (`builder.go`): assembly -/

/-- The label keys the builder writes, by the name of their Go constant. -/
inductive LabelKey where
  | MetadataLabel
  | BuildpackLayersLabel
  | ExtensionLayersLabel
  deriving DecidableEq, Repr

/-- Modelled from the spec: one entry of the layer-map label (`dist.ModuleLayerInfo`,
declared outside the sources): API version, stack list, layer diffID. -/
structure ModuleLayerInfo where
  API : String
  Stacks : List Stack
  LayerDiffID : String
  deriving DecidableEq, Repr

/-- Modelled from the spec: the layer-map label (`dist.ModuleLayers`, declared outside the
sources), a mapping from module full name to its entry. -/
abbrev ModuleLayers := GoMap ModuleLayerInfo

/-- Modelled from the spec: `dist.AddToLayersMD` (outside the sources) records the
module's API version, stacks and diffID under its full name. -/
def AddToLayersMD (layerMD : ModuleLayers) (descriptor : Descriptor) (diffID : String) :
    ModuleLayers :=
  layerMD.set descriptor.Info.FullName
    { API := descriptor.API, Stacks := descriptor.Stacks, LayerDiffID := diffID }

/-- The data marshalled into a label: `&Metadata` with a module info and stacks, or a
`dist.ModuleLayers`. -/
inductive LabelValue where
  | Metadata (info : ModuleInfo) (stackList : List Stack)
  | ModuleLayers (layers : List (String × ModuleLayerInfo))
  deriving DecidableEq, Repr

/-- A call that leaves the builder: to the tar and hash helpers, the file system, or the
destination image (`SetLabel`, made through `dist.SetLabel`, and `AddLayerWithDiffID`).
The calls after `AddLayerWithDiffID` are made by `SaveAsImage` and `SaveAsFile` only:
`NewImage` on the image factory, `Save` on the image, `newLayoutImage` (lines 380-412,
library calls only, taken as one call), `LayoutWrite` for `layout.Write`, `AppendImage`
for `p.AppendImage`, `Create` for `os.Create`, `Close` for `outputFile.Close`,
`CloseTarWriter` for `tw.Close`. -/
inductive Call where
  | ToLayerTar (dest : String) (module : BuildModule)
  | LayerDiffID (path : String)
  | MkdirAll (path : String)
  | MergeTars (dest : String) (srcs : List String)
  | SetLabel (key : LabelKey) (value : LabelValue)
  | AddLayerWithDiffID (path : String) (diffID : String)
  | NewImage (repoName : String) (isLocal : Bool) (imageOS : String)
  | Save
  | newLayoutImage (imageOS : String)
  | MkdirTemp (dir : String) (pattern : String)
  | RemoveAll (path : String)
  | LayoutWrite (dir : String)
  | AppendImage (dir : String)
  | Create (path : String)
  | WriteDirToTar (dir : String)
  | CloseTarWriter
  | Close (path : String)
  deriving DecidableEq, Repr

/-- Everything outside the builder: the answer to a call, given the calls made before
it. An answer is an error or a string (the tar path, the diffID; unused otherwise). -/
structure World where
  respond : List Call → Call → Except PkgError String

/-- A computation that makes calls: from the calls made so far to its outcome and the
calls made by then. -/
def Run (α : Type) : Type := List Call → Except PkgError α × List Call

def Run.pure {α : Type} (a : α) : Run α := fun trace => (.ok a, trace)

def Run.bind {α β : Type} (x : Run α) (f : α → Run β) : Run β := fun trace =>
  match x trace with
  | (.error err, trace1) => (.error err, trace1)
  | (.ok a, trace1) => f a trace1

instance : Monad Run where
  pure := Run.pure
  bind := Run.bind

/-- Return `err` (or panic with it) without making a call. -/
def Run.fail {α : Type} (err : PkgError) : Run α := fun trace => (.error err, trace)

/-- Make one call and take the answer of the world. -/
def World.call (w : World) (c : Call) : Run String := fun trace =>
  (w.respond trace c, trace ++ [c])

/-- The pattern `if err != nil { return errors.Wrapf(err, format, args...) }`. -/
def Run.wrapErr {α : Type} (x : Run α) (format : String) (args : List String) : Run α :=
  fun trace =>
    match x trace with
    | (.error err, trace1) => (.error (.wrap err format args), trace1)
    | (.ok a, trace1) => (.ok a, trace1)

/-- The function `filepath.Join` on two clean, non-empty elements. -/
def filepathJoin (dir name : String) : String := dir ++ "/" ++ name

structure toAdd where
  tarPath : String
  diffID : String
  module : Option BuildModule
  deriving DecidableEq, Repr

/-- The zero value read from `collectionToAdd` at an absent key. -/
def toAdd.zero : toAdd := { tarPath := "", diffID := "", module := none }

/-- The orders of the three `range` loops of `finalizeImage` over `collectionToAdd`:
collecting the tar paths to merge, rewriting the entries, adding the layers. -/
structure FinalizeOrders where
  tars : RangeOrder (String × toAdd)
  rewrite : RangeOrder (String × toAdd)
  layers : RangeOrder (String × toAdd)

/-- Every `range` visits the entries as stored. -/
def FinalizeOrders.stored : FinalizeOrders :=
  ⟨RangeOrder.stored, RangeOrder.stored, RangeOrder.stored⟩

/-- Source `finalizeImage`, lines 138-156: the tarball and content hash of each module. -/
def tarModules (w : World) (tmpDir : String) :
    List BuildModule → GoMap toAdd → Run (GoMap toAdd)
  | [], collectionToAdd => pure collectionToAdd
  | bp :: rest, collectionToAdd => do
    let bpLayerTar ← w.call (.ToLayerTar tmpDir bp)
    let diffID ← (w.call (.LayerDiffID bpLayerTar)).wrapErr
      "getting content hashes for buildpack %s" [bp.FullName]
    tarModules w tmpDir rest
      (collectionToAdd.set bp.FullName
        { tarPath := bpLayerTar, diffID := diffID, module := some bp })

/-- The loop "update the diffId and tar path for each module squashed" over the keys
`keys`. -/
def squash (tarPath diffID : String) (keys : List String) (collectionToAdd : GoMap toAdd) :
    GoMap toAdd :=
  keys.foldl
    (fun c key =>
      c.set key { (c.get? key).getD toAdd.zero with tarPath := tarPath, diffID := diffID })
    collectionToAdd

/-- Source `finalizeImage`, lines 158-188: squash all buildpacks in a single layer. -/
def flattenAll (w : World) (ro : FinalizeOrders) (tmpDir : String)
    (collectionToAdd : GoMap toAdd) : Run (GoMap toAdd) := do
  let modFlattenTmpDir := filepathJoin tmpDir "buildpack-all-flatten"
  let _ ← (w.call (.MkdirAll modFlattenTmpDir)).wrapErr "creating flatten temp dir" []
  let finalTarPath := filepathJoin modFlattenTmpDir "all-flatten.tar"
  let tarsPath := (ro.tars.pick collectionToAdd.entries).map (fun e => e.2.tarPath)
  let _ ← (w.call (.MergeTars finalTarPath tarsPath)).wrapErr "merging modules tar files" []
  let diffID ← (w.call (.LayerDiffID finalTarPath)).wrapErr "adding layer %s" [finalTarPath]
  pure (squash finalTarPath diffID
    ((ro.rewrite.pick collectionToAdd.entries).map Prod.fst) collectionToAdd)

/-- Source `finalizeImage`, lines 189-222: squash each flatten group; `i` is the index
of the first group of the list. -/
def flattenGroups (w : World) (tmpDir : String) :
    List (List BuildModule) → Nat → GoMap toAdd → Run (GoMap toAdd)
  | [], _, collectionToAdd => pure collectionToAdd
  | flattenModules :: rest, i, collectionToAdd => do
    let modFlattenTmpDir := filepathJoin tmpDir ("buildpack-flatten-" ++ toString i)
    let _ ← (w.call (.MkdirAll modFlattenTmpDir)).wrapErr "creating flatten temp dir" []
    let flattenTarFilePath :=
      filepathJoin modFlattenTmpDir ("buildpack-flatten-" ++ toString i ++ ".tar")
    let tarsPath := flattenModules.map
      (fun module => ((collectionToAdd.get? module.FullName).getD toAdd.zero).tarPath)
    let _ ← (w.call (.MergeTars flattenTarFilePath tarsPath)).wrapErr
      "merging modules tar files" []
    let diffID ← (w.call (.LayerDiffID flattenTarFilePath)).wrapErr
      "adding layer %s" [flattenTarFilePath]
    flattenGroups w tmpDir rest (i + 1)
      (squash flattenTarFilePath diffID (flattenModules.map BuildModule.FullName)
        collectionToAdd)

/-- Source `finalizeImage`, lines 230-237: whether the layer of `module` is added, and
the set `diffIdAdded` afterwards. -/
def layerDecision (b : PackageBuilder) (module : toAdd) (diffIdAdded : GoMap String) :
    Bool × GoMap String :=
  if b.MustBeFlatten module.module || b.flattenAllBuildpacks then
    match diffIdAdded.get? module.diffID with
    | none => (true, diffIdAdded.set module.diffID module.tarPath)
    | some _ => (false, diffIdAdded)
  else (true, diffIdAdded)

/-- Source `finalizeImage`, lines 227-245: add each layer once and record every module
in the layer map; `entries` is `collectionToAdd` in the order of the `range`. A nil
module panics where its descriptor is first needed. The `logger.Debugf` line is left
out. -/
def addLayers (w : World) (b : PackageBuilder) :
    List (String × toAdd) → GoMap String → ModuleLayers → Run ModuleLayers
  | [], _, bpLayers => pure bpLayers
  | (_, module) :: rest, diffIdAdded, bpLayers =>
    let decision := layerDecision b module diffIdAdded
    match module.module with
    | none =>
      (if decision.1 then w.call (.AddLayerWithDiffID module.tarPath module.diffID)
        else pure "") >>= fun _ =>
      Run.fail .nilDereference
    | some bp =>
      (if decision.1 then
          (w.call (.AddLayerWithDiffID module.tarPath module.diffID)).wrapErr
            "adding layer tar for buildpack %s" [bp.FullName]
        else pure "") >>= fun _ =>
      addLayers w b rest decision.2 (AddToLayersMD bpLayers bp.Descriptor module.diffID)

/-- Source `finalizeImage`, lines 136-222: the collection of layers to add, after the
squashing asked for by the flags. -/
def collectLayers (w : World) (ro : FinalizeOrders) (b : PackageBuilder)
    (buildpack : BuildModule) (tmpDir : String) : Run (GoMap toAdd) := do
  let collectionToAdd ← tarModules w tmpDir (b.dependencies ++ [buildpack]) GoMap.empty
  if b.flattenAllBuildpacks then flattenAll w ro tmpDir collectionToAdd
  else if b.flattenMetaBuildpacks then
    flattenGroups w tmpDir b.FlattenModules 0 collectionToAdd
  else pure collectionToAdd

/-- Source `PackageBuilder.finalizeImage`; `dist.SetLabel` (outside the sources) is
modelled from the spec as writing the marshalled data as one label of the image. -/
def PackageBuilder.finalizeImage (w : World) (ro : FinalizeOrders) (b : PackageBuilder)
    (tmpDir : String) : Run Unit :=
  match b.buildpack with
  | none => Run.fail .nilDereference
  | some buildpack => do
    let _ ← w.call (.SetLabel .MetadataLabel
      (.Metadata buildpack.Descriptor.Info (resolvedStacks buildpack b.dependencies)))
    let collectionToAdd ← collectLayers w ro b buildpack tmpDir
    let bpLayers ← addLayers w b (ro.layers.pick collectionToAdd.entries) GoMap.empty
      GoMap.empty
    let _ ← w.call (.SetLabel .BuildpackLayersLabel (.ModuleLayers bpLayers.entries))
    pure ()

/-- Source `PackageBuilder.finalizeExtensionImage`. -/
def PackageBuilder.finalizeExtensionImage (w : World) (b : PackageBuilder)
    (tmpDir : String) : Run Unit :=
  match b.extension with
  | none => Run.fail .nilDereference
  | some extension => do
    let _ ← w.call (.SetLabel .MetadataLabel (.Metadata extension.Descriptor.Info []))
    let exLayerTar ← w.call (.ToLayerTar tmpDir extension)
    let diffID ← (w.call (.LayerDiffID exLayerTar)).wrapErr
      "getting content hashes for extension %s" [extension.FullName]
    let _ ← (w.call (.AddLayerWithDiffID exLayerTar diffID)).wrapErr
      "adding layer tar for extension %s" [extension.FullName]
    let exLayers := AddToLayersMD GoMap.empty extension.Descriptor diffID
    let _ ← w.call (.SetLabel .ExtensionLayersLabel (.ModuleLayers exLayers.entries))
    pure ()

/-- The calls `finalizeImage` makes on the destination image: `SetLabel` and
`AddLayerWithDiffID`. -/
def Call.onImage : Call → Bool
  | .SetLabel _ _ => true
  | .AddLayerWithDiffID _ _ => true
  | _ => false

def Call.isAddLayer : Call → Bool
  | .AddLayerWithDiffID _ _ => true
  | _ => false

def Call.isSetLabel : Call → Bool
  | .SetLabel _ _ => true
  | _ => false

/-- A world in which every call succeeds: the tar of a module is written under its full
name, the hash of a file is derived from its path. -/
def World.agreeable : World :=
  ⟨fun _ c =>
    match c with
    | .ToLayerTar dest module => .ok (filepathJoin dest (module.FullName ++ ".tar"))
    | .LayerDiffID path => .ok ("sha256:" ++ path)
    | _ => .ok ""⟩

/-! ## Package builder (`builder.go`): output -/

/-- A deferred call (`defer`): made when `x` is over, whatever its outcome; its answer is
not read. -/
def Run.deferCall {α : Type} (c : Call) (x : Run α) : Run α := fun trace =>
  match x trace with
  | (r, trace1) => (r, trace1 ++ [c])

/-- The name pattern of the temporary directory chosen by `SaveAsImage` and
`SaveAsFile`. -/
def PackageBuilder.tempDirName (b : PackageBuilder) : String :=
  if b.buildpack.isSome then "package-buildpack"
  else if b.extension.isSome then "extension-buildpack"
  else ""

/-- The branch shared by `SaveAsImage` (lines 435-443) and `SaveAsFile` (lines 345-353):
finalize the buildpack image, else the extension image. -/
def PackageBuilder.finalizeEither (w : World) (ro : FinalizeOrders) (b : PackageBuilder)
    (tmpDir : String) : Run Unit :=
  if b.buildpack.isSome then b.finalizeImage w ro tmpDir
  else if b.extension.isSome then b.finalizeExtensionImage w tmpDir
  else pure ()

/-- Source `PackageBuilder.SaveAsImage`; the value returned is the image handle
answered by `NewImage`. `vo` is the range order of `validate`. -/
def PackageBuilder.SaveAsImage (w : World) (vo : RangeOrder (String × List ModuleInfo))
    (ro : FinalizeOrders) (b : PackageBuilder) (repoName : String) (publish : Bool)
    (imageOS : String) : Run String :=
  match b.validate vo with
  | .error err => Run.fail err
  | .ok _ => do
    let image ← (w.call (.NewImage repoName (!publish) imageOS)).wrapErr "creating image" []
    let tmpDir ← w.call (.MkdirTemp "" b.tempDirName)
    Run.deferCall (.RemoveAll tmpDir)
      (b.finalizeEither w ro tmpDir >>= fun _ =>
        w.call .Save >>= fun _ =>
        pure image)

/-- Source `PackageBuilder.SaveAsFile`. -/
def PackageBuilder.SaveAsFile (w : World) (vo : RangeOrder (String × List ModuleInfo))
    (ro : FinalizeOrders) (b : PackageBuilder) (path : String) (imageOS : String) :
    Run Unit :=
  match b.validate vo with
  | .error err => Run.fail err
  | .ok _ => do
    let _ ← (w.call (.newLayoutImage imageOS)).wrapErr "creating layout image" []
    let tmpDir ← w.call (.MkdirTemp "" b.tempDirName)
    Run.deferCall (.RemoveAll tmpDir)
      (b.finalizeEither w ro tmpDir >>= fun _ =>
        (w.call (.MkdirTemp tmpDir "oci-layout")).wrapErr "creating oci-layout temp dir" []
          >>= fun layoutDir =>
        (w.call (.LayoutWrite layoutDir)).wrapErr "writing index" [] >>= fun _ =>
        (w.call (.AppendImage layoutDir)).wrapErr "writing layout" [] >>= fun _ =>
        (w.call (.Create path)).wrapErr "creating output file" [] >>= fun _ =>
        Run.deferCall (.Close path)
          (Run.deferCall .CloseTarWriter
            (w.call (.WriteDirToTar layoutDir) >>= fun _ => pure ())))

/-! ## Registry mirrors (`internal/name/name.go`) -/

/-- What `TranslateRegistry` reads of a parsed reference `srcRef`:
`srcRef.Context().RegistryStr()`, `srcRef.Context().RepositoryStr()` and
`srcRef.Identifier()` (the tag of a tagged reference). -/
structure Reference where
  RegistryStr : String
  RepositoryStr : String
  Identifier : String
  deriving DecidableEq, Repr

/-- Source `TranslateRegistry`. `ParseReference` is `gname.ParseReference` with
`gname.WeakValidation`, of the library go-containerregistry; a nil map is `none`. -/
def TranslateRegistry (ParseReference : String → Except PkgError Reference) (name : String)
    (registryMirrors : Option (GoMap String)) : Except PkgError String :=
  match registryMirrors with
  | none => .ok name
  | some mirrors =>
    match ParseReference name with
    | .error err => .error err
    | .ok srcRef =>
      match mirrors.get? srcRef.RegistryStr with
      | none => .ok name
      | some registryMirror =>
        let refName :=
          registryMirror ++ "/" ++ srcRef.RepositoryStr ++ ":" ++ srcRef.Identifier
        match ParseReference refName with
        | .error err => .error err
        | .ok _ => .ok refName

/-- A parser that knows the two references of the mirror test, split as the library
splits them, and rejects every other string. -/
def sampleParseReference (s : String) : Except PkgError Reference :=
  if s = "index.docker.io/my/buildpack:0.1" then
    .ok { RegistryStr := "index.docker.io", RepositoryStr := "my/buildpack",
          Identifier := "0.1" }
  else if s = "10.0.0.1/my/buildpack:0.1" then
    .ok { RegistryStr := "10.0.0.1", RepositoryStr := "my/buildpack", Identifier := "0.1" }
  else .error (.new "could not parse reference: %s" [s])

/-! ## Module locator resolver (`pkg/buildpack/downloader`) -/

/-- Modelled from the spec: the pull policy of the image fetcher (`config.PullPolicy`,
declared outside the sources): `always`, `never`, `if-not-present`. -/
inductive PullPolicy where
  | PullAlways
  | PullNever
  | PullIfNotPresent
  deriving DecidableEq, Repr

/-- Modelled from the spec: the resolution options (`BuildpackDownloadOptions`; the code
of the downloader is not among the sources, only its test is): target registry name,
target OS, base directory for relative paths, daemon-vs-remote preference, pull policy,
and the explicit image reference. -/
structure BuildpackDownloadOptions where
  RegistryName : String
  ImageOS : String
  RelativeBaseDir : String
  Daemon : Bool
  PullPolicy : PullPolicy
  ImageName : String
  deriving DecidableEq, Repr

/-- Modelled from the spec: the shape a locator string is recognized to have, one
variant per recognizer of section 4.1: registry URN, image reference, local path,
ambiguous bare identifier (which may also be recognizable as an image reference), and
anything else, with the name of the recognizer that rejected it. -/
inductive LocatorShape where
  | RegistryURN
  | ImageReference
  | LocalPath
  | BareIdentifier (isImageReference : Bool)
  | Invalid (recognizer : String)
  deriving DecidableEq, Repr

/-- Modelled from the spec: what the resolver reads from a fetched image (the image type
is declared outside the sources): the keys of the labels it carries and, when its
layer-map label can be read, the root module and the bundled dependency modules the
label records. -/
structure PackageImage where
  labels : List String
  contents : Option (BuildModule × List BuildModule)
  deriving DecidableEq, Repr

/-- Modelled from the spec: the collaborators the resolver consumes (section 6), and the
recognizers of locator shapes, none of them among the sources: `Resolve(registryName,
identifier)` of the registry resolver, `Fetch(reference, daemon, pullPolicy)` of the image
fetcher, `Download(locator)` of the content downloader (the blob read as a module). -/
structure Collaborators where
  shapeOf : String → LocatorShape
  Resolve : String → String → Except PkgError String
  Fetch : String → Bool → PullPolicy → Except PkgError PackageImage
  Download : String → Except PkgError BuildModule

/-- A call the resolver makes on one of its collaborators. -/
inductive CollaboratorCall where
  | Resolve (registryName : String) (identifier : String)
  | Fetch (reference : String) (daemon : Bool) (pullPolicy : PullPolicy)
  | Download (locator : String)
  deriving DecidableEq, Repr

/-- The key of the package-metadata label, as the downloader test spells it. -/
def MetadataLabelName : String := "io.buildpacks.buildpackage.metadata"

/-- The key of the layer-map label of buildpacks, as the downloader test spells it. -/
def BuildpackLayersLabelName : String := "io.buildpacks.buildpack.layers"

/-- Modelled from the spec: step 3 of the resolution (the code of the downloader is
not among the sources): fetch the image with `daemon` and `pullPolicy`; the fetched image
must carry the package label, whose absence is a hard error; its presence yields the root
module and the dependency modules recorded in the layer-map label. The label required
and the wording of the errors are those the downloader test expects: the
package-metadata label, `could not find label`, `extracting buildpacks from`. Returns
the outcome and the collaborator calls made. -/
def extractPackaged (c : Collaborators) (reference : String) (opts : BuildpackDownloadOptions) :
    Except PkgError (BuildModule × List BuildModule) × List CollaboratorCall :=
  match c.Fetch reference opts.Daemon opts.PullPolicy with
  | .error err =>
    (.error (.wrap err "fetching image" []), [.Fetch reference opts.Daemon opts.PullPolicy])
  | .ok image =>
    if MetadataLabelName ∈ image.labels then
      match image.contents with
      | some modules => (.ok modules, [.Fetch reference opts.Daemon opts.PullPolicy])
      | none =>
        (.error (.wrap (.new "could not find label %s" [BuildpackLayersLabelName])
          "extracting buildpacks from %s" [reference]),
         [.Fetch reference opts.Daemon opts.PullPolicy])
    else
      (.error (.wrap (.new "could not find label %s" [MetadataLabelName])
        "extracting buildpacks from %s" [reference]),
       [.Fetch reference opts.Daemon opts.PullPolicy])

/-- Modelled from the spec: the image strategy, step 3 with its error wrapped with the
name of the stage (`extracting from registry`, as the downloader test expects of a failed
fetch); `before` holds the calls made earlier. -/
def fromImage (c : Collaborators) (reference : String) (opts : BuildpackDownloadOptions)
    (before : List CollaboratorCall) :
    Except PkgError (BuildModule × List BuildModule) × List CollaboratorCall :=
  match extractPackaged c reference opts with
  | (.error err, calls) =>
    (.error (.wrap err "extracting from registry %s" [reference]), before ++ calls)
  | (.ok modules, calls) => (.ok modules, before ++ calls)

/-- Modelled from the spec: `Download(moduleURI, options)`, the operation `Resolve` of
section 4.1 (the code of the downloader is not among the sources, only its test is). The
strategies in their order of precedence: a registry URN is looked up in the registry
resolver and the reference obtained is fetched; else the explicit image reference of
the options, when given, is fetched; else an image reference is fetched; a local path is
read from disk, no dependencies implied; an ambiguous bare identifier is looked up in the
registry first and, when the lookup errors, rejected unless it is recognizable as an
image reference; anything else is an invalid locator, naming the recognizer. Every
strategy wraps its error with the name of its stage and nothing is retried. Returns the
outcome and the collaborator calls made, in order. -/
def Download (c : Collaborators) (moduleURI : String) (opts : BuildpackDownloadOptions) :
    Except PkgError (BuildModule × List BuildModule) × List CollaboratorCall :=
  match c.shapeOf moduleURI, opts.ImageName == "" with
  | .RegistryURN, _ =>
    match c.Resolve opts.RegistryName moduleURI with
    | .error err =>
      (.error (.wrap err "locating in registry: %s" [moduleURI]),
       [.Resolve opts.RegistryName moduleURI])
    | .ok reference => fromImage c reference opts [.Resolve opts.RegistryName moduleURI]
  | _, false => fromImage c opts.ImageName opts []
  | .ImageReference, true => fromImage c moduleURI opts []
  | .LocalPath, true =>
    match c.Download moduleURI with
    | .error err =>
      (.error (.wrap err "downloading from path %s" [moduleURI]), [.Download moduleURI])
    | .ok module => (.ok (module, []), [.Download moduleURI])
  | .BareIdentifier isImageReference, true =>
    match c.Resolve opts.RegistryName moduleURI with
    | .ok reference => fromImage c reference opts [.Resolve opts.RegistryName moduleURI]
    | .error err =>
      if isImageReference then
        fromImage c moduleURI opts [.Resolve opts.RegistryName moduleURI]
      else
        (.error (.wrap err "locating in registry: %s" [moduleURI]),
         [.Resolve opts.RegistryName moduleURI])
  | .Invalid recognizer, true =>
    (.error (.new "invalid locator: %s" [recognizer]), [])

/-! ## Notions used to state the properties -/

/-- The order-group references met by the triple loop of `validateBuildpacks` over
`bps`, in the order met, each with the descriptor of the module holding it. -/
def orderRefs (bps : List BuildModule) : List (Descriptor × ModuleRef) :=
  bps.flatMap (fun bp =>
    bp.Descriptor.Order.flatMap (fun orderEntry =>
      orderEntry.Group.map (fun groupEntry => (bp.Descriptor, groupEntry))))

/-- The map `depsWithRefs` as first filled by `validateBuildpacks`. -/
def initialDepsWithRefs (depBPs : List BuildModule) : GoMap (List ModuleInfo) :=
  depBPs.foldl (fun m bp => m.set bp.FullName []) GoMap.empty

/-- The triple loop of `validateBuildpacks` run over the flat list of references. -/
def walkRefs (refs : List (Descriptor × ModuleRef)) (m : GoMap (List ModuleInfo)) :
    Except PkgError (GoMap (List ModuleInfo)) :=
  refs.foldlM (fun m p => checkGroupEntry p.1 m p.2) m

/-- A reference passes both checks of `validateBuildpacks`: it carries a version and its
full name is one of `names`. -/
def refResolves (names : List String) (p : Descriptor × ModuleRef) : Prop :=
  p.2.ModuleInfo.Version ≠ "" ∧ p.2.ModuleInfo.FullName ∈ names

instance refResolvesDecidable (names : List String) (p : Descriptor × ModuleRef) :
    Decidable (refResolves names p) :=
  inferInstanceAs (Decidable (_ ∧ _))

/-- Running `x` after `trace` only appends calls, each satisfying `P`, and on success
returns a value satisfying `Q`. -/
def Run.Emits {α : Type} (x : Run α) (P : Call → Prop) (Q : α → Prop) : Prop :=
  ∀ trace, ∃ extra, (x trace).2 = trace ++ extra ∧ (∀ c ∈ extra, P c) ∧
    ∀ a, (x trace).1 = .ok a → Q a

/-- Every entry of the collection holds a module filed under its own full name, and no
key occurs twice. -/
def WellKeyed (c : GoMap toAdd) : Prop :=
  c.keys.Nodup ∧ ∀ e ∈ c.entries, ∃ bp, e.2.module = some bp ∧ bp.FullName = e.1

/-- The state after the calls `AddModules(main, deps...)` of `calls`, made in order. -/
def ModuleManager.addAll (f : ModuleManager) (calls : List (BuildModule × List BuildModule)) :
    ModuleManager :=
  calls.foldl (fun f c => f.AddModules c.1 c.2) f

/-- The path `finalTarPath` of the tar holding all modules (lines 160-164). -/
def allFlattenTarPath (tmpDir : String) : String :=
  filepathJoin (filepathJoin tmpDir "buildpack-all-flatten") "all-flatten.tar"

/-- The path `flattenTarFilePath` of the tar of the flatten group of index `i`
(lines 192-196). -/
def groupFlattenTarPath (tmpDir : String) (i : Nat) : String :=
  filepathJoin (filepathJoin tmpDir ("buildpack-flatten-" ++ toString i))
    ("buildpack-flatten-" ++ toString i ++ ".tar")

/-- In `trace`, `diffID` is the content hash of the layer tar of `module` itself: the
call `ToLayerTar(tmpDir, module)`, answered `tar`, is followed by the call
`LayerDiffID(tar)`, answered `diffID`. -/
def OwnLayerHash (w : World) (trace : List Call) (tmpDir : String) (module : BuildModule)
    (diffID : String) : Prop :=
  ∃ pre tar post,
    trace = pre ++ [Call.ToLayerTar tmpDir module, Call.LayerDiffID tar] ++ post ∧
    w.respond pre (Call.ToLayerTar tmpDir module) = .ok tar ∧
    w.respond (pre ++ [Call.ToLayerTar tmpDir module]) (Call.LayerDiffID tar) = .ok diffID

/-- In `trace`, `diffID` is the content hash of the merged tar `dest`: a call
`MergeTars(dest, ...)` is followed by the call `LayerDiffID(dest)`, answered `diffID`. -/
def MergedLayerHash (w : World) (trace : List Call) (dest : String) (diffID : String) : Prop :=
  ∃ pre srcs post,
    trace = pre ++ [Call.MergeTars dest srcs, Call.LayerDiffID dest] ++ post ∧
    w.respond (pre ++ [Call.MergeTars dest srcs]) (Call.LayerDiffID dest) = .ok diffID

/-- A world in which the hash of a file is derived from the content last written to it:
the blob of the module last tarred. Every call succeeds. -/
def World.byContent : World :=
  ⟨fun trace c =>
    match c with
    | .ToLayerTar dest module => .ok (filepathJoin dest (module.FullName ++ ".tar"))
    | .LayerDiffID _ =>
      match trace.getLast? with
      | some (.ToLayerTar _ module) => .ok ("sha256:" ++ module.blob)
      | _ => .ok "sha256:merged"
    | _ => .ok ""⟩

/-- The order of `a` references `b` by full name and references no other name. -/
def refersOnlyTo (a b : BuildModule) : Prop :=
  b.FullName ∈ orderNames a.Descriptor.Order ∧
    ∀ x ∈ orderNames a.Descriptor.Order, x = b.FullName

instance refersOnlyToDecidable (a b : BuildModule) : Decidable (refersOnlyTo a b) :=
  inferInstanceAs (Decidable (_ ∧ _))

/-- The modules form a composition chain: each one but the last references the next
one and nothing else. -/
def compositionChain : List BuildModule → Bool
  | a :: b :: rest => decide (refersOnlyTo a b) && compositionChain (b :: rest)
  | _ => true

/-- Module `c` is reached from module `a` by following order references, each resolved
by full name to a module of `deps`. -/
inductive Reachable (deps : List BuildModule) : BuildModule → BuildModule → Prop where
  | here (a : BuildModule) : Reachable deps a a
  | step (a b c : BuildModule) : b ∈ deps → b.FullName ∈ orderNames a.Descriptor.Order →
      Reachable deps b c → Reachable deps a c

/-- A check of `Reachable` along paths of at most `n` references. -/
def reachableWithin : Nat → List BuildModule → BuildModule → BuildModule → Bool
  | 0, _, a, c => decide (a = c)
  | n + 1, deps, a, c =>
    decide (a = c) ||
      deps.any (fun b =>
        decide (b.FullName ∈ orderNames a.Descriptor.Order) && reachableWithin n deps b c)

/-- The stack ID is in the intersection of the stack-ID sets of the modules of `modules`
that declare stacks: some module declares it, and so does every module with non-empty
stacks. -/
def inEveryStackSet (modules : List BuildModule) (id : String) : Prop :=
  (∃ m ∈ modules, id ∈ m.Descriptor.Stacks.map Stack.ID) ∧
  ∀ m ∈ modules, m.Descriptor.Stacks ≠ [] → id ∈ m.Descriptor.Stacks.map Stack.ID

instance inEveryStackSetDecidable (modules : List BuildModule) (id : String) :
    Decidable (inEveryStackSet modules id) :=
  inferInstanceAs (Decidable (_ ∧ _))

/-- One invocation of `calculateFlattenModules`: what it receives, and the dependency
list of the invocation that made it (`none` for the outermost one). -/
structure FlattenCall where
  main : BuildModule
  deps : List BuildModule
  depth : Int
  callerDeps : Option (List BuildModule)
  deriving DecidableEq, Repr

/-- The invocations of `calculateFlattenModules` made while
`calculateFlattenModules(main, deps, depth)` runs, itself first: the control flow of the
source with the result left out. -/
def flattenCalls (maxDepth : Int) (callerDeps : Option (List BuildModule))
    (main : BuildModule) (deps : List BuildModule) (depth : Int) : List FlattenCall :=
  let orders := main.Descriptor.Order
  { main := main, deps := deps, depth := depth, callerDeps := callerDeps } ::
    (if orders.length > 0 then
      if _h : depth < maxDepth then
        let split := buildpacksFromGroup orders deps
        split.1.flatMap (fun bp => flattenCalls maxDepth (some deps) bp split.2 (depth + 1))
      else []
    else [])
termination_by (maxDepth - depth).toNat
decreasing_by omega

/-- Source `flattenModuleRecurser.calculateFlattenModules` run with a bound on the
nesting of invocations: `none` when the bound is used up before the result is known. -/
def calculateFlattenModulesFuel : Nat → Int → BuildModule → List BuildModule → Int →
    Option (List (List BuildModule))
  | 0, _, _, _, _ => none
  | fuel + 1, maxDepth, main, deps, depth =>
    let orders := main.Descriptor.Order
    if orders.length > 0 then
      let atMax := if depth = maxDepth then [main :: deps] else []
      if depth < maxDepth then
        let split := buildpacksFromGroup orders deps
        split.1.foldl
          (fun acc bp =>
            match acc, calculateFlattenModulesFuel fuel maxDepth bp split.2 (depth + 1) with
            | some groups, some more => some (groups ++ more)
            | _, _ => none)
          (some (atMax ++ [[main]]))
      else some atMax
    else some [[main]]

/-! ## Sample modules -/

/-- A module with empty order and the given stack IDs. -/
def leafModule (id version : String) (stackIDs : List String) : BuildModule :=
  { Descriptor :=
      { API := "0.3",
        Info := { ID := id, Version := version },
        Stacks := stackIDs.map (fun s => { ID := s, Mixins := [] }),
        Order := [] },
    blob := id }

/-- A module with no stacks whose order is one group of the given references. -/
def metaModule (id version : String) (refs : List (String × String)) : BuildModule :=
  { Descriptor :=
      { API := "0.3",
        Info := { ID := id, Version := version },
        Stacks := [],
        Order := [OrderEntry.mk (refs.map (fun r => ModuleRef.mk (ModuleInfo.mk r.1 r.2) false))] },
    blob := id }

/-- A composition tree whose two inner modules each compose one leaf. -/
def treeRoot : BuildModule := metaModule "root" "1" [("a", "1"), ("x", "1")]

/-- The dependencies of `treeRoot`: its two children and their leaves. -/
def treeDeps : List BuildModule :=
  [metaModule "a" "1" [("b", "1")], metaModule "x" "1" [("y", "1")],
   leafModule "b" "1" ["s"], leafModule "y" "1" ["s"]]

/-- A builder with per-group flattening: a root, two dependencies, and one registered
flatten group holding the first dependency. -/
def groupFlattenBuilder : PackageBuilder :=
  ((((NewBuilder.SetBuildpack
    (metaModule "meta/root" "1.0.0" [("dep/a", "1.0.0"), ("dep/b", "1.0.0")])).AddDependency
    (leafModule "dep/a" "1.0.0" ["some.stack.id"])).AddDependency
    (leafModule "dep/b" "1.0.0" ["some.stack.id"])).FlattenMetaBuildpacks).AddFlattenModules
    [leafModule "dep/a" "1.0.0" ["some.stack.id"]]

/-- A builder given two dependencies of the same full name `dep/a@1.0.0` and different
content. -/
def sameNameBuilder : PackageBuilder :=
  ((NewBuilder.SetBuildpack (metaModule "meta/root" "1.0.0" [("dep/a", "1.0.0")])).AddDependency
    { leafModule "dep/a" "1.0.0" ["some.stack.id"] with blob := "content-1" }).AddDependency
    { leafModule "dep/a" "1.0.0" ["some.stack.id"] with blob := "content-2" }

/-- The collaborators of the downloader test: every `urn:cnb:registry:` string is a
registry URN and nothing else is recognized; the registry resolver fails; the fetcher
returns for `docker.io/not/package` an image that carries the layer-map label and no
package-metadata label. -/
def sampleCollaborators : Collaborators :=
  { shapeOf := fun s =>
      if "urn:cnb:registry:".toList.isPrefixOf s.toList then .RegistryURN else .Invalid "InvalidLocator",
    Resolve := fun _ _ => .error (.new "bad mhkay" []),
    Fetch := fun reference _ _ =>
      if reference = "docker.io/not/package" then
        .ok { labels := [BuildpackLayersLabelName], contents := none }
      else .error (.new "failed to pull" []),
    Download := fun _ => .error (.new "not found" []) }

/-- The options of the downloader test for the image that is not a package. -/
def notPackageOptions : BuildpackDownloadOptions :=
  { RegistryName := "", ImageOS := "linux", RelativeBaseDir := "", Daemon := false,
    PullPolicy := .PullAlways, ImageName := "docker.io/not/package" }

/-- The options of the downloader test for the registry that cannot be resolved. -/
def badRegistryOptions : BuildpackDownloadOptions :=
  { RegistryName := "://bad-url", ImageOS := "linux", RelativeBaseDir := "", Daemon := false,
    PullPolicy := .PullAlways, ImageName := "" }

/-! ## Module manager: where the modules go -/

theorem buildpacksFromGroup_foldl (set : List String) (deps : List BuildModule)
    (acc : List BuildModule × List BuildModule) :
    deps.foldl
      (fun acc dep =>
        if dep.FullName ∈ set then (acc.1 ++ [dep], acc.2) else (acc.1, acc.2 ++ [dep]))
      acc
    = (acc.1 ++ deps.filter (fun dep => decide (dep.FullName ∈ set)),
       acc.2 ++ deps.filter (fun dep => !decide (dep.FullName ∈ set))) := by
  induction deps generalizing acc with
  | nil => simp
  | cons d ds ih =>
    rw [List.foldl_cons, ih]
    by_cases h : d.FullName ∈ set <;> simp [h]

theorem buildpacksFromGroup_eq (orders : Order) (deps : List BuildModule) :
    buildpacksFromGroup orders deps
      = (deps.filter (fun dep => decide (dep.FullName ∈ orderNames orders)),
         deps.filter (fun dep => !decide (dep.FullName ∈ orderNames orders))) := by
  unfold buildpacksFromGroup
  rw [buildpacksFromGroup_foldl]
  simp

theorem mem_calculateFlattenModules (maxDepth : Int) (n : Nat) :
    ∀ (main : BuildModule) (deps : List BuildModule) (depth : Int),
      (maxDepth - depth).toNat = n →
      ∀ g ∈ calculateFlattenModules maxDepth main deps depth, ∀ m ∈ g, m = main ∨ m ∈ deps := by
  induction n using Nat.strong_induction_on with
  | _ n ih =>
    intro main deps depth hn g hg m hm
    rw [calculateFlattenModules] at hg
    simp only [buildpacksFromGroup_eq] at hg
    split at hg
    · rw [List.mem_append] at hg
      rcases hg with hg | hg
      · split at hg
        · simp at hg; subst hg; simpa using hm
        · simp at hg
      · split at hg
        · rename_i hlt
          rw [List.mem_cons] at hg
          rcases hg with hg | hg
          · subst hg; left; simpa using hm
          · rw [List.mem_flatMap] at hg
            obtain ⟨bp, hbp, hg⟩ := hg
            have := ih ((maxDepth - (depth + 1)).toNat) (by omega) bp _ (depth + 1) rfl g hg m hm
            right
            rcases this with h | h
            · subst h; exact (List.mem_filter.mp hbp).1
            · exact (List.mem_filter.mp h).1
        · simp at hg
    · simp at hg; subst hg; left; simpa using hm

theorem sum_count_eq_zero (m : BuildModule) (gs : List (List BuildModule))
    (h : ∀ g ∈ gs, m ∉ g) : (gs.map (fun g => g.count m)).sum = 0 := by
  induction gs with
  | nil => rfl
  | cons g gs ih =>
    have h1 : g.count m = 0 := List.count_eq_zero.mpr (h g (List.mem_cons_self _ _))
    have h2 := ih (fun g hg => h g (List.mem_cons_of_mem _ hg))
    simp only [List.map_cons, List.sum_cons, h1, h2]

theorem count_main_calculateFlattenModules (maxDepth : Int) (main : BuildModule)
    (deps : List BuildModule) (h0 : 0 ≤ maxDepth) (hmain : main ∉ deps) :
    ((calculateFlattenModules maxDepth main deps 0).map (fun g => g.count main)).sum = 1 := by
  rw [calculateFlattenModules]
  simp only [buildpacksFromGroup_eq]
  split
  · by_cases hd : (0 : Int) = maxDepth
    · have hlt : ¬ (0 : Int) < maxDepth := by omega
      simp [hd, List.count_cons, List.count_eq_zero.mpr hmain]
    · have hlt : (0 : Int) < maxDepth := by omega
      simp only [hd, hlt, if_false, dite_true, List.nil_append, List.map_cons, List.sum_cons]
      rw [sum_count_eq_zero]
      · simp
      · intro g hg hm
        rw [List.mem_flatMap] at hg
        obtain ⟨bp, hbp, hg⟩ := hg
        rcases mem_calculateFlattenModules maxDepth _ bp _ (0 + 1) rfl g hg main hm with h | h
        · subst h; exact hmain (List.mem_filter.mp hbp).1
        · exact hmain (List.mem_filter.mp h).1
  · simp

/-- C1 (amended). On a fresh manager, for modules of pairwise distinct full names: with
flattening off or with `maxDepth ≤ -1` every module among `main` and `deps` holds exactly
one place in the resulting state; with flattening on and `maxDepth ≥ 0` the individual
list stays empty, `main` holds exactly one place, and every member of every flatten group
is `main` or one of `deps`. -/
theorem AddModules_placement (flatten : Bool) (maxDepth : Int) (main : BuildModule)
    (deps : List BuildModule) (hnames : ((main :: deps).map BuildModule.FullName).Nodup) :
    ((flatten = false ∨ maxDepth ≤ -1) →
      ∀ m ∈ main :: deps,
        ((NewModuleManager flatten maxDepth).AddModules main deps).occurrences m = 1) ∧
    ((flatten = true ∧ 0 ≤ maxDepth) →
      ((NewModuleManager flatten maxDepth).AddModules main deps).modules = [] ∧
      ((NewModuleManager flatten maxDepth).AddModules main deps).occurrences main = 1 ∧
      ∀ g ∈ ((NewModuleManager flatten maxDepth).AddModules main deps).flattenModules,
        ∀ m ∈ g, m ∈ main :: deps) := by
  have hnd : (main :: deps).Nodup := List.Nodup.of_map _ hnames
  constructor
  · intro hcfg m hm
    have hc : (main :: deps).count m = 1 := List.count_eq_one_of_mem hnd hm
    cases flatten with
    | false =>
      simp [ModuleManager.AddModules, NewModuleManager, ModuleManager.occurrences, hc]
    | true =>
      have hle : maxDepth ≤ -1 := by simpa using hcfg
      simp [ModuleManager.AddModules, NewModuleManager, ModuleManager.occurrences,
        FlattenMaxDepth, hle, hc]
  · rintro ⟨hf, h0⟩
    subst hf
    have hgt : ¬ maxDepth ≤ -1 := by omega
    have hmain : main ∉ deps := (List.nodup_cons.mp hnd).1
    refine ⟨?_, ?_, ?_⟩
    · simp [ModuleManager.AddModules, NewModuleManager, FlattenMaxDepth, hgt]
    · simp [ModuleManager.AddModules, NewModuleManager, ModuleManager.occurrences,
        FlattenMaxDepth, hgt, count_main_calculateFlattenModules maxDepth main deps h0 hmain]
    · intro g hg m hm
      simp only [ModuleManager.AddModules, NewModuleManager, FlattenMaxDepth, hgt,
        Bool.not_true, Bool.false_eq_true, if_false, List.nil_append] at hg
      exact List.mem_cons.mpr (mem_calculateFlattenModules maxDepth _ main deps 0 rfl g hg m hm)

/-- Counterexample to C1 as stated. With flattening on and `maxDepth = 1`, the tree
`root -> {a -> b, x -> y}` (pairwise distinct full names, accepted by
`validateBuildpacks`) yields the groups `[root]`, `[a, b, y]`, `[x, b, y]`: the leaf `y`
holds two places. And with `maxDepth = 0` a root with empty order yields only `[root]`:
its dependency holds no place. -/
theorem AddModules_not_exactly_once :
    ((treeRoot :: treeDeps).map BuildModule.FullName).Nodup ∧
    leafModule "y" "1" ["s"] ∈ treeRoot :: treeDeps ∧
    ((NewModuleManager true 1).AddModules treeRoot treeDeps).flattenModules =
      [[treeRoot],
       [metaModule "a" "1" [("b", "1")], leafModule "b" "1" ["s"], leafModule "y" "1" ["s"]],
       [metaModule "x" "1" [("y", "1")], leafModule "b" "1" ["s"], leafModule "y" "1" ["s"]]] ∧
    ((NewModuleManager true 1).AddModules treeRoot treeDeps).occurrences
      (leafModule "y" "1" ["s"]) = 2 ∧
    validateBuildpacks RangeOrder.stored treeRoot treeDeps = .ok () ∧
    (([leafModule "b" "1" ["s"], leafModule "y" "1" ["s"]]).map BuildModule.FullName).Nodup ∧
    ((NewModuleManager true 0).AddModules (leafModule "b" "1" ["s"])
      [leafModule "y" "1" ["s"]]).occurrences (leafModule "y" "1" ["s"]) = 0 := by
  refine ⟨by decide, by decide, ?_, ?_, rfl, by decide, ?_⟩
  · simp [ModuleManager.AddModules, NewModuleManager, FlattenMaxDepth, calculateFlattenModules,
      buildpacksFromGroup, orderNames, BuildModule.FullName, ModuleInfo.FullName, treeRoot,
      treeDeps, leafModule, metaModule]
  · simp [ModuleManager.AddModules, NewModuleManager, FlattenMaxDepth, calculateFlattenModules,
      buildpacksFromGroup, orderNames, BuildModule.FullName, ModuleInfo.FullName, treeRoot,
      treeDeps, leafModule, metaModule, ModuleManager.occurrences, List.count_cons]
  · simp [ModuleManager.AddModules, NewModuleManager, FlattenMaxDepth, calculateFlattenModules,
      leafModule, ModuleManager.occurrences, List.count_cons]

/-- Witness of C1 (amended) on the tree `root -> {a -> b, x -> y}`. -/
theorem AddModules_placement_witness :
    ((treeRoot :: treeDeps).map BuildModule.FullName).Nodup ∧
    ((NewModuleManager true 1).AddModules treeRoot treeDeps).occurrences treeRoot = 1 ∧
    ∀ m ∈ treeRoot :: treeDeps,
      ((NewModuleManager false 1).AddModules treeRoot treeDeps).occurrences m = 1 :=
  ⟨by decide,
   ((AddModules_placement true 1 treeRoot treeDeps (by decide)).2 ⟨rfl, by decide⟩).2.1,
   (AddModules_placement false 1 treeRoot treeDeps (by decide)).1 (Or.inl rfl)⟩

/-! ## Validation -/

theorem foldlM_flatMap_except {α β γ : Type} (f : β → γ → Except PkgError β)
    (g : α → List γ) (l : List α) (b : β) :
    (l.flatMap g).foldlM f b = l.foldlM (fun b x => (g x).foldlM f b) b := by
  induction l generalizing b with
  | nil => rfl
  | cons x xs ih =>
    rw [List.flatMap_cons, List.foldlM_append, List.foldlM_cons]
    cases h : List.foldlM f b (g x) with
    | error e => rfl
    | ok b1 => exact ih b1

theorem walkRefs_orderRefs (bps : List BuildModule) (m : GoMap (List ModuleInfo)) :
    bps.foldlM
      (fun m bp =>
        bp.Descriptor.Order.foldlM
          (fun m orderEntry => orderEntry.Group.foldlM (checkGroupEntry bp.Descriptor) m)
          m)
      m
    = walkRefs (orderRefs bps) m := by
  unfold walkRefs orderRefs
  rw [foldlM_flatMap_except]
  congr 1
  funext m bp
  rw [foldlM_flatMap_except]
  congr 1
  funext m orderEntry
  rw [List.foldlM_map]

theorem validateBuildpacks_eq (ro : RangeOrder (String × List ModuleInfo)) (mainBP : BuildModule)
    (depBPs : List BuildModule) :
    validateBuildpacks ro mainBP depBPs =
      match walkRefs (orderRefs (mainBP :: depBPs)) (initialDepsWithRefs depBPs) with
      | .error err => .error err
      | .ok depsWithRefs =>
        match (ro.pick depsWithRefs.entries).find? (fun e => e.2.length = 0) with
        | some e =>
          .error (.new "buildpack %s is not used by buildpack %s" [e.1, mainBP.FullName])
        | none => .ok () := by
  unfold validateBuildpacks
  simp only [walkRefs_orderRefs, initialDepsWithRefs]

theorem fullNameWithVersion_fst (b : ModuleInfo) : b.FullNameWithVersion.1 = b.FullName := by
  unfold ModuleInfo.FullNameWithVersion ModuleInfo.FullName
  by_cases h : b.Version = "" <;> simp [h]

theorem fullNameWithVersion_snd (b : ModuleInfo) :
    b.FullNameWithVersion.2 =
      if b.Version = "" then
        some (PkgError.new "buildpack %s does not have a version defined" [b.ID])
      else none := by
  unfold ModuleInfo.FullNameWithVersion
  by_cases h : b.Version = "" <;> simp [h]

theorem keys_setEntry {V : Type} (k : String) (v : V) (l : List (String × V))
    (hk : k ∈ l.map Prod.fst) : (setEntry k v l).map Prod.fst = l.map Prod.fst := by
  induction l with
  | nil => simp at hk
  | cons e rest ih =>
    unfold setEntry
    by_cases h : e.1 = k
    · simp [h]
    · have hk2 : k ∈ rest.map Prod.fst := by
        rcases List.mem_cons.mp hk with h1 | h1
        · exact absurd h1.symm h
        · exact h1
      simp [h, ih hk2]

theorem mem_keys_setEntry {V : Type} (k : String) (v : V) (l : List (String × V)) (x : String) :
    x ∈ (setEntry k v l).map Prod.fst ↔ x = k ∨ x ∈ l.map Prod.fst := by
  induction l with
  | nil => simp [setEntry]
  | cons e rest ih =>
    unfold setEntry
    by_cases h : e.1 = k
    · simp only [h, if_true, List.map_cons, List.mem_cons]
      constructor
      · rintro (h1 | h1)
        · exact Or.inl h1
        · exact Or.inr (Or.inr h1)
      · rintro (h1 | h1 | h1)
        · exact Or.inl h1
        · exact Or.inl h1
        · exact Or.inr h1
    · simp only [h, if_false, List.map_cons, List.mem_cons, ih]
      tauto

theorem getEntry_setEntry {V : Type} (k : String) (v : V) (l : List (String × V)) (x : String) :
    getEntry x (setEntry k v l) = if k = x then some v else getEntry x l := by
  induction l with
  | nil => simp [setEntry, getEntry]
  | cons e rest ih =>
    by_cases h : e.1 = k
    · have hs : setEntry k v (e :: rest) = (k, v) :: rest := by simp [setEntry, h]
      rw [hs]
      by_cases hx : k = x
      · simp [hx, getEntry]
      · have hxa : ¬ e.1 = x := by rw [h]; exact hx
        simp [hx, hxa, getEntry]
    · have hs : setEntry k v (e :: rest) = e :: setEntry k v rest := by simp [setEntry, h]
      rw [hs]
      by_cases hxa : e.1 = x
      · have hx : ¬ k = x := by rw [← hxa]; exact fun h2 => h h2.symm
        simp [hx, hxa, getEntry]
      · simp [hxa, getEntry, ih]

theorem getEntry_isSome_iff {V : Type} (l : List (String × V)) (x : String) :
    (∃ v, getEntry x l = some v) ↔ x ∈ l.map Prod.fst := by
  induction l with
  | nil => simp [getEntry]
  | cons e rest ih =>
    by_cases hxa : e.1 = x
    · simp [hxa, getEntry]
    · have hne : ¬ x = e.1 := fun h => hxa h.symm
      simp only [getEntry, hxa, if_false, ih, List.map_cons, List.mem_cons, hne, false_or]

theorem mem_of_getEntry {V : Type} (l : List (String × V)) (x : String) (v : V)
    (h : getEntry x l = some v) : (x, v) ∈ l := by
  induction l with
  | nil => simp [getEntry] at h
  | cons e rest ih =>
    by_cases hxa : e.1 = x
    · simp [hxa, getEntry] at h
      have : e = (x, v) := by rw [← hxa, ← h]
      simp [this]
    · simp [hxa, getEntry] at h
      exact List.mem_cons_of_mem _ (ih h)

theorem mem_keys_initialDepsWithRefs_aux (depBPs : List BuildModule)
    (m : GoMap (List ModuleInfo)) (x : String) :
    x ∈ (depBPs.foldl (fun m bp => m.set bp.FullName []) m).keys ↔
      x ∈ depBPs.map BuildModule.FullName ∨ x ∈ m.keys := by
  induction depBPs generalizing m with
  | nil => simp
  | cons d ds ih =>
    rw [List.foldl_cons, ih]
    simp only [GoMap.keys, GoMap.set, mem_keys_setEntry, List.map_cons, List.mem_cons]
    tauto

theorem mem_keys_initialDepsWithRefs (depBPs : List BuildModule) (x : String) :
    x ∈ (initialDepsWithRefs depBPs).keys ↔ x ∈ depBPs.map BuildModule.FullName := by
  unfold initialDepsWithRefs
  rw [mem_keys_initialDepsWithRefs_aux]
  simp [GoMap.keys, GoMap.empty]

theorem values_initialDepsWithRefs_aux (depBPs : List BuildModule)
    (m : GoMap (List ModuleInfo)) (hm : ∀ e ∈ m.entries, e.2 = []) :
    ∀ e ∈ (depBPs.foldl (fun m bp => m.set bp.FullName []) m).entries, e.2 = [] := by
  induction depBPs generalizing m with
  | nil => simpa using hm
  | cons d ds ih =>
    rw [List.foldl_cons]
    apply ih
    intro e he
    have : ∀ (l : List (String × List ModuleInfo)), (∀ e ∈ l, e.2 = []) →
        ∀ e ∈ setEntry d.FullName [] l, e.2 = [] := by
      intro l
      induction l with
      | nil => intro _ e he; simp [setEntry] at he; simp [he]
      | cons a rest ihl =>
        intro hl e he
        unfold setEntry at he
        by_cases h : a.1 = d.FullName
        · simp only [h, if_true, List.mem_cons] at he
          rcases he with he | he
          · simp [he]
          · exact hl e (List.mem_cons_of_mem _ he)
        · simp only [h, if_false, List.mem_cons] at he
          rcases he with he | he
          · rw [he]; exact hl a (List.mem_cons_self _ _)
          · exact ihl (fun e he => hl e (List.mem_cons_of_mem _ he)) e he
    exact this m.entries hm e he

theorem values_initialDepsWithRefs (depBPs : List BuildModule) :
    ∀ e ∈ (initialDepsWithRefs depBPs).entries, e.2 = [] := by
  unfold initialDepsWithRefs
  apply values_initialDepsWithRefs_aux
  intro e he
  simp [GoMap.empty] at he

theorem checkGroupEntry_unversioned (bpd : Descriptor) (m : GoMap (List ModuleInfo))
    (r : ModuleRef) (hv : r.ModuleInfo.Version = "") :
    checkGroupEntry bpd m r =
      .error (.wrap (.new "buildpack %s does not have a version defined" [r.ModuleInfo.ID])
        "buildpack %s must specify a version when referencing buildpack %s"
        [bpd.Info.FullName, r.ModuleInfo.ID]) := by
  simp [checkGroupEntry, ModuleInfo.FullNameWithVersion, hv]

theorem checkGroupEntry_versioned (bpd : Descriptor) (m : GoMap (List ModuleInfo))
    (r : ModuleRef) (hv : r.ModuleInfo.Version ≠ "") :
    checkGroupEntry bpd m r =
      match m.get? r.ModuleInfo.FullName with
      | none =>
        .error (.new "buildpack %s references buildpack %s which is not present"
          [bpd.Info.FullName, r.ModuleInfo.FullName])
      | some refs => .ok (m.set r.ModuleInfo.FullName (refs ++ [bpd.Info])) := by
  simp [checkGroupEntry, ModuleInfo.FullNameWithVersion, ModuleInfo.FullName, hv]

theorem checkGroupEntry_missing (bpd : Descriptor) (m : GoMap (List ModuleInfo))
    (r : ModuleRef) (hv : r.ModuleInfo.Version ≠ "") (hm : r.ModuleInfo.FullName ∉ m.keys) :
    checkGroupEntry bpd m r =
      .error (.new "buildpack %s references buildpack %s which is not present"
        [bpd.Info.FullName, r.ModuleInfo.FullName]) := by
  rw [checkGroupEntry_versioned bpd m r hv]
  cases hg : m.get? r.ModuleInfo.FullName with
  | none => rfl
  | some refs =>
    exact absurd ((getEntry_isSome_iff m.entries _).mp ⟨refs, hg⟩) hm

theorem checkGroupEntry_resolves (bpd : Descriptor) (m : GoMap (List ModuleInfo))
    (r : ModuleRef) (hv : r.ModuleInfo.Version ≠ "") (hm : r.ModuleInfo.FullName ∈ m.keys) :
    ∃ refs, m.get? r.ModuleInfo.FullName = some refs ∧
      checkGroupEntry bpd m r = .ok (m.set r.ModuleInfo.FullName (refs ++ [bpd.Info])) := by
  obtain ⟨refs, hg⟩ := (getEntry_isSome_iff m.entries _).mpr hm
  refine ⟨refs, hg, ?_⟩
  rw [checkGroupEntry_versioned bpd m r hv]
  have hg2 : m.get? r.ModuleInfo.FullName = some refs := hg
  rw [hg2]

theorem walkRefs_cons (p : Descriptor × ModuleRef) (rest : List (Descriptor × ModuleRef))
    (m : GoMap (List ModuleInfo)) :
    walkRefs (p :: rest) m =
      match checkGroupEntry p.1 m p.2 with
      | .error err => .error err
      | .ok m1 => walkRefs rest m1 := by
  unfold walkRefs
  rw [List.foldlM_cons]
  cases checkGroupEntry p.1 m p.2 <;> rfl

theorem walkRefs_resolving (pre : List (Descriptor × ModuleRef)) :
    ∀ (m : GoMap (List ModuleInfo)), (∀ q ∈ pre, refResolves m.keys q) →
      ∃ m1, walkRefs pre m = .ok m1 ∧ m1.keys = m.keys ∧
        ∀ k, (∀ q ∈ pre, q.2.ModuleInfo.FullName ≠ k) → m1.get? k = m.get? k := by
  induction pre with
  | nil => intro m _; exact ⟨m, rfl, rfl, fun _ _ => rfl⟩
  | cons p rest ih =>
    intro m h
    obtain ⟨hv, hk⟩ := h p (List.mem_cons_self _ _)
    obtain ⟨refs, _, hc⟩ := checkGroupEntry_resolves p.1 m p.2 hv hk
    have hkeys : (m.set p.2.ModuleInfo.FullName (refs ++ [p.1.Info])).keys = m.keys :=
      keys_setEntry _ _ _ hk
    obtain ⟨m1, hw, hk1, hget⟩ := ih (m.set p.2.ModuleInfo.FullName (refs ++ [p.1.Info]))
      (fun q hq => by rw [hkeys]; exact h q (List.mem_cons_of_mem _ hq))
    refine ⟨m1, ?_, hk1.trans hkeys, ?_⟩
    · rw [walkRefs_cons, hc]; exact hw
    · intro k hne
      rw [hget k (fun q hq => hne q (List.mem_cons_of_mem _ hq))]
      have hpk : ¬ p.2.ModuleInfo.FullName = k := hne p (List.mem_cons_self _ _)
      show getEntry k (setEntry _ _ m.entries) = getEntry k m.entries
      rw [getEntry_setEntry, if_neg hpk]

theorem walkRefs_stops (pre : List (Descriptor × ModuleRef)) (p : Descriptor × ModuleRef)
    (post : List (Descriptor × ModuleRef)) (m : GoMap (List ModuleInfo))
    (hpre : ∀ q ∈ pre, refResolves m.keys q) :
    ∃ m1, m1.keys = m.keys ∧
      walkRefs (pre ++ p :: post) m =
        match checkGroupEntry p.1 m1 p.2 with
        | .error err => .error err
        | .ok m2 => walkRefs post m2 := by
  obtain ⟨m1, hw, hk, _⟩ := walkRefs_resolving pre m hpre
  refine ⟨m1, hk, ?_⟩
  have : walkRefs (pre ++ p :: post) m = walkRefs (p :: post) m1 := by
    unfold walkRefs at hw ⊢
    rw [List.foldlM_append, hw]
    rfl
  rw [this, walkRefs_cons]

/-- Every list of references either resolves entirely or splits at a first reference
that does not. -/
theorem first_unresolved (names : List String) (refs : List (Descriptor × ModuleRef)) :
    (∀ q ∈ refs, refResolves names q) ∨
    ∃ pre p post, refs = pre ++ p :: post ∧ (∀ q ∈ pre, refResolves names q) ∧
      ¬ refResolves names p := by
  induction refs with
  | nil => left; intro q hq; simp at hq
  | cons r rest ih =>
    by_cases hr : refResolves names r
    · rcases ih with h | ⟨pre, p, post, he, hpre, hp⟩
      · left
        intro q hq
        rcases List.mem_cons.mp hq with h1 | h1
        · rw [h1]; exact hr
        · exact h q h1
      · right
        refine ⟨r :: pre, p, post, by rw [he]; rfl, ?_, hp⟩
        intro q hq
        rcases List.mem_cons.mp hq with h1 | h1
        · rw [h1]; exact hr
        · exact hpre q h1
    · right
      exact ⟨[], r, rest, rfl, fun q hq => by simp at hq, hr⟩

theorem walkRefs_error_of_unresolved (refs : List (Descriptor × ModuleRef))
    (m : GoMap (List ModuleInfo)) (h : ∃ p ∈ refs, ¬ refResolves m.keys p) :
    ∃ err, walkRefs refs m = .error err := by
  rcases first_unresolved m.keys refs with hall | ⟨pre, p, post, he, hpre, hp⟩
  · obtain ⟨p, hp, hbad⟩ := h
    exact absurd (hall p hp) hbad
  · obtain ⟨m1, hk, hw⟩ := walkRefs_stops pre p post m hpre
    rw [he, hw]
    by_cases hv : p.2.ModuleInfo.Version = ""
    · rw [checkGroupEntry_unversioned p.1 m1 p.2 hv]; exact ⟨_, rfl⟩
    · have hm : p.2.ModuleInfo.FullName ∉ m1.keys := by
        rw [hk]; exact fun hin => hp ⟨hv, hin⟩
      rw [checkGroupEntry_missing p.1 m1 p.2 hv hm]; exact ⟨_, rfl⟩

theorem refResolves_congr (a b : List String) (h : ∀ x, x ∈ a ↔ x ∈ b)
    (p : Descriptor × ModuleRef) : refResolves a p ↔ refResolves b p := by
  unfold refResolves
  rw [h]

/-- C4 (amended). `validateBuildpacks` returns an error whenever some order-group
reference of the root or of a dependency is versioned and its full name is the full name
of no module of `depBPs`; and when such a reference is the first reference, in the order
of the loops, that fails a check (every reference before it is versioned and present)
the error is the not-present error, naming the module that holds the reference and the
missing reference. -/
theorem validateBuildpacks_missing_reference (ro : RangeOrder (String × List ModuleInfo))
    (mainBP : BuildModule) (depBPs : List BuildModule)
    (h : ∃ p ∈ orderRefs (mainBP :: depBPs), p.2.ModuleInfo.Version ≠ "" ∧
      p.2.ModuleInfo.FullName ∉ depBPs.map BuildModule.FullName) :
    (∃ err, validateBuildpacks ro mainBP depBPs = .error err) ∧
    ∀ pre p post, orderRefs (mainBP :: depBPs) = pre ++ p :: post →
      (∀ q ∈ pre, refResolves (depBPs.map BuildModule.FullName) q) →
      p.2.ModuleInfo.Version ≠ "" →
      p.2.ModuleInfo.FullName ∉ depBPs.map BuildModule.FullName →
      validateBuildpacks ro mainBP depBPs =
        .error (.new "buildpack %s references buildpack %s which is not present"
          [p.1.Info.FullName, p.2.ModuleInfo.FullName]) := by
  have hkeys := mem_keys_initialDepsWithRefs depBPs
  constructor
  · obtain ⟨p, hp, hv, hm⟩ := h
    obtain ⟨err, he⟩ := walkRefs_error_of_unresolved (orderRefs (mainBP :: depBPs))
      (initialDepsWithRefs depBPs)
      ⟨p, hp, fun hr => hm ((hkeys _).mp hr.2)⟩
    exact ⟨err, by rw [validateBuildpacks_eq, he]⟩
  · intro pre p post he hpre hv hm
    obtain ⟨m1, hk, hw⟩ := walkRefs_stops pre p post (initialDepsWithRefs depBPs)
      (fun q hq => (refResolves_congr _ _ hkeys q).mpr (hpre q hq))
    have hm1 : p.2.ModuleInfo.FullName ∉ m1.keys := by
      rw [hk]; exact fun hin => hm ((hkeys _).mp hin)
    rw [validateBuildpacks_eq, he, hw, checkGroupEntry_missing p.1 m1 p.2 hv hm1]

/-- C6 (amended). `validateBuildpacks` returns an error whenever some order-group
reference of the root or of a dependency has an empty version; and when such a reference
is the first reference, in the order of the loops, that fails a check (every reference
before it is versioned and present) the error is the must-specify-a-version error,
naming the module that holds the reference and the id of the reference, whether or not a
dependency of that name is present: the version is checked before the presence. -/
theorem validateBuildpacks_unversioned_reference (ro : RangeOrder (String × List ModuleInfo))
    (mainBP : BuildModule) (depBPs : List BuildModule)
    (h : ∃ p ∈ orderRefs (mainBP :: depBPs), p.2.ModuleInfo.Version = "") :
    (∃ err, validateBuildpacks ro mainBP depBPs = .error err) ∧
    ∀ pre p post, orderRefs (mainBP :: depBPs) = pre ++ p :: post →
      (∀ q ∈ pre, refResolves (depBPs.map BuildModule.FullName) q) →
      p.2.ModuleInfo.Version = "" →
      validateBuildpacks ro mainBP depBPs =
        .error (.wrap
          (.new "buildpack %s does not have a version defined" [p.2.ModuleInfo.ID])
          "buildpack %s must specify a version when referencing buildpack %s"
          [p.1.Info.FullName, p.2.ModuleInfo.ID]) := by
  have hkeys := mem_keys_initialDepsWithRefs depBPs
  constructor
  · obtain ⟨p, hp, hv⟩ := h
    obtain ⟨err, he⟩ := walkRefs_error_of_unresolved (orderRefs (mainBP :: depBPs))
      (initialDepsWithRefs depBPs) ⟨p, hp, fun hr => hr.1 hv⟩
    exact ⟨err, by rw [validateBuildpacks_eq, he]⟩
  · intro pre p post he hpre hv
    obtain ⟨m1, _, hw⟩ := walkRefs_stops pre p post (initialDepsWithRefs depBPs)
      (fun q hq => (refResolves_congr _ _ hkeys q).mpr (hpre q hq))
    rw [validateBuildpacks_eq, he, hw, checkGroupEntry_unversioned p.1 m1 p.2 hv]

/-- C5. When every order-group reference is versioned and present, `validateBuildpacks`
returns an error as soon as `depBPs` holds a module whose full name no order group of
the root or of a dependency references: the not-used error, naming a dependency and the
root. -/
theorem validateBuildpacks_unused_dependency (ro : RangeOrder (String × List ModuleInfo))
    (mainBP : BuildModule) (depBPs : List BuildModule) (d : BuildModule) (hd : d ∈ depBPs)
    (hrefs : ∀ p ∈ orderRefs (mainBP :: depBPs),
      refResolves (depBPs.map BuildModule.FullName) p)
    (hun : ∀ p ∈ orderRefs (mainBP :: depBPs), p.2.ModuleInfo.FullName ≠ d.FullName) :
    ∃ bp, bp ∈ depBPs.map BuildModule.FullName ∧
      validateBuildpacks ro mainBP depBPs =
        .error (.new "buildpack %s is not used by buildpack %s" [bp, mainBP.FullName]) := by
  have hkeys := mem_keys_initialDepsWithRefs depBPs
  obtain ⟨m1, hw, hk, hget⟩ := walkRefs_resolving (orderRefs (mainBP :: depBPs))
    (initialDepsWithRefs depBPs)
    (fun q hq => (refResolves_congr _ _ hkeys q).mpr (hrefs q hq))
  have hdk : d.FullName ∈ (initialDepsWithRefs depBPs).keys :=
    (hkeys _).mpr (List.mem_map_of_mem _ hd)
  obtain ⟨v, hv⟩ := (getEntry_isSome_iff (initialDepsWithRefs depBPs).entries _).mpr hdk
  have hv0 : v = [] :=
    values_initialDepsWithRefs depBPs _ (mem_of_getEntry _ _ _ hv)
  have hm1 : (d.FullName, ([] : List ModuleInfo)) ∈ m1.entries := by
    apply mem_of_getEntry
    have := hget d.FullName hun
    rw [← hv0]
    exact this.trans hv
  have hpick : (d.FullName, ([] : List ModuleInfo)) ∈ ro.pick m1.entries :=
    (ro.perm m1.entries).mem_iff.mpr hm1
  rw [validateBuildpacks_eq, hw]
  cases hf : (ro.pick m1.entries).find? (fun e => e.2.length = 0) with
  | none =>
    have := List.find?_eq_none.mp hf _ hpick
    simp at this
  | some e =>
    refine ⟨e.1, ?_, by simp only [hf]⟩
    have he : e ∈ m1.entries := (ro.perm m1.entries).mem_iff.mp (List.mem_of_find?_eq_some hf)
    have : e.1 ∈ m1.keys := List.mem_map_of_mem _ he
    rw [hk] at this
    exact (hkeys _).mp this

/-- C2 (amended). `validate` returns the error "buildpack or extension must be set" when
neither root is set, and returns no error when both a buildpack root and an extension
root are set, whatever the dependencies and flags. -/
theorem validate_roots (ro : RangeOrder (String × List ModuleInfo))
    (deps : List BuildModule) (flatMeta flatAll : Bool) (groups : FlattenModules) :
    PackageBuilder.validate ro
        { buildpack := none, extension := none, dependencies := deps,
          flattenMetaBuildpacks := flatMeta, flattenAllBuildpacks := flatAll,
          flattenBuildpacks := groups }
      = .error (.new "buildpack or extension must be set" []) ∧
    ∀ buildpack extension : BuildModule,
      PackageBuilder.validate ro
        { buildpack := some buildpack, extension := some extension, dependencies := deps,
          flattenMetaBuildpacks := flatMeta, flattenAllBuildpacks := flatAll,
          flattenBuildpacks := groups }
      = .ok () := by
  constructor
  · simp [PackageBuilder.validate]
  · intro buildpack extension
    simp [PackageBuilder.validate]

/-- Counterexample to C2 as stated: with a buildpack root and an extension root both
set, `validate` returns no error. -/
theorem validate_both_roots_set :
    PackageBuilder.validate RangeOrder.stored
      ((NewBuilder.SetBuildpack (metaModule "meta/root" "1.0.0" [("dep/a", "1.0.0")])).SetExtension
        (leafModule "some/extension" "1.0.0" [])) = .ok () := by
  rfl

/-- Counterexample to C4 as stated. The order of the root references `dep/x` without a
version and then `dep/a@1.0.0`, and only `dep/b@1.0.0` is supplied: the versioned
reference `dep/a@1.0.0` is the full name of no dependency, yet the error returned is the
must-specify-a-version error naming `dep/x`, not the not-present error naming
`dep/a@1.0.0`: validation stops at the first reference that fails. -/
theorem validateBuildpacks_missing_reference_masked :
    (∃ p ∈ orderRefs [metaModule "meta/root" "1.0.0" [("dep/x", ""), ("dep/a", "1.0.0")],
        leafModule "dep/b" "1.0.0" ["some.stack.id"]],
      p.2.ModuleInfo = ModuleInfo.mk "dep/a" "1.0.0" ∧
      p.2.ModuleInfo.Version ≠ "" ∧
      p.2.ModuleInfo.FullName ∉
        [leafModule "dep/b" "1.0.0" ["some.stack.id"]].map BuildModule.FullName) ∧
    (∀ ro : RangeOrder (String × List ModuleInfo),
      validateBuildpacks ro
          (metaModule "meta/root" "1.0.0" [("dep/x", ""), ("dep/a", "1.0.0")])
          [leafModule "dep/b" "1.0.0" ["some.stack.id"]] =
        .error (.wrap (.new "buildpack %s does not have a version defined" ["dep/x"])
          "buildpack %s must specify a version when referencing buildpack %s"
          ["meta/root@1.0.0", "dep/x"])) ∧
    ∀ ro : RangeOrder (String × List ModuleInfo),
      validateBuildpacks ro
          (metaModule "meta/root" "1.0.0" [("dep/x", ""), ("dep/a", "1.0.0")])
          [leafModule "dep/b" "1.0.0" ["some.stack.id"]] ≠
        .error (.new "buildpack %s references buildpack %s which is not present"
          ["meta/root@1.0.0", "dep/a@1.0.0"]) := by
  have hrun : ∀ ro : RangeOrder (String × List ModuleInfo),
      validateBuildpacks ro
          (metaModule "meta/root" "1.0.0" [("dep/x", ""), ("dep/a", "1.0.0")])
          [leafModule "dep/b" "1.0.0" ["some.stack.id"]] =
        .error (.wrap (.new "buildpack %s does not have a version defined" ["dep/x"])
          "buildpack %s must specify a version when referencing buildpack %s"
          ["meta/root@1.0.0", "dep/x"]) := fun _ => rfl
  refine ⟨⟨((metaModule "meta/root" "1.0.0" [("dep/x", ""), ("dep/a", "1.0.0")]).Descriptor,
      ModuleRef.mk (ModuleInfo.mk "dep/a" "1.0.0") false), by decide, rfl, by decide,
      by decide⟩, hrun, ?_⟩
  intro ro h
  rw [hrun ro] at h
  cases h

/-- Witness of C4 (amended): a root whose order references `dep/a@1.0.0`, with only
`dep/b@1.0.0` supplied, fails naming the root and `dep/a@1.0.0` as not present. -/
theorem validateBuildpacks_missing_reference_witness :
    (∃ p ∈ orderRefs [metaModule "meta/root" "1.0.0" [("dep/a", "1.0.0")],
        leafModule "dep/b" "1.0.0" ["some.stack.id"]],
      p.2.ModuleInfo.Version ≠ "" ∧
      p.2.ModuleInfo.FullName ∉
        [leafModule "dep/b" "1.0.0" ["some.stack.id"]].map BuildModule.FullName) ∧
    validateBuildpacks RangeOrder.stored (metaModule "meta/root" "1.0.0" [("dep/a", "1.0.0")])
        [leafModule "dep/b" "1.0.0" ["some.stack.id"]] =
      .error (.new "buildpack %s references buildpack %s which is not present"
        ["meta/root@1.0.0", "dep/a@1.0.0"]) :=
  have hyp : ∃ p ∈ orderRefs [metaModule "meta/root" "1.0.0" [("dep/a", "1.0.0")],
        leafModule "dep/b" "1.0.0" ["some.stack.id"]],
      p.2.ModuleInfo.Version ≠ "" ∧
      p.2.ModuleInfo.FullName ∉
        [leafModule "dep/b" "1.0.0" ["some.stack.id"]].map BuildModule.FullName :=
    ⟨((metaModule "meta/root" "1.0.0" [("dep/a", "1.0.0")]).Descriptor,
      ModuleRef.mk (ModuleInfo.mk "dep/a" "1.0.0") false), by decide, by decide, by decide⟩
  ⟨hyp,
   (validateBuildpacks_missing_reference RangeOrder.stored _ _ hyp).2 []
     ((metaModule "meta/root" "1.0.0" [("dep/a", "1.0.0")]).Descriptor,
      ModuleRef.mk (ModuleInfo.mk "dep/a" "1.0.0") false) [] (by decide)
     (by intro q hq; cases hq) (by decide) (by decide)⟩

/-- C3, the code at a failing input: a meta root whose three dependencies declare the
pairwise disjoint stack sets `stack.a`, `stack.b`, `stack.c`. The running intersection
is empty after the second dependency, the third one replaces it, and `validate` returns
no error. -/
theorem validate_accepts_disjoint_stacks :
    resolvedStacks
        (metaModule "meta/root" "1.0.0"
          [("dep/a", "1.0.0"), ("dep/b", "1.0.0"), ("dep/c", "1.0.0")])
        [leafModule "dep/a" "1.0.0" ["stack.a"], leafModule "dep/b" "1.0.0" ["stack.b"]]
      = [] ∧
    resolvedStacks
        (metaModule "meta/root" "1.0.0"
          [("dep/a", "1.0.0"), ("dep/b", "1.0.0"), ("dep/c", "1.0.0")])
        [leafModule "dep/a" "1.0.0" ["stack.a"], leafModule "dep/b" "1.0.0" ["stack.b"],
         leafModule "dep/c" "1.0.0" ["stack.c"]]
      = [{ ID := "stack.c", Mixins := [] }] ∧
    PackageBuilder.validate RangeOrder.stored
        ((((NewBuilder.SetBuildpack
          (metaModule "meta/root" "1.0.0"
            [("dep/a", "1.0.0"), ("dep/b", "1.0.0"), ("dep/c", "1.0.0")])).AddDependency
          (leafModule "dep/a" "1.0.0" ["stack.a"])).AddDependency
          (leafModule "dep/b" "1.0.0" ["stack.b"])).AddDependency
          (leafModule "dep/c" "1.0.0" ["stack.c"]))
      = .ok () := by
  refine ⟨by decide, by decide, by rfl⟩

/-- Counterexample to C6 as stated. The order of the root references `dep/a@1.0.0`,
which is not supplied, and then `dep/x` without a version: a reference has an empty
version, yet the error returned is the not-present error naming `dep/a@1.0.0`, not the
must-specify-a-version error naming `dep/x`: validation stops at the first reference
that fails. -/
theorem validateBuildpacks_unversioned_reference_masked :
    (∃ p ∈ orderRefs [metaModule "meta/root" "1.0.0" [("dep/a", "1.0.0"), ("dep/x", "")],
        leafModule "dep/b" "1.0.0" ["some.stack.id"]],
      p.2.ModuleInfo = ModuleInfo.mk "dep/x" "" ∧ p.2.ModuleInfo.Version = "") ∧
    (∀ ro : RangeOrder (String × List ModuleInfo),
      validateBuildpacks ro
          (metaModule "meta/root" "1.0.0" [("dep/a", "1.0.0"), ("dep/x", "")])
          [leafModule "dep/b" "1.0.0" ["some.stack.id"]] =
        .error (.new "buildpack %s references buildpack %s which is not present"
          ["meta/root@1.0.0", "dep/a@1.0.0"])) ∧
    ∀ ro : RangeOrder (String × List ModuleInfo),
      validateBuildpacks ro
          (metaModule "meta/root" "1.0.0" [("dep/a", "1.0.0"), ("dep/x", "")])
          [leafModule "dep/b" "1.0.0" ["some.stack.id"]] ≠
        .error (.wrap (.new "buildpack %s does not have a version defined" ["dep/x"])
          "buildpack %s must specify a version when referencing buildpack %s"
          ["meta/root@1.0.0", "dep/x"]) := by
  have hrun : ∀ ro : RangeOrder (String × List ModuleInfo),
      validateBuildpacks ro
          (metaModule "meta/root" "1.0.0" [("dep/a", "1.0.0"), ("dep/x", "")])
          [leafModule "dep/b" "1.0.0" ["some.stack.id"]] =
        .error (.new "buildpack %s references buildpack %s which is not present"
          ["meta/root@1.0.0", "dep/a@1.0.0"]) := fun _ => rfl
  refine ⟨⟨((metaModule "meta/root" "1.0.0" [("dep/a", "1.0.0"), ("dep/x", "")]).Descriptor,
      ModuleRef.mk (ModuleInfo.mk "dep/x" "") false), by decide, rfl, rfl⟩, hrun, ?_⟩
  intro ro h
  rw [hrun ro] at h
  cases h

/-- Witness of C6 (amended): the root references `dep/a` without a version and a dependency of
full name `dep/a` is present; the error is the must-specify-a-version error. -/
theorem validateBuildpacks_unversioned_reference_witness :
    (∃ p ∈ orderRefs [metaModule "meta/root" "1.0.0" [("dep/a", "")],
        leafModule "dep/a" "" ["some.stack.id"]],
      p.2.ModuleInfo.Version = "") ∧
    "dep/a" ∈ [leafModule "dep/a" "" ["some.stack.id"]].map BuildModule.FullName ∧
    validateBuildpacks RangeOrder.stored (metaModule "meta/root" "1.0.0" [("dep/a", "")])
        [leafModule "dep/a" "" ["some.stack.id"]] =
      .error (.wrap (.new "buildpack %s does not have a version defined" ["dep/a"])
        "buildpack %s must specify a version when referencing buildpack %s"
        ["meta/root@1.0.0", "dep/a"]) :=
  have hyp : ∃ p ∈ orderRefs [metaModule "meta/root" "1.0.0" [("dep/a", "")],
        leafModule "dep/a" "" ["some.stack.id"]],
      p.2.ModuleInfo.Version = "" :=
    ⟨((metaModule "meta/root" "1.0.0" [("dep/a", "")]).Descriptor,
      ModuleRef.mk (ModuleInfo.mk "dep/a" "") false), by decide, by decide⟩
  ⟨hyp, by decide,
   (validateBuildpacks_unversioned_reference RangeOrder.stored _ _ hyp).2 []
     ((metaModule "meta/root" "1.0.0" [("dep/a", "")]).Descriptor,
      ModuleRef.mk (ModuleInfo.mk "dep/a" "") false) [] (by decide)
     (by intro q hq; cases hq) (by decide)⟩

/-- Witness of C5: `dep/b@1.0.0` is supplied and referenced by no order group. -/
theorem validateBuildpacks_unused_dependency_witness :
    leafModule "dep/b" "1.0.0" ["some.stack.id"] ∈
      [leafModule "dep/a" "1.0.0" ["some.stack.id"],
       leafModule "dep/b" "1.0.0" ["some.stack.id"]] ∧
    (∀ p ∈ orderRefs [metaModule "meta/root" "1.0.0" [("dep/a", "1.0.0")],
        leafModule "dep/a" "1.0.0" ["some.stack.id"],
        leafModule "dep/b" "1.0.0" ["some.stack.id"]],
      p.2.ModuleInfo.FullName ≠ (leafModule "dep/b" "1.0.0" ["some.stack.id"]).FullName) ∧
    ∃ bp, bp ∈ [leafModule "dep/a" "1.0.0" ["some.stack.id"],
        leafModule "dep/b" "1.0.0" ["some.stack.id"]].map BuildModule.FullName ∧
      validateBuildpacks RangeOrder.backwards
          (metaModule "meta/root" "1.0.0" [("dep/a", "1.0.0")])
          [leafModule "dep/a" "1.0.0" ["some.stack.id"],
           leafModule "dep/b" "1.0.0" ["some.stack.id"]] =
        .error (.new "buildpack %s is not used by buildpack %s"
          [bp, (metaModule "meta/root" "1.0.0" [("dep/a", "1.0.0")]).FullName]) :=
  ⟨by decide, by decide,
   validateBuildpacks_unused_dependency RangeOrder.backwards _ _
     (leafModule "dep/b" "1.0.0" ["some.stack.id"]) (by decide) (by decide) (by decide)⟩

/-! ## Assembly -/

/-! ### Runs and the calls they make -/

theorem Run.bind_apply {α β : Type} (x : Run α) (f : α → Run β) (trace : List Call) :
    (x >>= f) trace =
      match x trace with
      | (.error err, trace1) => (.error err, trace1)
      | (.ok a, trace1) => f a trace1 := rfl

theorem Run.pure_apply {α : Type} (a : α) (trace : List Call) :
    (pure a : Run α) trace = (.ok a, trace) := rfl

theorem Run.emits_pure {α : Type} (a : α) (P : Call → Prop) (Q : α → Prop) (h : Q a) :
    Run.Emits (pure a : Run α) P Q := by
  intro trace
  refine ⟨[], by simp [Run.pure_apply], by simp, ?_⟩
  intro a1 h1
  simp only [Run.pure_apply, Except.ok.injEq] at h1
  rw [← h1]; exact h

theorem Run.emits_fail {α : Type} (err : PkgError) (P : Call → Prop) (Q : α → Prop) :
    Run.Emits (Run.fail err : Run α) P Q := by
  intro trace
  refine ⟨[], by simp [Run.fail], by simp, ?_⟩
  intro a1 h1
  simp [Run.fail] at h1

theorem Run.emits_call (w : World) (c : Call) (P : Call → Prop) (h : P c) :
    Run.Emits (w.call c) P (fun _ => True) := by
  intro trace
  refine ⟨[c], rfl, ?_, fun _ _ => trivial⟩
  intro c1 hc1
  rw [List.mem_singleton.mp hc1]; exact h

theorem Run.emits_wrapErr {α : Type} (x : Run α) (format : String) (args : List String)
    (P : Call → Prop) (Q : α → Prop) (h : Run.Emits x P Q) :
    Run.Emits (x.wrapErr format args) P Q := by
  intro trace
  obtain ⟨extra, h1, h2, h3⟩ := h trace
  refine ⟨extra, ?_, h2, ?_⟩
  · unfold Run.wrapErr
    rcases hx : x trace with ⟨r, t1⟩
    rw [hx] at h1
    cases r <;> exact h1
  · intro a ha
    apply h3
    unfold Run.wrapErr at ha
    rcases hx : x trace with ⟨r, t1⟩
    rw [hx] at ha
    cases r with
    | error e => simp at ha
    | ok a1 => exact ha

theorem Run.emits_bind {α β : Type} (x : Run α) (f : α → Run β) (P : Call → Prop)
    (Q : α → Prop) (R : β → Prop) (hx : Run.Emits x P Q)
    (hf : ∀ a, Q a → Run.Emits (f a) P R) : Run.Emits (x >>= f) P R := by
  intro trace
  obtain ⟨extra, h1, h2, h3⟩ := hx trace
  rw [Run.bind_apply]
  rcases hxt : x trace with ⟨r, t1⟩
  rw [hxt] at h1 h3
  cases r with
  | error e =>
    refine ⟨extra, h1, h2, ?_⟩
    intro a ha
    simp at ha
  | ok a =>
    obtain ⟨extra2, g1, g2, g3⟩ := hf a (h3 a rfl) t1
    refine ⟨extra ++ extra2, ?_, ?_, g3⟩
    · show (f a t1).2 = _
      simp only at h1
      rw [g1, h1, List.append_assoc]
    · intro c hc
      rcases List.mem_append.mp hc with h | h
      · exact h2 c h
      · exact g2 c h

theorem Run.emits_weaken {α : Type} (x : Run α) (P P2 : Call → Prop) (Q Q2 : α → Prop)
    (h : Run.Emits x P Q) (hP : ∀ c, P c → P2 c) (hQ : ∀ a, Q a → Q2 a) :
    Run.Emits x P2 Q2 := by
  intro trace
  obtain ⟨extra, h1, h2, h3⟩ := h trace
  exact ⟨extra, h1, fun c hc => hP c (h2 c hc), fun a ha => hQ a (h3 a ha)⟩

/-! ### The calls of each phase of `finalizeImage` -/

theorem tarModules_emits (w : World) (tmpDir : String) (mods : List BuildModule) :
    ∀ c, Run.Emits (tarModules w tmpDir mods c) (fun x => x.onImage = false)
      (fun _ => True) := by
  induction mods with
  | nil => intro c; exact Run.emits_pure _ _ _ trivial
  | cons bp rest ih =>
    intro c
    unfold tarModules
    apply Run.emits_bind _ _ _ (fun _ => True)
    · exact Run.emits_call w _ _ rfl
    · intro bpLayerTar _
      apply Run.emits_bind _ _ _ (fun _ => True)
      · exact Run.emits_wrapErr _ _ _ _ _ (Run.emits_call w _ _ rfl)
      · intro diffID _
        exact ih _

theorem flattenAll_emits (w : World) (ro : FinalizeOrders) (tmpDir : String)
    (c : GoMap toAdd) :
    Run.Emits (flattenAll w ro tmpDir c) (fun x => x.onImage = false) (fun _ => True) := by
  unfold flattenAll
  apply Run.emits_bind _ _ _ (fun _ => True)
  · exact Run.emits_wrapErr _ _ _ _ _ (Run.emits_call w _ _ rfl)
  · intro _ _
    apply Run.emits_bind _ _ _ (fun _ => True)
    · exact Run.emits_wrapErr _ _ _ _ _ (Run.emits_call w _ _ rfl)
    · intro _ _
      apply Run.emits_bind _ _ _ (fun _ => True)
      · exact Run.emits_wrapErr _ _ _ _ _ (Run.emits_call w _ _ rfl)
      · intro _ _
        exact Run.emits_pure _ _ _ trivial

theorem flattenGroups_emits (w : World) (tmpDir : String) (groups : List (List BuildModule)) :
    ∀ i c, Run.Emits (flattenGroups w tmpDir groups i c) (fun x => x.onImage = false)
      (fun _ => True) := by
  induction groups with
  | nil => intro i c; exact Run.emits_pure _ _ _ trivial
  | cons g rest ih =>
    intro i c
    unfold flattenGroups
    apply Run.emits_bind _ _ _ (fun _ => True)
    · exact Run.emits_wrapErr _ _ _ _ _ (Run.emits_call w _ _ rfl)
    · intro _ _
      apply Run.emits_bind _ _ _ (fun _ => True)
      · exact Run.emits_wrapErr _ _ _ _ _ (Run.emits_call w _ _ rfl)
      · intro _ _
        apply Run.emits_bind _ _ _ (fun _ => True)
        · exact Run.emits_wrapErr _ _ _ _ _ (Run.emits_call w _ _ rfl)
        · intro _ _
          exact ih _ _

theorem collectLayers_emits (w : World) (ro : FinalizeOrders) (b : PackageBuilder)
    (buildpack : BuildModule) (tmpDir : String) :
    Run.Emits (collectLayers w ro b buildpack tmpDir) (fun x => x.onImage = false)
      (fun _ => True) := by
  unfold collectLayers
  apply Run.emits_bind _ _ _ (fun _ => True)
  · exact tarModules_emits w tmpDir _ _
  · intro c _
    split
    · exact flattenAll_emits w ro tmpDir c
    · split
      · exact flattenGroups_emits w tmpDir _ _ _
      · exact Run.emits_pure _ _ _ trivial

theorem addLayers_emits (w : World) (b : PackageBuilder) (entries : List (String × toAdd)) :
    ∀ added md, Run.Emits (addLayers w b entries added md) (fun x => x.isAddLayer = true)
      (fun _ => True) := by
  induction entries with
  | nil => intro added md; exact Run.emits_pure _ _ _ trivial
  | cons e rest ih =>
    intro added md
    obtain ⟨key, module⟩ := e
    unfold addLayers
    simp only
    split
    · apply Run.emits_bind _ _ _ (fun _ => True)
      · split
        · exact Run.emits_call w _ _ rfl
        · exact Run.emits_pure _ _ _ trivial
      · intro _ _; exact Run.emits_fail _ _ _
    · apply Run.emits_bind _ _ _ (fun _ => True)
      · split
        · exact Run.emits_wrapErr _ _ _ _ _ (Run.emits_call w _ _ rfl)
        · exact Run.emits_pure _ _ _ trivial
      · intro _ _
        exact ih _ _

theorem Call.onImage_of_isAddLayer (c : Call) (h : c.isAddLayer = true) : c.onImage = true := by
  cases c <;> simp_all [Call.isAddLayer, Call.onImage]

theorem filter_onImage_of_not (l : List Call) (h : ∀ c ∈ l, c.onImage = false) :
    l.filter Call.onImage = [] := by
  rw [List.filter_eq_nil_iff]
  intro c hc
  simp [h c hc]

theorem filter_onImage_of_isAddLayer (l : List Call) (h : ∀ c ∈ l, c.isAddLayer = true) :
    l.filter Call.onImage = l := by
  rw [List.filter_eq_self]
  intro c hc
  exact Call.onImage_of_isAddLayer c (h c hc)

theorem layerDecision_flattenAll (b1 b2 : PackageBuilder) (h1 : b1.flattenAllBuildpacks = true)
    (h2 : b2.flattenAllBuildpacks = true) (module : toAdd) (added : GoMap String) :
    layerDecision b1 module added = layerDecision b2 module added := by
  simp [layerDecision, h1, h2]

theorem addLayers_flattenAll (w : World) (b1 b2 : PackageBuilder)
    (h1 : b1.flattenAllBuildpacks = true) (h2 : b2.flattenAllBuildpacks = true)
    (entries : List (String × toAdd)) :
    ∀ added md, addLayers w b1 entries added md = addLayers w b2 entries added md := by
  induction entries with
  | nil => intro added md; rfl
  | cons e rest ih =>
    intro added md
    obtain ⟨key, module⟩ := e
    unfold addLayers
    simp only [layerDecision_flattenAll b1 b2 h1 h2, ih]

/-- C9. Flatten-all takes precedence over per-group flattening: with
`flattenAllBuildpacks` set, `finalizeImage` returns the same outcome after the same
sequence of calls (so the same layers added and the same diffIDs recorded in the layer
map) whether or not `flattenMetaBuildpacks` is set and whatever flatten groups are
registered. -/
theorem finalizeImage_flattenAll_precedence (w : World) (ro : FinalizeOrders)
    (tmpDir : String) (buildpack extension : Option BuildModule) (deps : List BuildModule)
    (meta1 meta2 : Bool) (groups1 groups2 : FlattenModules) (trace : List Call) :
    PackageBuilder.finalizeImage w ro
        { buildpack := buildpack, extension := extension, dependencies := deps,
          flattenMetaBuildpacks := meta1, flattenAllBuildpacks := true,
          flattenBuildpacks := groups1 } tmpDir trace
      = PackageBuilder.finalizeImage w ro
        { buildpack := buildpack, extension := extension, dependencies := deps,
          flattenMetaBuildpacks := meta2, flattenAllBuildpacks := true,
          flattenBuildpacks := groups2 } tmpDir trace := by
  cases buildpack with
  | none => rfl
  | some root =>
    have h := addLayers_flattenAll w
      { buildpack := some root, extension := extension, dependencies := deps,
        flattenMetaBuildpacks := meta1, flattenAllBuildpacks := true,
        flattenBuildpacks := groups1 }
      { buildpack := some root, extension := extension, dependencies := deps,
        flattenMetaBuildpacks := meta2, flattenAllBuildpacks := true,
        flattenBuildpacks := groups2 } rfl rfl
    simp only [PackageBuilder.finalizeImage, collectLayers, if_true, h]

/-- C10 (amended). In the sequence of calls `finalizeImage` makes on the destination
image, the `SetLabel` call of the package-metadata label comes first, before every
`AddLayerWithDiffID` call; the `SetLabel` call of the layer-map label comes after every
`AddLayerWithDiffID` call, and is made whenever `finalizeImage` succeeds. -/
theorem finalizeImage_call_order (w : World) (ro : FinalizeOrders) (b : PackageBuilder)
    (tmpDir : String) (root : BuildModule) (hroot : b.buildpack = some root) :
    ∃ adds tail,
      (b.finalizeImage w ro tmpDir []).2.filter Call.onImage =
        Call.SetLabel .MetadataLabel
          (.Metadata root.Descriptor.Info (resolvedStacks root b.dependencies))
          :: (adds ++ tail) ∧
      (∀ c ∈ adds, c.isAddLayer = true) ∧
      (tail = [] ∨ ∃ layers, tail = [Call.SetLabel .BuildpackLayersLabel (.ModuleLayers layers)]) ∧
      ((b.finalizeImage w ro tmpDir []).1 = .ok () → tail ≠ []) := by
  simp only [PackageBuilder.finalizeImage, hroot]
  rw [Run.bind_apply]
  generalize hc0 : Call.SetLabel LabelKey.MetadataLabel
    (LabelValue.Metadata root.Descriptor.Info (resolvedStacks root b.dependencies)) = c0
  have hc0i : c0.onImage = true := by rw [← hc0]; rfl
  have hcall : w.call c0 [] = (w.respond [] c0, [c0]) := rfl
  rw [hcall]
  cases h1 : w.respond [] c0 with
  | error e =>
    refine ⟨[], [], ?_, by simp, Or.inl rfl, ?_⟩
    · simp [hc0i]
    · intro h; simp at h
  | ok a1 =>
    simp only [List.nil_append]
    rw [Run.bind_apply]
    obtain ⟨e2, h2t, h2p, _⟩ := collectLayers_emits w ro b root tmpDir [c0]
    rcases h2 : collectLayers w ro b root tmpDir [c0] with ⟨r2, t2⟩
    rw [h2] at h2t
    simp only at h2t
    cases r2 with
    | error e =>
      refine ⟨[], [], ?_, by simp, Or.inl rfl, ?_⟩
      · simp only [h2t, List.filter_append, filter_onImage_of_not e2 h2p]
        simp [hc0i]
      · intro h; simp at h
    | ok c =>
      simp only
      rw [Run.bind_apply]
      obtain ⟨e4, h4t, h4p, _⟩ :=
        addLayers_emits w b (ro.layers.pick c.entries) GoMap.empty GoMap.empty t2
      rcases h4 : addLayers w b (ro.layers.pick c.entries) GoMap.empty GoMap.empty t2
        with ⟨r4, t4⟩
      rw [h4] at h4t
      simp only at h4t
      cases r4 with
      | error e =>
        refine ⟨e4, [], ?_, h4p, Or.inl rfl, ?_⟩
        · simp only [h4t, h2t, List.filter_append, filter_onImage_of_not e2 h2p,
            filter_onImage_of_isAddLayer e4 h4p]
          simp [hc0i]
        · intro h; simp at h
      | ok md =>
        simp only
        rw [Run.bind_apply]
        refine ⟨e4, [Call.SetLabel .BuildpackLayersLabel (.ModuleLayers md.entries)], ?_, h4p,
          Or.inr ⟨_, rfl⟩, by simp⟩
        have h5 : (w.call (Call.SetLabel .BuildpackLayersLabel (.ModuleLayers md.entries)) t4).2
            = t4 ++ [Call.SetLabel .BuildpackLayersLabel (.ModuleLayers md.entries)] := rfl
        rcases h6 : w.call (Call.SetLabel .BuildpackLayersLabel (.ModuleLayers md.entries)) t4
          with ⟨r6, t6⟩
        rw [h6] at h5
        simp only at h5
        have hfin : ∀ (x : Except PkgError Unit × List Call), x.2 = t6 →
            x.2.filter Call.onImage = c0 :: (e4 ++
              [Call.SetLabel .BuildpackLayersLabel (.ModuleLayers md.entries)]) := by
          intro x hx
          rw [hx, h5, h4t, h2t]
          simp only [List.filter_append, filter_onImage_of_not e2 h2p,
            filter_onImage_of_isAddLayer e4 h4p]
          simp [hc0i]
          rfl
        cases r6 with
        | error e => exact hfin _ rfl
        | ok a6 => exact hfin _ rfl

/-! ### A successful `finalizeImage`, phase by phase -/

theorem Run.bind_ok {α β : Type} (x : Run α) (f : α → Run β) (trace : List Call) (b : β)
    (h : ((x >>= f) trace).1 = .ok b) :
    ∃ a trace1, x trace = (.ok a, trace1) ∧ (x >>= f) trace = f a trace1 := by
  rw [Run.bind_apply] at h ⊢
  rcases hx : x trace with ⟨r, t1⟩
  rw [hx] at h
  cases r with
  | error e => simp at h
  | ok a => exact ⟨a, t1, rfl, rfl⟩

theorem finalizeImage_ok (w : World) (ro : FinalizeOrders) (b : PackageBuilder)
    (tmpDir : String) (root : BuildModule) (hroot : b.buildpack = some root)
    (hok : (b.finalizeImage w ro tmpDir []).1 = .ok ()) :
    ∃ c t2 md t4,
      collectLayers w ro b root tmpDir
        [Call.SetLabel .MetadataLabel
          (.Metadata root.Descriptor.Info (resolvedStacks root b.dependencies))] = (.ok c, t2) ∧
      addLayers w b (ro.layers.pick c.entries) GoMap.empty GoMap.empty t2 = (.ok md, t4) ∧
      (b.finalizeImage w ro tmpDir []).2 =
        t4 ++ [Call.SetLabel .BuildpackLayersLabel (.ModuleLayers md.entries)] := by
  simp only [PackageBuilder.finalizeImage, hroot] at hok ⊢
  obtain ⟨a1, t1, h1, e1⟩ := Run.bind_ok _ _ _ _ hok
  rw [e1] at hok ⊢
  have ht1 : t1 = [Call.SetLabel .MetadataLabel
      (.Metadata root.Descriptor.Info (resolvedStacks root b.dependencies))] := by
    have := congrArg Prod.snd h1
    exact this.symm
  subst ht1
  obtain ⟨c, t2, h2, e2⟩ := Run.bind_ok _ _ _ _ hok
  rw [e2] at hok ⊢
  obtain ⟨md, t4, h4, e4⟩ := Run.bind_ok _ _ _ _ hok
  rw [e4] at hok ⊢
  refine ⟨c, t2, md, t4, h2, h4, ?_⟩
  obtain ⟨a5, t5, h5, e5⟩ := Run.bind_ok _ _ _ _ hok
  rw [e5]
  have := congrArg Prod.snd h5
  exact this.symm

/-! ### The collection of layers -/

theorem keys_setEntry_of_not_mem {V : Type} (k : String) (v : V) (l : List (String × V))
    (hk : k ∉ l.map Prod.fst) : (setEntry k v l).map Prod.fst = l.map Prod.fst ++ [k] := by
  induction l with
  | nil => rfl
  | cons e rest ih =>
    have h : ¬ e.1 = k := fun h => hk (by simp [h])
    have hk2 : k ∉ rest.map Prod.fst := fun h2 => hk (List.mem_cons_of_mem _ h2)
    simp [setEntry, h, ih hk2]

theorem nodup_keys_setEntry {V : Type} (k : String) (v : V) (l : List (String × V))
    (h : (l.map Prod.fst).Nodup) : ((setEntry k v l).map Prod.fst).Nodup := by
  by_cases hk : k ∈ l.map Prod.fst
  · rw [keys_setEntry k v l hk]; exact h
  · rw [keys_setEntry_of_not_mem k v l hk]
    exact List.Nodup.append h (List.nodup_singleton k)
      (by intro x hx hx2; rw [List.mem_singleton.mp hx2] at hx; exact hk hx)

theorem mem_setEntry {V : Type} (k : String) (v : V) (l : List (String × V)) (e : String × V)
    (he : e ∈ setEntry k v l) : e = (k, v) ∨ e ∈ l := by
  induction l with
  | nil => left; simpa [setEntry] using he
  | cons a rest ih =>
    unfold setEntry at he
    by_cases h : a.1 = k
    · simp only [h, if_true, List.mem_cons] at he
      rcases he with he | he
      · exact Or.inl he
      · exact Or.inr (List.mem_cons_of_mem _ he)
    · simp only [h, if_false, List.mem_cons] at he
      rcases he with he | he
      · right; rw [he]; exact List.mem_cons_self _ _
      · rcases ih he with h1 | h1
        · exact Or.inl h1
        · exact Or.inr (List.mem_cons_of_mem _ h1)

theorem wellKeyed_set (c : GoMap toAdd) (bp : BuildModule) (tarPath diffID : String)
    (h : WellKeyed c) :
    WellKeyed (c.set bp.FullName { tarPath := tarPath, diffID := diffID, module := some bp }) := by
  refine ⟨nodup_keys_setEntry _ _ _ h.1, ?_⟩
  intro e he
  rcases mem_setEntry _ _ _ _ he with h1 | h1
  · rw [h1]; exact ⟨bp, rfl, rfl⟩
  · exact h.2 e h1

theorem tarModules_value (w : World) (tmpDir : String) (mods : List BuildModule) :
    ∀ c, WellKeyed c →
      Run.Emits (tarModules w tmpDir mods c) (fun _ => True)
        (fun c1 => WellKeyed c1 ∧
          (∀ k, k ∈ c1.keys ↔ k ∈ c.keys ∨ k ∈ mods.map BuildModule.FullName) ∧
          ((c.keys ++ mods.map BuildModule.FullName).Nodup →
            c1.keys = c.keys ++ mods.map BuildModule.FullName)) := by
  induction mods with
  | nil =>
    intro c hc
    exact Run.emits_pure _ _ _ ⟨hc, by simp, by simp⟩
  | cons bp rest ih =>
    intro c hc
    unfold tarModules
    apply Run.emits_bind _ _ _ (fun _ => True)
    · exact Run.emits_call w _ _ trivial
    · intro bpLayerTar _
      apply Run.emits_bind _ _ _ (fun _ => True)
      · exact Run.emits_wrapErr _ _ _ _ _ (Run.emits_call w _ _ trivial)
      · intro diffID _
        apply Run.emits_weaken _ _ _ _ _
          (ih _ (wellKeyed_set c bp bpLayerTar diffID hc)) (fun _ h => h)
        rintro c1 ⟨h1, h2, h3⟩
        refine ⟨h1, ?_, ?_⟩
        · intro k
          rw [h2 k]
          simp only [GoMap.keys, GoMap.set, mem_keys_setEntry, List.map_cons, List.mem_cons]
          tauto
        · intro hnd
          have hbp : bp.FullName ∉ c.keys := by
            intro hin
            have := List.disjoint_of_nodup_append hnd hin
            exact this (by simp)
          have hk : (c.set bp.FullName
              { tarPath := bpLayerTar, diffID := diffID, module := some bp }).keys
              = c.keys ++ [bp.FullName] := keys_setEntry_of_not_mem _ _ _ hbp
          rw [h3 (by rw [hk]; simpa using hnd), hk]
          simp

theorem setEntry_eq_map (k : String) (U : toAdd → toAdd) (l : List (String × toAdd))
    (hnd : (l.map Prod.fst).Nodup) (hk : k ∈ l.map Prod.fst) :
    setEntry k (U ((getEntry k l).getD toAdd.zero)) l =
      l.map (fun e => if e.1 = k then (e.1, U e.2) else e) := by
  induction l with
  | nil => simp at hk
  | cons a rest ih =>
    have hnd2 := (List.nodup_cons.mp hnd).2
    have ha : a.1 ∉ rest.map Prod.fst := (List.nodup_cons.mp hnd).1
    by_cases h : a.1 = k
    · have hrest : rest.map (fun e => if e.1 = k then (e.1, U e.2) else e) = rest := by
        conv_rhs => rw [← List.map_id rest]
        apply List.map_congr_left
        intro e he
        have : ¬ e.1 = k := by
          intro hek
          exact ha (by rw [h, ← hek]; exact List.mem_map_of_mem _ he)
        simp [this]
      simp [setEntry, getEntry, h, hrest]
    · have hk2 : k ∈ rest.map Prod.fst := by
        rcases List.mem_cons.mp hk with h1 | h1
        · exact absurd h1.symm h
        · exact h1
      simp [setEntry, getEntry, h, ih hnd2 hk2]

theorem squash_entries (tarPath diffID : String) (keys : List String) :
    ∀ c : GoMap toAdd, c.keys.Nodup → (∀ k ∈ keys, k ∈ c.keys) →
      (squash tarPath diffID keys c).entries =
        c.entries.map (fun e =>
          if e.1 ∈ keys then (e.1, { e.2 with tarPath := tarPath, diffID := diffID }) else e) := by
  induction keys with
  | nil => intro c _ _; simp [squash]
  | cons k ks ih =>
    intro c hnd hks
    have hk : k ∈ c.keys := hks k (List.mem_cons_self _ _)
    have h1 : (c.set k { (c.get? k).getD toAdd.zero with tarPath := tarPath, diffID := diffID }).entries
        = c.entries.map (fun e =>
            if e.1 = k then (e.1, { e.2 with tarPath := tarPath, diffID := diffID }) else e) :=
      setEntry_eq_map k (fun v => { v with tarPath := tarPath, diffID := diffID }) c.entries hnd hk
    have hkeys : (c.set k
        { (c.get? k).getD toAdd.zero with tarPath := tarPath, diffID := diffID }).keys = c.keys :=
      keys_setEntry _ _ _ hk
    have := ih (c.set k { (c.get? k).getD toAdd.zero with tarPath := tarPath, diffID := diffID })
      (by rw [hkeys]; exact hnd)
      (by intro x hx; rw [hkeys]; exact hks x (List.mem_cons_of_mem _ hx))
    unfold squash at this ⊢
    rw [List.foldl_cons, this, h1, List.map_map]
    apply List.map_congr_left
    intro e _
    by_cases hek : e.1 = k
    · by_cases hin : e.1 ∈ ks <;> simp [hek, hin]
    · by_cases hin : e.1 ∈ ks <;> simp [hek, hin]

theorem Run.wrapErr_ok {α : Type} (x : Run α) (format : String) (args : List String)
    (trace : List Call) (a : α) (trace1 : List Call)
    (h : x.wrapErr format args trace = (.ok a, trace1)) : x trace = (.ok a, trace1) := by
  unfold Run.wrapErr at h
  rcases hx : x trace with ⟨r, t1⟩
  rw [hx] at h
  cases r with
  | error e => simp at h
  | ok a1 => exact h

theorem World.call_ok (w : World) (c : Call) (trace : List Call) (a : String)
    (trace1 : List Call) (h : w.call c trace = (.ok a, trace1)) :
    w.respond trace c = .ok a ∧ trace1 = trace ++ [c] := by
  unfold World.call at h
  exact ⟨congrArg Prod.fst h, (congrArg Prod.snd h).symm⟩

theorem Run.bind_eq_ok {α β : Type} (x : Run α) (f : α → Run β) (trace : List Call) (b : β)
    (trace2 : List Call) (h : (x >>= f) trace = (.ok b, trace2)) :
    ∃ a trace1, x trace = (.ok a, trace1) ∧ f a trace1 = (.ok b, trace2) := by
  obtain ⟨a, t1, h1, h2⟩ := Run.bind_ok x f trace b (by rw [h])
  exact ⟨a, t1, h1, by rw [← h2, h]⟩

theorem flattenAll_ok (w : World) (ro : FinalizeOrders) (tmpDir : String) (c c1 : GoMap toAdd)
    (trace trace1 : List Call) (h : flattenAll w ro tmpDir c trace = (.ok c1, trace1)) :
    ∃ diffID pre srcs,
      trace1 = pre ++
        [Call.MergeTars
          (filepathJoin (filepathJoin tmpDir "buildpack-all-flatten") "all-flatten.tar") srcs,
         Call.LayerDiffID
          (filepathJoin (filepathJoin tmpDir "buildpack-all-flatten") "all-flatten.tar")] ∧
      w.respond
        (pre ++ [Call.MergeTars
          (filepathJoin (filepathJoin tmpDir "buildpack-all-flatten") "all-flatten.tar") srcs])
        (Call.LayerDiffID
          (filepathJoin (filepathJoin tmpDir "buildpack-all-flatten") "all-flatten.tar"))
        = .ok diffID ∧
      c1 = squash (filepathJoin (filepathJoin tmpDir "buildpack-all-flatten") "all-flatten.tar")
        diffID ((ro.rewrite.pick c.entries).map Prod.fst) c := by
  unfold flattenAll at h
  obtain ⟨a1, t1, h1, h⟩ := Run.bind_eq_ok _ _ _ _ _ h
  obtain ⟨a2, t2, h2, h⟩ := Run.bind_eq_ok _ _ _ _ _ h
  obtain ⟨d, t3, h3, h⟩ := Run.bind_eq_ok _ _ _ _ _ h
  obtain ⟨_, ht1⟩ := World.call_ok _ _ _ _ _ (Run.wrapErr_ok _ _ _ _ _ _ h1)
  obtain ⟨_, ht2⟩ := World.call_ok _ _ _ _ _ (Run.wrapErr_ok _ _ _ _ _ _ h2)
  obtain ⟨hd, ht3⟩ := World.call_ok _ _ _ _ _ (Run.wrapErr_ok _ _ _ _ _ _ h3)
  change (Except.ok _, t3) = _ at h
  have hc1 := congrArg Prod.fst h
  have htr := congrArg Prod.snd h
  simp only [Except.ok.injEq] at hc1
  simp only at htr
  refine ⟨d, t1, (ro.tars.pick c.entries).map (fun e => e.2.tarPath), ?_, ?_, hc1.symm⟩
  · rw [← htr, ht3, ht2]; simp
  · rw [← ht2]; exact hd

theorem collectLayers_flattenAll_ok (w : World) (ro : FinalizeOrders) (b : PackageBuilder)
    (root : BuildModule) (tmpDir : String) (hall : b.flattenAllBuildpacks = true)
    (c1 : GoMap toAdd) (trace trace1 : List Call)
    (h : collectLayers w ro b root tmpDir trace = (.ok c1, trace1)) :
    ∃ diffID pre srcs,
      trace1 = pre ++
        [Call.MergeTars
          (filepathJoin (filepathJoin tmpDir "buildpack-all-flatten") "all-flatten.tar") srcs,
         Call.LayerDiffID
          (filepathJoin (filepathJoin tmpDir "buildpack-all-flatten") "all-flatten.tar")] ∧
      w.respond
        (pre ++ [Call.MergeTars
          (filepathJoin (filepathJoin tmpDir "buildpack-all-flatten") "all-flatten.tar") srcs])
        (Call.LayerDiffID
          (filepathJoin (filepathJoin tmpDir "buildpack-all-flatten") "all-flatten.tar"))
        = .ok diffID ∧
      (∀ m ∈ b.dependencies ++ [root], m.FullName ∈ c1.keys) ∧
      ∀ e ∈ c1.entries,
        e.2.tarPath =
          filepathJoin (filepathJoin tmpDir "buildpack-all-flatten") "all-flatten.tar" ∧
        e.2.diffID = diffID ∧ ∃ bp, e.2.module = some bp ∧ bp.FullName = e.1 := by
  unfold collectLayers at h
  simp only [hall, if_true] at h
  obtain ⟨c0, t0, h0, h⟩ := Run.bind_eq_ok _ _ _ _ _ h
  obtain ⟨_, _, _, hv⟩ := tarModules_value w tmpDir (b.dependencies ++ [root]) GoMap.empty
    ⟨by simp [GoMap.keys, GoMap.empty], by simp [GoMap.empty]⟩ trace
  obtain ⟨hwk, hmem, _⟩ := hv c0 (by rw [h0])
  obtain ⟨d, pre, srcs, ht, hd, hc1⟩ := flattenAll_ok w ro tmpDir c0 c1 t0 trace1 h
  refine ⟨d, pre, srcs, ht, hd, ?_, ?_⟩
  · have hsq := squash_entries
      (filepathJoin (filepathJoin tmpDir "buildpack-all-flatten") "all-flatten.tar") d
      ((ro.rewrite.pick c0.entries).map Prod.fst) c0 hwk.1
      (by
        intro k hk
        obtain ⟨e, he, hek⟩ := List.mem_map.mp hk
        rw [← hek]
        exact List.mem_map_of_mem _ ((ro.rewrite.perm c0.entries).mem_iff.mp he))
    intro m hm
    have h1 : m.FullName ∈ c0.keys := (hmem _).mpr (Or.inr (List.mem_map_of_mem _ hm))
    rw [hc1]
    unfold GoMap.keys at h1 ⊢
    rw [hsq, List.map_map]
    obtain ⟨e, he, hek⟩ := List.mem_map.mp h1
    refine List.mem_map.mpr ⟨e, he, ?_⟩
    rw [← hek]
    by_cases hin : e.1 ∈ (ro.rewrite.pick c0.entries).map Prod.fst <;> simp [hin]
  · intro e he
    have hsq := squash_entries
      (filepathJoin (filepathJoin tmpDir "buildpack-all-flatten") "all-flatten.tar") d
      ((ro.rewrite.pick c0.entries).map Prod.fst) c0 hwk.1
      (by
        intro k hk
        obtain ⟨e, he, hek⟩ := List.mem_map.mp hk
        rw [← hek]
        exact List.mem_map_of_mem _ ((ro.rewrite.perm c0.entries).mem_iff.mp he))
    rw [hc1, hsq] at he
    obtain ⟨e0, he0, hee⟩ := List.mem_map.mp he
    have hin : e0.1 ∈ (ro.rewrite.pick c0.entries).map Prod.fst :=
      List.mem_map_of_mem _ ((ro.rewrite.perm c0.entries).mem_iff.mpr he0)
    simp only [hin, if_true] at hee
    obtain ⟨bp, hbp1, hbp2⟩ := hwk.2 e0 he0
    rw [← hee]
    exact ⟨rfl, rfl, bp, hbp1, hbp2⟩

/-! ### The layers added -/

theorem layerDecision_noFlatten (b : PackageBuilder) (hall : b.flattenAllBuildpacks = false)
    (hmeta : b.flattenMetaBuildpacks = false) (module : toAdd) (added : GoMap String) :
    layerDecision b module added = (true, added) := by
  simp [layerDecision, PackageBuilder.MustBeFlatten, hall, hmeta]

theorem addLayers_some_ok (w : World) (b : PackageBuilder) (key : String) (module : toAdd)
    (rest : List (String × toAdd)) (added : GoMap String) (md md1 : ModuleLayers)
    (trace trace1 : List Call)
    (h : addLayers w b ((key, module) :: rest) added md trace = (.ok md1, trace1)) :
    ∃ bp, module.module = some bp ∧
      addLayers w b rest (layerDecision b module added).2
        (AddToLayersMD md bp.Descriptor module.diffID)
        (if (layerDecision b module added).1 then
          trace ++ [Call.AddLayerWithDiffID module.tarPath module.diffID] else trace)
        = (.ok md1, trace1) := by
  unfold addLayers at h
  simp only at h
  cases hm : module.module with
  | none =>
    rw [hm] at h
    simp only at h
    obtain ⟨_, _, _, h2⟩ := Run.bind_eq_ok _ _ _ _ _ h
    simp [Run.fail] at h2
  | some bp =>
    rw [hm] at h
    simp only at h
    refine ⟨bp, rfl, ?_⟩
    obtain ⟨a, t1, h1, h2⟩ := Run.bind_eq_ok _ _ _ _ _ h
    by_cases hd : (layerDecision b module added).1 = true
    · simp only [hd, if_true] at h1 ⊢
      obtain ⟨_, ht1⟩ := World.call_ok _ _ _ _ _ (Run.wrapErr_ok _ _ _ _ _ _ h1)
      rw [← ht1]; exact h2
    · simp only [hd] at h1 ⊢
      have ht1 : t1 = trace := (congrArg Prod.snd h1).symm
      simp only [Bool.false_eq_true, if_false]
      rw [← ht1]; exact h2

theorem addLayers_noFlatten (w : World) (b : PackageBuilder)
    (hall : b.flattenAllBuildpacks = false) (hmeta : b.flattenMetaBuildpacks = false)
    (entries : List (String × toAdd)) :
    ∀ (added : GoMap String) (md md1 : ModuleLayers) (trace trace1 : List Call),
      addLayers w b entries added md trace = (.ok md1, trace1) →
      trace1 = trace ++
        entries.map (fun e => Call.AddLayerWithDiffID e.2.tarPath e.2.diffID) := by
  induction entries with
  | nil =>
    intro added md md1 trace trace1 h
    have := congrArg Prod.snd h
    simpa [addLayers] using this.symm
  | cons e rest ih =>
    intro added md md1 trace trace1 h
    obtain ⟨key, module⟩ := e
    obtain ⟨bp, _, h2⟩ := addLayers_some_ok w b key module rest added md md1 trace trace1 h
    rw [layerDecision_noFlatten b hall hmeta] at h2
    simp only [if_true] at h2
    rw [ih _ _ _ _ _ h2]
    simp

theorem addLayers_flattenAll_seen (w : World) (b : PackageBuilder)
    (hall : b.flattenAllBuildpacks = true) (diffID : String)
    (entries : List (String × toAdd)) :
    ∀ (added : GoMap String) (md md1 : ModuleLayers) (trace trace1 : List Call),
      (∀ e ∈ entries, e.2.diffID = diffID) →
      (∃ v, added.get? diffID = some v) →
      addLayers w b entries added md trace = (.ok md1, trace1) → trace1 = trace := by
  induction entries with
  | nil =>
    intro added md md1 trace trace1 _ _ h
    exact (congrArg Prod.snd h).symm
  | cons e rest ih =>
    intro added md md1 trace trace1 hu hs h
    obtain ⟨key, module⟩ := e
    obtain ⟨v, hv⟩ := hs
    have hd : module.diffID = diffID := hu (key, module) (List.mem_cons_self _ _)
    obtain ⟨bp, _, h2⟩ := addLayers_some_ok w b key module rest added md md1 trace trace1 h
    have hdec : layerDecision b module added = (false, added) := by
      simp [layerDecision, hall, hd, hv]
    rw [hdec] at h2
    simp only [Bool.false_eq_true, if_false] at h2
    exact ih _ _ _ _ _ (fun e he => hu e (List.mem_cons_of_mem _ he)) ⟨v, hv⟩ h2

theorem addLayers_flattenAll_first (w : World) (b : PackageBuilder)
    (hall : b.flattenAllBuildpacks = true) (tarPath diffID : String)
    (e : String × toAdd) (rest : List (String × toAdd))
    (added : GoMap String) (md md1 : ModuleLayers) (trace trace1 : List Call)
    (hu : ∀ x ∈ e :: rest, x.2.tarPath = tarPath ∧ x.2.diffID = diffID)
    (hs : added.get? diffID = none)
    (h : addLayers w b (e :: rest) added md trace = (.ok md1, trace1)) :
    trace1 = trace ++ [Call.AddLayerWithDiffID tarPath diffID] := by
  obtain ⟨key, module⟩ := e
  obtain ⟨hp, hd⟩ := hu (key, module) (List.mem_cons_self _ _)
  simp only at hp hd
  obtain ⟨bp, _, h2⟩ := addLayers_some_ok w b key module rest added md md1 trace trace1 h
  have hdec : layerDecision b module added = (true, added.set diffID tarPath) := by
    simp [layerDecision, hall, hd, hp, hs]
  rw [hdec] at h2
  simp only [if_true, hp, hd] at h2
  exact addLayers_flattenAll_seen w b hall diffID rest _ _ _ _ _
    (fun x hx => (hu x (List.mem_cons_of_mem _ hx)).2)
    ⟨tarPath, by
      show getEntry diffID (setEntry diffID tarPath added.entries) = some tarPath
      rw [getEntry_setEntry]; simp⟩ h2

theorem addLayers_layers (w : World) (b : PackageBuilder) (diffID : String)
    (entries : List (String × toAdd)) :
    ∀ (added : GoMap String) (md md1 : ModuleLayers) (trace trace1 : List Call),
      (∀ e ∈ entries, e.2.diffID = diffID ∧ ∃ bp, e.2.module = some bp ∧ bp.FullName = e.1) →
      (∀ x ∈ md.entries, x.2.LayerDiffID = diffID) →
      addLayers w b entries added md trace = (.ok md1, trace1) →
      (∀ x ∈ md1.entries, x.2.LayerDiffID = diffID) ∧
      ∀ k, k ∈ md.keys ∨ k ∈ entries.map Prod.fst → k ∈ md1.keys := by
  induction entries with
  | nil =>
    intro added md md1 trace trace1 _ hmd h
    have hm : md = md1 := by
      have h0 : (Except.ok md : Except PkgError ModuleLayers) = Except.ok md1 :=
        congrArg Prod.fst h
      exact Except.ok.inj h0
    subst hm
    exact ⟨hmd, fun k hk => by simpa using hk⟩
  | cons e rest ih =>
    intro added md md1 trace trace1 hu hmd h
    obtain ⟨key, module⟩ := e
    obtain ⟨hd, bp0, hbp0, hname⟩ := hu (key, module) (List.mem_cons_self _ _)
    simp only at hd hbp0 hname
    obtain ⟨bp, hbp, h2⟩ := addLayers_some_ok w b key module rest added md md1 trace trace1 h
    have hbb : bp = bp0 := by rw [hbp0] at hbp; exact (Option.some.inj hbp).symm
    subst hbb
    have hmd2 : ∀ x ∈ (AddToLayersMD md bp.Descriptor module.diffID).entries,
        x.2.LayerDiffID = diffID := by
      intro x hx
      rcases mem_setEntry _ _ _ _ hx with h1 | h1
      · rw [h1]; exact hd
      · exact hmd x h1
    obtain ⟨r1, r2⟩ := ih _ _ _ _ _ (fun x hx => hu x (List.mem_cons_of_mem _ hx)) hmd2 h2
    refine ⟨r1, ?_⟩
    intro k hk
    apply r2
    have hkeys : ∀ x, x ∈ (AddToLayersMD md bp.Descriptor module.diffID).keys ↔
        x = bp.Descriptor.Info.FullName ∨ x ∈ md.keys := fun x => mem_keys_setEntry _ _ _ x
    rcases hk with hk | hk
    · exact Or.inl ((hkeys k).mpr (Or.inr hk))
    · rcases List.mem_cons.mp hk with hk | hk
      · left
        apply (hkeys k).mpr
        left
        rw [hk]; exact hname.symm
      · exact Or.inr hk

theorem filter_isAddLayer_of_not_onImage (l : List Call) (h : ∀ c ∈ l, c.onImage = false) :
    l.filter Call.isAddLayer = [] := by
  rw [List.filter_eq_nil_iff]
  intro c hc hadd
  have := Call.onImage_of_isAddLayer c hadd
  rw [h c hc] at this
  cases this

theorem collectLayers_noFlatten_ok (w : World) (ro : FinalizeOrders) (b : PackageBuilder)
    (root : BuildModule) (tmpDir : String) (hall : b.flattenAllBuildpacks = false)
    (hmeta : b.flattenMetaBuildpacks = false) (c : GoMap toAdd) (trace trace1 : List Call)
    (h : collectLayers w ro b root tmpDir trace = (.ok c, trace1)) :
    tarModules w tmpDir (b.dependencies ++ [root]) GoMap.empty trace = (.ok c, trace1) := by
  unfold collectLayers at h
  simp only [hall, hmeta, Bool.false_eq_true, if_false] at h
  obtain ⟨c0, t0, h0, h1⟩ := Run.bind_eq_ok _ _ _ _ _ h
  change (Except.ok c0, t0) = _ at h1
  rw [h0, h1]

/-- C7. With `flattenAllBuildpacks` set, a successful `finalizeImage` makes exactly one
`AddLayerWithDiffID` call, whatever the number of dependencies: it adds the merged tar
`all-flatten.tar` with the diffID answered for that file right after the merge; the
layer-map label is the last call and records, under the full name of the root and of
every dependency, that same diffID. -/
theorem finalizeImage_flattenAll_single_layer (w : World) (ro : FinalizeOrders)
    (tmpDir : String) (root : BuildModule) (extension : Option BuildModule)
    (deps : List BuildModule) (flatMeta : Bool) (groups : FlattenModules)
    (hok : (PackageBuilder.finalizeImage w ro
        { buildpack := some root, extension := extension, dependencies := deps,
          flattenMetaBuildpacks := flatMeta, flattenAllBuildpacks := true,
          flattenBuildpacks := groups } tmpDir []).1 = .ok ()) :
    ∃ diffID layers pre srcs,
      (PackageBuilder.finalizeImage w ro
        { buildpack := some root, extension := extension, dependencies := deps,
          flattenMetaBuildpacks := flatMeta, flattenAllBuildpacks := true,
          flattenBuildpacks := groups } tmpDir []).2.filter Call.isAddLayer =
        [Call.AddLayerWithDiffID
          (filepathJoin (filepathJoin tmpDir "buildpack-all-flatten") "all-flatten.tar")
          diffID] ∧
      (PackageBuilder.finalizeImage w ro
        { buildpack := some root, extension := extension, dependencies := deps,
          flattenMetaBuildpacks := flatMeta, flattenAllBuildpacks := true,
          flattenBuildpacks := groups } tmpDir []).2 =
        pre ++
          [Call.MergeTars
            (filepathJoin (filepathJoin tmpDir "buildpack-all-flatten") "all-flatten.tar") srcs,
           Call.LayerDiffID
            (filepathJoin (filepathJoin tmpDir "buildpack-all-flatten") "all-flatten.tar"),
           Call.AddLayerWithDiffID
            (filepathJoin (filepathJoin tmpDir "buildpack-all-flatten") "all-flatten.tar")
            diffID,
           Call.SetLabel .BuildpackLayersLabel (.ModuleLayers layers)] ∧
      w.respond
        (pre ++ [Call.MergeTars
          (filepathJoin (filepathJoin tmpDir "buildpack-all-flatten") "all-flatten.tar") srcs])
        (Call.LayerDiffID
          (filepathJoin (filepathJoin tmpDir "buildpack-all-flatten") "all-flatten.tar"))
        = .ok diffID ∧
      ∀ m ∈ deps ++ [root],
        ∃ info, getEntry m.FullName layers = some info ∧ info.LayerDiffID = diffID := by
  obtain ⟨c, t2, md, t4, h2, h4, htr⟩ := finalizeImage_ok w ro _ tmpDir root rfl hok
  obtain ⟨d, pre, srcs, ht2, hd, hmem, hent⟩ :=
    collectLayers_flattenAll_ok w ro _ root tmpDir rfl c _ t2 h2
  obtain ⟨e2, he2, hp2, _⟩ := collectLayers_emits w ro
    { buildpack := some root, extension := extension, dependencies := deps,
      flattenMetaBuildpacks := flatMeta, flattenAllBuildpacks := true,
      flattenBuildpacks := groups } root tmpDir
    [Call.SetLabel .MetadataLabel
      (.Metadata root.Descriptor.Info (resolvedStacks root deps))]
  rw [h2] at he2
  simp only at he2
  have hpick : ∀ x, x ∈ ro.layers.pick c.entries ↔ x ∈ c.entries :=
    fun x => (ro.layers.perm c.entries).mem_iff
  have hrootk : root.FullName ∈ c.keys := hmem root (by simp)
  obtain ⟨e0, he0, _⟩ := List.mem_map.mp hrootk
  have he0p : e0 ∈ ro.layers.pick c.entries := (hpick e0).mpr he0
  cases hl : ro.layers.pick c.entries with
  | nil => rw [hl] at he0p; cases he0p
  | cons e rest =>
    rw [hl] at h4
    have ht4 := addLayers_flattenAll_first w _ rfl
      (filepathJoin (filepathJoin tmpDir "buildpack-all-flatten") "all-flatten.tar") d
      e rest GoMap.empty GoMap.empty md t2 t4
      (fun x hx => by
        have := hent x ((hpick x).mp (by rw [hl]; exact hx))
        exact ⟨this.1, this.2.1⟩)
      rfl h4
    obtain ⟨hval, hkeys⟩ := addLayers_layers w _ d (e :: rest) GoMap.empty GoMap.empty md t2 t4
      (fun x hx => by
        have := hent x ((hpick x).mp (by rw [hl]; exact hx))
        exact ⟨this.2.1, this.2.2⟩)
      (by intro x hx; simp [GoMap.empty] at hx) h4
    refine ⟨d, md.entries, pre, srcs, ?_, ?_, hd, ?_⟩
    · rw [htr, ht4, List.filter_append, List.filter_append, he2, List.filter_append,
        filter_isAddLayer_of_not_onImage e2 hp2]
      rfl
    · rw [htr, ht4, ht2]
      simp
    · intro m hm
      have hk : m.FullName ∈ md.keys := by
        apply hkeys
        right
        rw [← hl]
        obtain ⟨x, hx, hxk⟩ := List.mem_map.mp (hmem m hm)
        exact List.mem_map.mpr ⟨x, (hpick x).mpr hx, hxk⟩
      obtain ⟨info, hinfo⟩ := (getEntry_isSome_iff md.entries _).mpr hk
      exact ⟨info, hinfo, hval _ (mem_of_getEntry _ _ _ hinfo)⟩

/-- C8 (amended). With no flattening flag set and contributing modules (the root and the
dependencies added) of pairwise distinct full names, a successful `finalizeImage` calls
`AddLayerWithDiffID` exactly as many times as there are contributing modules: the number
of dependencies plus one. -/
theorem finalizeImage_noFlatten_layer_count (w : World) (ro : FinalizeOrders)
    (tmpDir : String) (root : BuildModule) (extension : Option BuildModule)
    (deps : List BuildModule) (groups : FlattenModules)
    (hnames : ((deps ++ [root]).map BuildModule.FullName).Nodup)
    (hok : (PackageBuilder.finalizeImage w ro
        { buildpack := some root, extension := extension, dependencies := deps,
          flattenMetaBuildpacks := false, flattenAllBuildpacks := false,
          flattenBuildpacks := groups } tmpDir []).1 = .ok ()) :
    ((PackageBuilder.finalizeImage w ro
        { buildpack := some root, extension := extension, dependencies := deps,
          flattenMetaBuildpacks := false, flattenAllBuildpacks := false,
          flattenBuildpacks := groups } tmpDir []).2.filter Call.isAddLayer).length
      = deps.length + 1 := by
  obtain ⟨c, t2, md, t4, h2, h4, htr⟩ := finalizeImage_ok w ro _ tmpDir root rfl hok
  obtain ⟨e2, he2, hp2, _⟩ := collectLayers_emits w ro
    { buildpack := some root, extension := extension, dependencies := deps,
      flattenMetaBuildpacks := false, flattenAllBuildpacks := false,
      flattenBuildpacks := groups } root tmpDir
    [Call.SetLabel .MetadataLabel
      (.Metadata root.Descriptor.Info (resolvedStacks root deps))]
  rw [h2] at he2
  simp only at he2
  have h3 := collectLayers_noFlatten_ok w ro _ root tmpDir rfl rfl c _ t2 h2
  obtain ⟨_, _, _, hv⟩ := tarModules_value w tmpDir (deps ++ [root]) GoMap.empty
    ⟨by simp [GoMap.keys, GoMap.empty], by simp [GoMap.empty]⟩
    [Call.SetLabel .MetadataLabel
      (.Metadata root.Descriptor.Info (resolvedStacks root deps))]
  obtain ⟨_, _, hkeys⟩ := hv c (by rw [h3])
  have hk : c.keys = (deps ++ [root]).map BuildModule.FullName := by
    have := hkeys (by simpa [GoMap.keys, GoMap.empty] using hnames)
    simpa [GoMap.keys, GoMap.empty] using this
  have hlen : c.entries.length = deps.length + 1 := by
    have := congrArg List.length hk
    simpa [GoMap.keys] using this
  have ht4 := addLayers_noFlatten w _ rfl rfl _ _ _ _ _ _ h4
  rw [htr, ht4, List.filter_append, List.filter_append, he2, List.filter_append,
    filter_isAddLayer_of_not_onImage e2 hp2]
  have hall : ((ro.layers.pick c.entries).map
      (fun e => Call.AddLayerWithDiffID e.2.tarPath e.2.diffID)).filter Call.isAddLayer
      = (ro.layers.pick c.entries).map
        (fun e => Call.AddLayerWithDiffID e.2.tarPath e.2.diffID) := by
    rw [List.filter_eq_self]
    intro x hx
    obtain ⟨e, _, hxe⟩ := List.mem_map.mp hx
    rw [← hxe]; rfl
  rw [hall]
  have hpl : (ro.layers.pick c.entries).length = c.entries.length :=
    (ro.layers.perm c.entries).length_eq
  simp [Call.isAddLayer, hpl, hlen]

/-- Witness of C7: a root and two dependencies, flatten-all set, in a world where every
call succeeds. -/
theorem finalizeImage_flattenAll_single_layer_witness :
    (PackageBuilder.finalizeImage World.agreeable FinalizeOrders.stored
        { buildpack := some (metaModule "meta/root" "1.0.0" [("dep/a", "1.0.0"), ("dep/b", "1.0.0")]),
          extension := none,
          dependencies := [leafModule "dep/a" "1.0.0" ["some.stack.id"],
            leafModule "dep/b" "1.0.0" ["some.stack.id"]],
          flattenMetaBuildpacks := true, flattenAllBuildpacks := true,
          flattenBuildpacks := ⟨[[leafModule "dep/a" "1.0.0" ["some.stack.id"]]]⟩ }
        "/tmp" []).1 = .ok () ∧
    ∃ diffID layers pre srcs,
      (PackageBuilder.finalizeImage World.agreeable FinalizeOrders.stored
        { buildpack := some (metaModule "meta/root" "1.0.0" [("dep/a", "1.0.0"), ("dep/b", "1.0.0")]),
          extension := none,
          dependencies := [leafModule "dep/a" "1.0.0" ["some.stack.id"],
            leafModule "dep/b" "1.0.0" ["some.stack.id"]],
          flattenMetaBuildpacks := true, flattenAllBuildpacks := true,
          flattenBuildpacks := ⟨[[leafModule "dep/a" "1.0.0" ["some.stack.id"]]]⟩ }
        "/tmp" []).2.filter Call.isAddLayer =
        [Call.AddLayerWithDiffID
          (filepathJoin (filepathJoin "/tmp" "buildpack-all-flatten") "all-flatten.tar")
          diffID] ∧
      (PackageBuilder.finalizeImage World.agreeable FinalizeOrders.stored
        { buildpack := some (metaModule "meta/root" "1.0.0" [("dep/a", "1.0.0"), ("dep/b", "1.0.0")]),
          extension := none,
          dependencies := [leafModule "dep/a" "1.0.0" ["some.stack.id"],
            leafModule "dep/b" "1.0.0" ["some.stack.id"]],
          flattenMetaBuildpacks := true, flattenAllBuildpacks := true,
          flattenBuildpacks := ⟨[[leafModule "dep/a" "1.0.0" ["some.stack.id"]]]⟩ }
        "/tmp" []).2 =
        pre ++
          [Call.MergeTars
            (filepathJoin (filepathJoin "/tmp" "buildpack-all-flatten") "all-flatten.tar") srcs,
           Call.LayerDiffID
            (filepathJoin (filepathJoin "/tmp" "buildpack-all-flatten") "all-flatten.tar"),
           Call.AddLayerWithDiffID
            (filepathJoin (filepathJoin "/tmp" "buildpack-all-flatten") "all-flatten.tar")
            diffID,
           Call.SetLabel .BuildpackLayersLabel (.ModuleLayers layers)] ∧
      World.agreeable.respond
        (pre ++ [Call.MergeTars
          (filepathJoin (filepathJoin "/tmp" "buildpack-all-flatten") "all-flatten.tar") srcs])
        (Call.LayerDiffID
          (filepathJoin (filepathJoin "/tmp" "buildpack-all-flatten") "all-flatten.tar"))
        = .ok diffID ∧
      ∀ m ∈ [leafModule "dep/a" "1.0.0" ["some.stack.id"],
            leafModule "dep/b" "1.0.0" ["some.stack.id"]] ++
          [metaModule "meta/root" "1.0.0" [("dep/a", "1.0.0"), ("dep/b", "1.0.0")]],
        ∃ info, getEntry m.FullName layers = some info ∧ info.LayerDiffID = diffID :=
  ⟨rfl, finalizeImage_flattenAll_single_layer World.agreeable FinalizeOrders.stored "/tmp"
    _ _ _ _ _ rfl⟩

/-- Counterexample to C8 as stated: the same dependency added twice. Validation passes,
`finalizeImage` succeeds, and two layers are added for the three contributing modules,
because the collection of layers is keyed by full name. -/
theorem finalizeImage_noFlatten_fewer_layers :
    PackageBuilder.validate RangeOrder.stored
      (((NewBuilder.SetBuildpack (metaModule "meta/root" "1.0.0" [("dep/a", "1.0.0")])).AddDependency
        (leafModule "dep/a" "1.0.0" ["some.stack.id"])).AddDependency
        (leafModule "dep/a" "1.0.0" ["some.stack.id"])) = .ok () ∧
    (PackageBuilder.finalizeImage World.agreeable FinalizeOrders.stored
      (((NewBuilder.SetBuildpack (metaModule "meta/root" "1.0.0" [("dep/a", "1.0.0")])).AddDependency
        (leafModule "dep/a" "1.0.0" ["some.stack.id"])).AddDependency
        (leafModule "dep/a" "1.0.0" ["some.stack.id"])) "/tmp" []).1 = .ok () ∧
    (PackageBuilder.finalizeImage World.agreeable FinalizeOrders.stored
      (((NewBuilder.SetBuildpack (metaModule "meta/root" "1.0.0" [("dep/a", "1.0.0")])).AddDependency
        (leafModule "dep/a" "1.0.0" ["some.stack.id"])).AddDependency
        (leafModule "dep/a" "1.0.0" ["some.stack.id"])) "/tmp" []).2.filter Call.isAddLayer =
      [Call.AddLayerWithDiffID "/tmp/dep/a@1.0.0.tar" "sha256:/tmp/dep/a@1.0.0.tar",
       Call.AddLayerWithDiffID "/tmp/meta/root@1.0.0.tar" "sha256:/tmp/meta/root@1.0.0.tar"] ∧
    (((NewBuilder.SetBuildpack (metaModule "meta/root" "1.0.0" [("dep/a", "1.0.0")])).AddDependency
        (leafModule "dep/a" "1.0.0" ["some.stack.id"])).AddDependency
        (leafModule "dep/a" "1.0.0" ["some.stack.id"])).dependencies.length + 1 = 3 := by
  refine ⟨rfl, rfl, by decide, rfl⟩

/-- Witness of C8 (amended): a root and two dependencies of distinct full names. -/
theorem finalizeImage_noFlatten_layer_count_witness :
    (([leafModule "dep/a" "1.0.0" ["some.stack.id"],
        leafModule "dep/b" "1.0.0" ["some.stack.id"]] ++
      [metaModule "meta/root" "1.0.0" [("dep/a", "1.0.0"), ("dep/b", "1.0.0")]]).map
        BuildModule.FullName).Nodup ∧
    (PackageBuilder.finalizeImage World.agreeable FinalizeOrders.stored
        { buildpack := some (metaModule "meta/root" "1.0.0" [("dep/a", "1.0.0"), ("dep/b", "1.0.0")]),
          extension := none,
          dependencies := [leafModule "dep/a" "1.0.0" ["some.stack.id"],
            leafModule "dep/b" "1.0.0" ["some.stack.id"]],
          flattenMetaBuildpacks := false, flattenAllBuildpacks := false,
          flattenBuildpacks := ⟨[]⟩ } "/tmp" []).1 = .ok () ∧
    ((PackageBuilder.finalizeImage World.agreeable FinalizeOrders.stored
        { buildpack := some (metaModule "meta/root" "1.0.0" [("dep/a", "1.0.0"), ("dep/b", "1.0.0")]),
          extension := none,
          dependencies := [leafModule "dep/a" "1.0.0" ["some.stack.id"],
            leafModule "dep/b" "1.0.0" ["some.stack.id"]],
          flattenMetaBuildpacks := false, flattenAllBuildpacks := false,
          flattenBuildpacks := ⟨[]⟩ } "/tmp" []).2.filter Call.isAddLayer).length
      = [leafModule "dep/a" "1.0.0" ["some.stack.id"],
          leafModule "dep/b" "1.0.0" ["some.stack.id"]].length + 1 :=
  ⟨by decide, rfl,
   finalizeImage_noFlatten_layer_count World.agreeable FinalizeOrders.stored "/tmp" _ _ _ _
     (by decide) rfl⟩

/-- Counterexample to C10 as stated: packaging `example/foo@1.1.0` alone, the calls made
on the image are the metadata `SetLabel`, then `AddLayerWithDiffID`, then the layer-map
`SetLabel`: the package-metadata label is written before the layer is added. -/
theorem finalizeImage_metadata_label_first :
    (PackageBuilder.finalizeImage World.agreeable FinalizeOrders.stored
      (NewBuilder.SetBuildpack (leafModule "example/foo" "1.1.0" ["some.stack.id"]))
      "/tmp" []).2.filter Call.onImage =
      [Call.SetLabel .MetadataLabel
        (.Metadata { ID := "example/foo", Version := "1.1.0" }
          [{ ID := "some.stack.id", Mixins := [] }]),
       Call.AddLayerWithDiffID "/tmp/example/foo@1.1.0.tar" "sha256:/tmp/example/foo@1.1.0.tar",
       Call.SetLabel .BuildpackLayersLabel
        (.ModuleLayers
          [("example/foo@1.1.0",
            { API := "0.3", Stacks := [{ ID := "some.stack.id", Mixins := [] }],
              LayerDiffID := "sha256:/tmp/example/foo@1.1.0.tar" })])] := by
  decide

/-- Witness of C10 (amended): packaging `example/foo@1.1.0` alone. -/
theorem finalizeImage_call_order_witness :
    (NewBuilder.SetBuildpack (leafModule "example/foo" "1.1.0" ["some.stack.id"])).buildpack =
      some (leafModule "example/foo" "1.1.0" ["some.stack.id"]) ∧
    ∃ adds tail,
      ((NewBuilder.SetBuildpack (leafModule "example/foo" "1.1.0" ["some.stack.id"])).finalizeImage
          World.agreeable FinalizeOrders.stored "/tmp" []).2.filter Call.onImage =
        Call.SetLabel .MetadataLabel
          (.Metadata (leafModule "example/foo" "1.1.0" ["some.stack.id"]).Descriptor.Info
            (resolvedStacks (leafModule "example/foo" "1.1.0" ["some.stack.id"])
              (NewBuilder.SetBuildpack
                (leafModule "example/foo" "1.1.0" ["some.stack.id"])).dependencies))
          :: (adds ++ tail) ∧
      (∀ c ∈ adds, c.isAddLayer = true) ∧
      (tail = [] ∨ ∃ layers, tail = [Call.SetLabel .BuildpackLayersLabel (.ModuleLayers layers)]) ∧
      (((NewBuilder.SetBuildpack (leafModule "example/foo" "1.1.0" ["some.stack.id"])).finalizeImage
          World.agreeable FinalizeOrders.stored "/tmp" []).1 = .ok () → tail ≠ []) :=
  ⟨rfl, finalizeImage_call_order World.agreeable FinalizeOrders.stored _ "/tmp" _ rfl⟩

/-! ## Module manager: the three configurations -/

theorem addAll_noFlatten (calls : List (BuildModule × List BuildModule)) :
    ∀ f : ModuleManager, f.flatten = false →
      f.addAll calls =
        { f with modules := f.modules ++ calls.flatMap (fun c => c.1 :: c.2) } := by
  induction calls with
  | nil => intro f _; simp [ModuleManager.addAll]
  | cons c rest ih =>
    intro f hf
    have h1 : f.AddModules c.1 c.2 = { f with modules := f.modules ++ (c.1 :: c.2) } := by
      simp [ModuleManager.AddModules, hf]
    have := ih (f.AddModules c.1 c.2) (by rw [h1]; exact hf)
    unfold ModuleManager.addAll at this ⊢
    rw [List.foldl_cons, this, h1]
    simp

theorem addAll_flatten (calls : List (BuildModule × List BuildModule)) :
    ∀ f : ModuleManager, (f.addAll calls).flatten = f.flatten := by
  induction calls with
  | nil => intro f; rfl
  | cons c rest ih =>
    intro f
    have h1 : (f.AddModules c.1 c.2).flatten = f.flatten := by
      unfold ModuleManager.AddModules
      split
      · rfl
      · split <;> rfl
    have := ih (f.AddModules c.1 c.2)
    unfold ModuleManager.addAll at this ⊢
    rw [List.foldl_cons, this, h1]

/-- C11. With flattening disabled, after any sequence of `AddModules` calls on a new
manager: `GetFlattenModules` returns nil (no flatten group is recorded), `IsFlatten` is
false for every module, and both the individual-module list and `Modules()` are the
concatenation of `[main] ++ deps` over the calls, in call order. -/
theorem AddModules_noFlatten (maxDepth : Int) (calls : List (BuildModule × List BuildModule)) :
    ((NewModuleManager false maxDepth).addAll calls).GetFlattenModules = [] ∧
    ((NewModuleManager false maxDepth).addAll calls).flattenModules = [] ∧
    (∀ m, ((NewModuleManager false maxDepth).addAll calls).IsFlatten m = false) ∧
    ((NewModuleManager false maxDepth).addAll calls).modules =
      calls.flatMap (fun c => c.1 :: c.2) ∧
    ((NewModuleManager false maxDepth).addAll calls).Modules =
      calls.flatMap (fun c => c.1 :: c.2) := by
  rw [addAll_noFlatten calls (NewModuleManager false maxDepth) rfl]
  simp [NewModuleManager, ModuleManager.GetFlattenModules, ModuleManager.IsFlatten,
    ModuleManager.Modules]

/-- C12. With flattening enabled and `maxDepth ≤ FlattenMaxDepth`, a call
`AddModules(main, deps...)` appends exactly one flatten group, `[main] ++ deps` in order,
whatever the order lists of the modules; the individual-module list, the earlier groups
and the configuration are unchanged. -/
theorem AddModules_flattenAll (f : ModuleManager) (main : BuildModule)
    (deps : List BuildModule) (hflatten : f.flatten = true)
    (hdepth : f.maxDepth ≤ FlattenMaxDepth) :
    (f.AddModules main deps).flattenModules = f.flattenModules ++ [main :: deps] ∧
    (f.AddModules main deps).modules = f.modules ∧
    (f.AddModules main deps).flatten = f.flatten ∧
    (f.AddModules main deps).maxDepth = f.maxDepth := by
  simp [ModuleManager.AddModules, hflatten, hdepth]

/-- Witness of C12: a manager that already holds one group, and a meta-module whose
order reaches two levels down. -/
theorem AddModules_flattenAll_witness :
    (((NewModuleManager true (-1)).AddModules (leafModule "b" "1" ["s"]) []).flatten = true ∧
     ((NewModuleManager true (-1)).AddModules (leafModule "b" "1" ["s"]) []).maxDepth
       ≤ FlattenMaxDepth) ∧
    (((NewModuleManager true (-1)).AddModules (leafModule "b" "1" ["s"]) []).AddModules
        treeRoot treeDeps).flattenModules =
      ((NewModuleManager true (-1)).AddModules (leafModule "b" "1" ["s"]) []).flattenModules
        ++ [treeRoot :: treeDeps] :=
  ⟨⟨by decide, by decide⟩,
   (AddModules_flattenAll _ treeRoot treeDeps (by decide) (by decide)).1⟩

/-- C13. For a module `main` with non-empty order and any `deps`,
`calculateFlattenModules(main, deps, depth)` with `depth = maxDepth` returns exactly one
group, `[main] ++ deps`; so with flattening enabled and `maxDepth = 0` a call
`AddModules` for a meta-module root records the same groups as with `maxDepth = -1`. -/
theorem calculateFlattenModules_at_maxDepth (maxDepth : Int) (main : BuildModule)
    (deps : List BuildModule) (horder : main.Descriptor.Order ≠ []) :
    calculateFlattenModules maxDepth main deps maxDepth = [main :: deps] ∧
    ∀ (modules : List BuildModule) (groups : List (List BuildModule)),
      (ModuleManager.AddModules
          { modules := modules, flattenModules := groups, flatten := true, maxDepth := 0 }
          main deps).flattenModules =
        (ModuleManager.AddModules
          { modules := modules, flattenModules := groups, flatten := true, maxDepth := -1 }
          main deps).flattenModules := by
  have hlen : 0 < main.Descriptor.Order.length := List.length_pos.mpr horder
  have hcalc : ∀ d : Int, calculateFlattenModules d main deps d = [main :: deps] := by
    intro d
    rw [calculateFlattenModules]
    simp [hlen]
  refine ⟨hcalc maxDepth, ?_⟩
  intro modules groups
  simp [ModuleManager.AddModules, FlattenMaxDepth, hcalc 0]

/-- Witness of C13: the root of the sample tree at `maxDepth = 2`, `depth = 2`. -/
theorem calculateFlattenModules_at_maxDepth_witness :
    treeRoot.Descriptor.Order ≠ [] ∧
    calculateFlattenModules 2 treeRoot treeDeps 2 = [treeRoot :: treeDeps] :=
  ⟨by decide, (calculateFlattenModules_at_maxDepth 2 treeRoot treeDeps (by decide)).1⟩

/-- C14. A module with empty order is emitted as the singleton group `[main]`:
`calculateFlattenModules(main, deps, depth) = [[main]]` for every `maxDepth`, `deps` and
`depth`; so with flattening enabled and `maxDepth ≥ 0` a call `AddModules` for such a
root appends the one group `[main]`. -/
theorem calculateFlattenModules_leaf (main : BuildModule)
    (horder : main.Descriptor.Order = []) :
    (∀ (maxDepth : Int) (deps : List BuildModule) (depth : Int),
      calculateFlattenModules maxDepth main deps depth = [[main]]) ∧
    ∀ (f : ModuleManager) (deps : List BuildModule), f.flatten = true → 0 ≤ f.maxDepth →
      (f.AddModules main deps).flattenModules = f.flattenModules ++ [[main]] := by
  have hcalc : ∀ (maxDepth : Int) (deps : List BuildModule) (depth : Int),
      calculateFlattenModules maxDepth main deps depth = [[main]] := by
    intro maxDepth deps depth
    rw [calculateFlattenModules]
    simp [horder]
  refine ⟨hcalc, ?_⟩
  intro f deps hf h0
  have hgt : ¬ f.maxDepth ≤ -1 := by omega
  simp [ModuleManager.AddModules, FlattenMaxDepth, hf, hgt, hcalc]

/-- Witness of C14: a leaf with one dependency, at depth 0 of `maxDepth = 3`. -/
theorem calculateFlattenModules_leaf_witness :
    (leafModule "b" "1" ["s"]).Descriptor.Order = [] ∧
    calculateFlattenModules 3 (leafModule "b" "1" ["s"]) [leafModule "y" "1" ["s"]] 0 =
      [[leafModule "b" "1" ["s"]]] ∧
    ((NewModuleManager true 3).AddModules (leafModule "b" "1" ["s"])
        [leafModule "y" "1" ["s"]]).flattenModules =
      (NewModuleManager true 3).flattenModules ++ [[leafModule "b" "1" ["s"]]] :=
  ⟨rfl, (calculateFlattenModules_leaf (leafModule "b" "1" ["s"]) rfl).1 3 _ 0,
   (calculateFlattenModules_leaf (leafModule "b" "1" ["s"]) rfl).2 (NewModuleManager true 3)
     [leafModule "y" "1" ["s"]] rfl (by decide)⟩

/-- C15. For every state reached from `NewModuleManager(flatten, maxDepth)` by
`AddModules` calls and every module `m`, `IsFlatten(m)` is true if and only if `m` is an
element of some recorded flatten group. -/
theorem IsFlatten_iff_in_group (flatten : Bool) (maxDepth : Int)
    (calls : List (BuildModule × List BuildModule)) (m : BuildModule) :
    ((NewModuleManager flatten maxDepth).addAll calls).IsFlatten m = true ↔
      ∃ g ∈ ((NewModuleManager flatten maxDepth).addAll calls).flattenModules, m ∈ g := by
  cases flatten with
  | false =>
    rw [addAll_noFlatten calls (NewModuleManager false maxDepth) rfl]
    simp [NewModuleManager, ModuleManager.IsFlatten]
  | true =>
    have hf : ((NewModuleManager true maxDepth).addAll calls).flatten = true :=
      addAll_flatten calls (NewModuleManager true maxDepth)
    simp only [ModuleManager.IsFlatten, hf, Bool.true_and, List.any_eq_true, beq_iff_eq]
    constructor
    · rintro ⟨g, hg, v, hv, hvm⟩
      exact ⟨g, hg, hvm ▸ hv⟩
    · rintro ⟨g, hg, hm⟩
      exact ⟨g, hg, m, hm, rfl⟩

/-! ## The package-metadata label -/

theorem finalizeImage_after_metadata_emits (w : World) (ro : FinalizeOrders)
    (b : PackageBuilder) (root : BuildModule) (tmpDir : String) :
    Run.Emits
      (collectLayers w ro b root tmpDir >>= fun collectionToAdd =>
        addLayers w b (ro.layers.pick collectionToAdd.entries) GoMap.empty GoMap.empty
          >>= fun bpLayers =>
        w.call (.SetLabel .BuildpackLayersLabel (.ModuleLayers bpLayers.entries))
          >>= fun _ => (pure () : Run Unit))
      (fun c => ∀ v, c ≠ Call.SetLabel .MetadataLabel v) (fun _ => True) := by
  apply Run.emits_bind _ _ _ (fun _ => True)
  · apply Run.emits_weaken _ _ _ _ _ (collectLayers_emits w ro b root tmpDir) _ (fun _ h => h)
    intro c hc v hv
    rw [hv] at hc
    cases hc
  · intro c _
    apply Run.emits_bind _ _ _ (fun _ => True)
    · apply Run.emits_weaken _ _ _ _ _ (addLayers_emits w b _ _ _) _ (fun _ h => h)
      intro c hc v hv
      rw [hv] at hc
      cases hc
    · intro md _
      apply Run.emits_bind _ _ _ (fun _ => True)
      · apply Run.emits_call
        intro v hv
        cases hv
      · intro _ _
        exact Run.emits_pure _ _ _ trivial

/-- C16. The first call of `finalizeImage` writes the package-metadata label, holding the
root buildpack's `ModuleInfo` and `resolvedStacks()`, and no later call writes that label
again; with no dependencies `resolvedStacks()` is the root's declared stacks; so for the
root `example/foo@1.1.0` with stacks `[some.stack.id]` and no dependencies validation
succeeds and the label written holds `example/foo`, `1.1.0`, `[some.stack.id]`. -/
theorem finalizeImage_metadata_label (w : World) (ro : FinalizeOrders)
    (vo : RangeOrder (String × List ModuleInfo)) (tmpDir : String) :
    (∀ (root : BuildModule) (extension : Option BuildModule) (deps : List BuildModule)
        (flatMeta flatAll : Bool) (groups : FlattenModules),
      ∃ rest,
        (PackageBuilder.finalizeImage w ro
          { buildpack := some root, extension := extension, dependencies := deps,
            flattenMetaBuildpacks := flatMeta, flattenAllBuildpacks := flatAll,
            flattenBuildpacks := groups } tmpDir []).2 =
          Call.SetLabel .MetadataLabel
            (.Metadata root.Descriptor.Info (resolvedStacks root deps)) :: rest ∧
        ∀ c ∈ rest, ∀ v, c ≠ Call.SetLabel .MetadataLabel v) ∧
    (∀ root : BuildModule, resolvedStacks root [] = root.Descriptor.Stacks) ∧
    PackageBuilder.validate vo
      (NewBuilder.SetBuildpack (leafModule "example/foo" "1.1.0" ["some.stack.id"])) = .ok () ∧
    (PackageBuilder.finalizeImage w ro
      (NewBuilder.SetBuildpack (leafModule "example/foo" "1.1.0" ["some.stack.id"]))
      tmpDir []).2.head? =
      some (Call.SetLabel .MetadataLabel
        (.Metadata { ID := "example/foo", Version := "1.1.0" }
          [{ ID := "some.stack.id", Mixins := [] }])) := by
  have hgen : ∀ (b : PackageBuilder) (root : BuildModule), b.buildpack = some root →
      ∃ rest,
        (b.finalizeImage w ro tmpDir []).2 =
          Call.SetLabel .MetadataLabel
            (.Metadata root.Descriptor.Info (resolvedStacks root b.dependencies)) :: rest ∧
        ∀ c ∈ rest, ∀ v, c ≠ Call.SetLabel .MetadataLabel v := by
    intro b root hroot
    simp only [PackageBuilder.finalizeImage, hroot]
    rw [Run.bind_apply]
    have hcall : ∀ c0, w.call c0 [] = (w.respond [] c0, [c0]) := fun _ => rfl
    rw [hcall]
    cases w.respond [] (Call.SetLabel .MetadataLabel
        (.Metadata root.Descriptor.Info (resolvedStacks root b.dependencies))) with
    | error e => exact ⟨[], rfl, fun c hc => by cases hc⟩
    | ok a =>
      obtain ⟨extra, h1, h2, _⟩ := finalizeImage_after_metadata_emits w ro b root tmpDir
        [Call.SetLabel .MetadataLabel
          (.Metadata root.Descriptor.Info (resolvedStacks root b.dependencies))]
      exact ⟨extra, h1, h2⟩
  refine ⟨?_, fun root => rfl, ?_, ?_⟩
  · intro root extension deps flatMeta flatAll groups
    exact hgen _ root rfl
  · have hnil : vo.pick [] = [] := List.Perm.eq_nil (vo.perm [])
    have hwalk : walkRefs (orderRefs [leafModule "example/foo" "1.1.0" ["some.stack.id"]])
        (initialDepsWithRefs []) = .ok ⟨[]⟩ := rfl
    have hv : validateBuildpacks vo (leafModule "example/foo" "1.1.0" ["some.stack.id"]) []
        = .ok () := by
      rw [validateBuildpacks_eq, hwalk]
      simp only [hnil, List.find?_nil]
    simp only [PackageBuilder.validate, NewBuilder, PackageBuilder.SetBuildpack, hv]
    rfl
  · obtain ⟨rest, h, _⟩ := hgen
      (NewBuilder.SetBuildpack (leafModule "example/foo" "1.1.0" ["some.stack.id"]))
      (leafModule "example/foo" "1.1.0" ["some.stack.id"]) rfl
    rw [h]
    rfl

/-! ## Output and registry mirrors -/

/-- C17. When `validate` fails, `SaveAsImage` and `SaveAsFile` return that error and make
no call at all: the image factory's `NewImage` is not called, no layer is added, no label
is set, nothing is saved. -/
theorem SaveAs_validate_error (w : World) (vo : RangeOrder (String × List ModuleInfo))
    (ro : FinalizeOrders) (b : PackageBuilder) (err : PkgError)
    (hv : b.validate vo = .error err) :
    (∀ (repoName : String) (publish : Bool) (imageOS : String) (trace : List Call),
      b.SaveAsImage w vo ro repoName publish imageOS trace = (.error err, trace)) ∧
    ∀ (path imageOS : String) (trace : List Call),
      b.SaveAsFile w vo ro path imageOS trace = (.error err, trace) := by
  constructor
  · intro repoName publish imageOS trace
    simp only [PackageBuilder.SaveAsImage, hv]
    rfl
  · intro path imageOS trace
    simp only [PackageBuilder.SaveAsFile, hv]
    rfl

/-- Witness of C17: a builder with a root whose order references an absent module. -/
theorem SaveAs_validate_error_witness :
    PackageBuilder.validate RangeOrder.stored
        (NewBuilder.SetBuildpack (metaModule "meta/root" "1.0.0" [("dep/a", "1.0.0")]))
      = .error (.new "buildpack %s references buildpack %s which is not present"
          ["meta/root@1.0.0", "dep/a@1.0.0"]) ∧
    (NewBuilder.SetBuildpack
        (metaModule "meta/root" "1.0.0" [("dep/a", "1.0.0")])).SaveAsImage
        World.agreeable RangeOrder.stored FinalizeOrders.stored "some/package" true "linux" []
      = (.error (.new "buildpack %s references buildpack %s which is not present"
          ["meta/root@1.0.0", "dep/a@1.0.0"]), []) ∧
    (NewBuilder.SetBuildpack
        (metaModule "meta/root" "1.0.0" [("dep/a", "1.0.0")])).SaveAsFile
        World.agreeable RangeOrder.stored FinalizeOrders.stored "package.cnb" "linux" []
      = (.error (.new "buildpack %s references buildpack %s which is not present"
          ["meta/root@1.0.0", "dep/a@1.0.0"]), []) :=
  ⟨rfl,
   (SaveAs_validate_error World.agreeable RangeOrder.stored FinalizeOrders.stored
     (NewBuilder.SetBuildpack (metaModule "meta/root" "1.0.0" [("dep/a", "1.0.0")]))
     (.new "buildpack %s references buildpack %s which is not present"
       ["meta/root@1.0.0", "dep/a@1.0.0"]) rfl).1
     "some/package" true "linux" [],
   (SaveAs_validate_error World.agreeable RangeOrder.stored FinalizeOrders.stored
     (NewBuilder.SetBuildpack (metaModule "meta/root" "1.0.0" [("dep/a", "1.0.0")]))
     (.new "buildpack %s references buildpack %s which is not present"
       ["meta/root@1.0.0", "dep/a@1.0.0"]) rfl).2
     "package.cnb" "linux" []⟩

/-- C18. When `name` parses as a reference, the mirror map has an entry for the
reference's registry host, and the rewritten string parses, `TranslateRegistry` returns
mirror, "/", repository, ":", identifier (the tag of a tagged reference) with no
error. -/
theorem TranslateRegistry_mirror (ParseReference : String → Except PkgError Reference)
    (name : String) (mirrors : GoMap String) (srcRef parsed : Reference)
    (registryMirror : String) (hparse : ParseReference name = .ok srcRef)
    (hmirror : mirrors.get? srcRef.RegistryStr = some registryMirror)
    (hnew : ParseReference
      (registryMirror ++ "/" ++ srcRef.RepositoryStr ++ ":" ++ srcRef.Identifier) = .ok parsed) :
    TranslateRegistry ParseReference name (some mirrors) =
      .ok (registryMirror ++ "/" ++ srcRef.RepositoryStr ++ ":" ++ srcRef.Identifier) := by
  simp only [TranslateRegistry, hparse, hmirror, hnew]

/-- Witness of C18, the mirror test: `index.docker.io/my/buildpack:0.1` with the mirror
`index.docker.io -> 10.0.0.1` yields `10.0.0.1/my/buildpack:0.1`. -/
theorem TranslateRegistry_mirror_witness :
    sampleParseReference "index.docker.io/my/buildpack:0.1" =
      .ok { RegistryStr := "index.docker.io", RepositoryStr := "my/buildpack",
            Identifier := "0.1" } ∧
    TranslateRegistry sampleParseReference "index.docker.io/my/buildpack:0.1"
        (some ⟨[("index.docker.io", "10.0.0.1")]⟩) = .ok "10.0.0.1/my/buildpack:0.1" :=
  ⟨rfl,
   TranslateRegistry_mirror sampleParseReference "index.docker.io/my/buildpack:0.1"
     ⟨[("index.docker.io", "10.0.0.1")]⟩
     { RegistryStr := "index.docker.io", RepositoryStr := "my/buildpack", Identifier := "0.1" }
     { RegistryStr := "10.0.0.1", RepositoryStr := "my/buildpack", Identifier := "0.1" }
     "10.0.0.1" rfl rfl rfl⟩

/-- C19. `TranslateRegistry` returns `name` unchanged with no error when no mirror
applies: for every name, parseable or not, when the mirror map is nil; and for every
name that parses when its registry host has no entry in the map. -/
theorem TranslateRegistry_unchanged (ParseReference : String → Except PkgError Reference)
    (name : String) :
    TranslateRegistry ParseReference name none = .ok name ∧
    ∀ (mirrors : GoMap String) (srcRef : Reference), ParseReference name = .ok srcRef →
      mirrors.get? srcRef.RegistryStr = none →
      TranslateRegistry ParseReference name (some mirrors) = .ok name := by
  constructor
  · rfl
  · intro mirrors srcRef hparse hnone
    simp only [TranslateRegistry, hparse, hnone]

/-- Witness of C19, the two tests without a matching mirror, and a name that does not
parse with a nil map. -/
theorem TranslateRegistry_unchanged_witness :
    TranslateRegistry sampleParseReference "index.docker.io/my/buildpack:0.1" none =
      .ok "index.docker.io/my/buildpack:0.1" ∧
    TranslateRegistry sampleParseReference "::not a reference::" none =
      .ok "::not a reference::" ∧
    TranslateRegistry sampleParseReference "index.docker.io/my/buildpack:0.1"
        (some ⟨[("us.gcr.io", "10.0.0.1")]⟩) = .ok "index.docker.io/my/buildpack:0.1" :=
  ⟨(TranslateRegistry_unchanged sampleParseReference _).1,
   (TranslateRegistry_unchanged sampleParseReference _).1,
   (TranslateRegistry_unchanged sampleParseReference _).2 ⟨[("us.gcr.io", "10.0.0.1")]⟩
     { RegistryStr := "index.docker.io", RepositoryStr := "my/buildpack", Identifier := "0.1" }
     rfl rfl⟩

/-! ## The layer map -/

theorem ownLayerHash_append {w : World} {trace : List Call} {tmpDir : String}
    {module : BuildModule} {diffID : String} (h : OwnLayerHash w trace tmpDir module diffID)
    (extra : List Call) : OwnLayerHash w (trace ++ extra) tmpDir module diffID := by
  obtain ⟨pre, tar, post, h1, h2, h3⟩ := h
  exact ⟨pre, tar, post ++ extra, by rw [h1]; simp, h2, h3⟩

theorem mergedLayerHash_append {w : World} {trace : List Call} {dest diffID : String}
    (h : MergedLayerHash w trace dest diffID) (extra : List Call) :
    MergedLayerHash w (trace ++ extra) dest diffID := by
  obtain ⟨pre, srcs, post, h1, h2⟩ := h
  exact ⟨pre, srcs, post ++ extra, by rw [h1]; simp, h2⟩

theorem getEntry_of_mem_nodup {V : Type} (l : List (String × V)) (k : String) (v : V)
    (hnd : (l.map Prod.fst).Nodup) (h : (k, v) ∈ l) : getEntry k l = some v := by
  induction l with
  | nil => cases h
  | cons e rest ih =>
    have hnd2 := (List.nodup_cons.mp hnd).2
    have he : e.1 ∉ rest.map Prod.fst := (List.nodup_cons.mp hnd).1
    rcases List.mem_cons.mp h with h1 | h1
    · rw [← h1]; simp [getEntry]
    · have hne : ¬ e.1 = k := by
        intro hek
        exact he (by rw [hek]; exact List.mem_map_of_mem Prod.fst h1)
      simp [getEntry, hne, ih hnd2 h1]

theorem squash_get (tarPath diffID : String) (keys : List String) :
    ∀ (c : GoMap toAdd) (k : String),
      (squash tarPath diffID keys c).get? k =
        if k ∈ keys then
          some { (c.get? k).getD toAdd.zero with tarPath := tarPath, diffID := diffID }
        else c.get? k := by
  induction keys with
  | nil => intro c k; simp [squash]
  | cons k0 ks ih =>
    intro c k
    have hstep : squash tarPath diffID (k0 :: ks) c =
        squash tarPath diffID ks
          (c.set k0 { (c.get? k0).getD toAdd.zero with tarPath := tarPath, diffID := diffID }) := by
      simp [squash]
    have hget : (c.set k0
        { (c.get? k0).getD toAdd.zero with tarPath := tarPath, diffID := diffID }).get? k =
        if k0 = k then
          some { (c.get? k0).getD toAdd.zero with tarPath := tarPath, diffID := diffID }
        else c.get? k := getEntry_setEntry _ _ _ _
    rw [hstep, ih, hget]
    by_cases h0 : k0 = k
    · subst h0
      by_cases hin : k0 ∈ ks <;> simp [hin]
    · have h0' : ¬ k = k0 := fun h => h0 h.symm
      by_cases hin : k ∈ ks <;> simp [hin, h0, h0']

theorem nodup_keys_squash (tarPath diffID : String) (keys : List String) :
    ∀ c : GoMap toAdd, c.keys.Nodup → (squash tarPath diffID keys c).keys.Nodup := by
  induction keys with
  | nil => intro c h; simpa [squash] using h
  | cons k0 ks ih =>
    intro c h
    have hstep : squash tarPath diffID (k0 :: ks) c =
        squash tarPath diffID ks
          (c.set k0 { (c.get? k0).getD toAdd.zero with tarPath := tarPath, diffID := diffID }) := by
      simp [squash]
    rw [hstep]
    exact ih _ (nodup_keys_setEntry _ _ _ h)

theorem tarModules_own (w : World) (tmpDir : String) (mods : List BuildModule) :
    (mods.map BuildModule.FullName).Nodup →
    ∀ (c c1 : GoMap toAdd) (trace trace1 : List Call),
      tarModules w tmpDir mods c trace = (.ok c1, trace1) →
      (∀ k, k ∉ mods.map BuildModule.FullName → c1.get? k = c.get? k) ∧
      (∀ m ∈ mods, ∃ tar d,
        c1.get? m.FullName = some { tarPath := tar, diffID := d, module := some m } ∧
        OwnLayerHash w trace1 tmpDir m d) ∧
      ∃ extra, trace1 = trace ++ extra := by
  induction mods with
  | nil =>
    intro _ c c1 trace trace1 h
    change (Except.ok c, trace) = _ at h
    have hc : c = c1 := Except.ok.inj (congrArg Prod.fst h)
    have ht : trace = trace1 := congrArg Prod.snd h
    subst hc; subst ht
    refine ⟨fun _ _ => rfl, ?_, [], by simp⟩
    intro m hm
    cases hm
  | cons bp rest ih =>
    intro hnd c c1 trace trace1 h
    have hnd2 : (rest.map BuildModule.FullName).Nodup := (List.nodup_cons.mp hnd).2
    have hbp : bp.FullName ∉ rest.map BuildModule.FullName := (List.nodup_cons.mp hnd).1
    unfold tarModules at h
    obtain ⟨tar, t1, h1, h⟩ := Run.bind_eq_ok _ _ _ _ _ h
    obtain ⟨d, t2, h2, h⟩ := Run.bind_eq_ok _ _ _ _ _ h
    obtain ⟨htar, ht1⟩ := World.call_ok _ _ _ _ _ h1
    obtain ⟨hd, ht2⟩ := World.call_ok _ _ _ _ _ (Run.wrapErr_ok _ _ _ _ _ _ h2)
    obtain ⟨hframe, hown, extra, hext⟩ := ih hnd2 _ c1 t2 trace1 h
    have htrace : trace1 =
        trace ++ [Call.ToLayerTar tmpDir bp, Call.LayerDiffID tar] ++ extra := by
      rw [hext, ht2, ht1]; simp
    refine ⟨?_, ?_, _, by rw [htrace, List.append_assoc]⟩
    · intro k hk
      have hk1 : ¬ bp.FullName = k := fun h => hk (by rw [← h]; simp)
      have hk2 : k ∉ rest.map BuildModule.FullName :=
        fun h => hk (List.mem_cons_of_mem _ h)
      rw [hframe k hk2]
      show getEntry k (setEntry _ _ c.entries) = getEntry k c.entries
      rw [getEntry_setEntry, if_neg hk1]
    · intro m hm
      rcases List.mem_cons.mp hm with hm | hm
      · subst hm
        refine ⟨tar, d, ?_, trace, tar, extra, htrace, htar, ?_⟩
        · rw [hframe _ hbp]
          show getEntry m.FullName (setEntry _ _ c.entries) = _
          rw [getEntry_setEntry, if_pos rfl]
        · rw [← ht1]; exact hd
      · exact hown m hm

theorem flattenGroups_ok (w : World) (tmpDir : String) (groups : List (List BuildModule)) :
    ∀ (i : Nat) (c c1 : GoMap toAdd) (trace trace1 : List Call),
      flattenGroups w tmpDir groups i c trace = (.ok c1, trace1) →
      (c.keys.Nodup → c1.keys.Nodup) ∧
      (∀ k, (∀ g ∈ groups, k ∉ g.map BuildModule.FullName) → c1.get? k = c.get? k) ∧
      (∀ k, (∃ g ∈ groups, k ∈ g.map BuildModule.FullName) →
        ∃ j g d, groups[j]? = some g ∧ k ∈ g.map BuildModule.FullName ∧
          MergedLayerHash w trace1 (groupFlattenTarPath tmpDir (i + j)) d ∧
          c1.get? k = some { (c.get? k).getD toAdd.zero with
            tarPath := groupFlattenTarPath tmpDir (i + j), diffID := d }) ∧
      ∃ extra, trace1 = trace ++ extra := by
  induction groups with
  | nil =>
    intro i c c1 trace trace1 h
    change (Except.ok c, trace) = _ at h
    have hc : c = c1 := Except.ok.inj (congrArg Prod.fst h)
    have ht : trace = trace1 := congrArg Prod.snd h
    subst hc; subst ht
    refine ⟨fun h => h, fun _ _ => rfl, ?_, [], by simp⟩
    rintro k ⟨g, hg, _⟩
    cases hg
  | cons g rest ih =>
    intro i c c1 trace trace1 h
    unfold flattenGroups at h
    obtain ⟨a1, t1, h1, h⟩ := Run.bind_eq_ok _ _ _ _ _ h
    obtain ⟨a2, t2, h2, h⟩ := Run.bind_eq_ok _ _ _ _ _ h
    obtain ⟨d, t3, h3, h⟩ := Run.bind_eq_ok _ _ _ _ _ h
    obtain ⟨_, ht1⟩ := World.call_ok _ _ _ _ _ (Run.wrapErr_ok _ _ _ _ _ _ h1)
    obtain ⟨_, ht2⟩ := World.call_ok _ _ _ _ _ (Run.wrapErr_ok _ _ _ _ _ _ h2)
    obtain ⟨hd, ht3⟩ := World.call_ok _ _ _ _ _ (Run.wrapErr_ok _ _ _ _ _ _ h3)
    obtain ⟨hnd, hframe, hmerged, extra, hext⟩ := ih (i + 1) _ c1 t3 trace1 h
    have hpath : groupFlattenTarPath tmpDir i =
        filepathJoin (filepathJoin tmpDir ("buildpack-flatten-" ++ toString i))
          ("buildpack-flatten-" ++ toString i ++ ".tar") := rfl
    rw [← hpath] at h2 h3 hd ht2 ht3 hframe hmerged hnd
    have hhere : MergedLayerHash w trace1 (groupFlattenTarPath tmpDir i) d := by
      refine ⟨t1, g.map (fun module =>
        ((c.get? module.FullName).getD toAdd.zero).tarPath), extra, ?_, ?_⟩
      · rw [hext, ht3, ht2]; simp
      · rw [← ht2]; exact hd
    refine ⟨fun h => hnd (nodup_keys_squash _ _ _ _ h), ?_, ?_, ?_⟩
    · intro k hk
      have hk0 : k ∉ g.map BuildModule.FullName := hk g (List.mem_cons_self _ _)
      rw [hframe k (fun g2 hg2 => hk g2 (List.mem_cons_of_mem _ hg2)), squash_get, if_neg hk0]
    · intro k hk
      by_cases hrest : ∃ g2 ∈ rest, k ∈ g2.map BuildModule.FullName
      · obtain ⟨j, g2, d2, hj, hkg, hm, hget⟩ := hmerged k hrest
        refine ⟨j + 1, g2, d2, by simpa using hj, hkg, ?_, ?_⟩
        · have : i + (j + 1) = i + 1 + j := by omega
          rw [this]; exact hm
        · have : i + (j + 1) = i + 1 + j := by omega
          rw [this, hget, squash_get]
          by_cases hk0 : k ∈ g.map BuildModule.FullName <;> simp [hk0]
      · have hk0 : k ∈ g.map BuildModule.FullName := by
          obtain ⟨g2, hg2, hkg⟩ := hk
          rcases List.mem_cons.mp hg2 with h0 | h0
          · rw [← h0]; exact hkg
          · exact absurd ⟨g2, h0, hkg⟩ hrest
        refine ⟨0, g, d, by simp, hk0, hhere, ?_⟩
        rw [hframe k (fun g2 hg2 hkg => hrest ⟨g2, hg2, hkg⟩), squash_get, if_pos hk0]
        rfl
    · refine ⟨[Call.MkdirAll (filepathJoin tmpDir ("buildpack-flatten-" ++ toString i)),
        Call.MergeTars (groupFlattenTarPath tmpDir i) (g.map (fun module =>
          ((c.get? module.FullName).getD toAdd.zero).tarPath)),
        Call.LayerDiffID (groupFlattenTarPath tmpDir i)] ++ extra, ?_⟩
      rw [hext, ht3, ht2, ht1]
      simp

theorem addLayers_record (w : World) (b : PackageBuilder) (entries : List (String × toAdd)) :
    (entries.map Prod.fst).Nodup →
    (∀ e ∈ entries, ∀ bp, e.2.module = some bp → bp.FullName = e.1) →
    ∀ (added : GoMap String) (md md1 : ModuleLayers) (trace trace1 : List Call),
      addLayers w b entries added md trace = (.ok md1, trace1) →
      (∀ k, k ∉ entries.map Prod.fst → getEntry k md1.entries = getEntry k md.entries) ∧
      ∀ e ∈ entries, ∃ info,
        getEntry e.1 md1.entries = some info ∧ info.LayerDiffID = e.2.diffID := by
  induction entries with
  | nil =>
    intro _ _ added md md1 trace trace1 h
    have h0 : (Except.ok md : Except PkgError ModuleLayers) = Except.ok md1 :=
      congrArg Prod.fst h
    have hm : md = md1 := Except.ok.inj h0
    subst hm
    refine ⟨fun _ _ => rfl, ?_⟩
    intro e he
    cases he
  | cons e rest ih =>
    intro hnd hwk added md md1 trace trace1 h
    obtain ⟨key, module⟩ := e
    have hnd2 : (rest.map Prod.fst).Nodup := (List.nodup_cons.mp hnd).2
    have hkey : key ∉ rest.map Prod.fst := (List.nodup_cons.mp hnd).1
    obtain ⟨bp, hbp, h2⟩ := addLayers_some_ok w b key module rest added md md1 trace trace1 h
    have hname : bp.FullName = key := hwk (key, module) (List.mem_cons_self _ _) bp hbp
    obtain ⟨hframe, hrec⟩ := ih hnd2 (fun x hx => hwk x (List.mem_cons_of_mem _ hx)) _ _ _ _ _ h2
    have hset : ∀ k, getEntry k (AddToLayersMD md bp.Descriptor module.diffID).entries =
        if key = k then
          some { API := bp.Descriptor.API, Stacks := bp.Descriptor.Stacks,
                 LayerDiffID := module.diffID }
        else getEntry k md.entries := by
      intro k
      have := getEntry_setEntry bp.Descriptor.Info.FullName
        ({ API := bp.Descriptor.API, Stacks := bp.Descriptor.Stacks,
           LayerDiffID := module.diffID } : ModuleLayerInfo) md.entries k
      have hn : bp.Descriptor.Info.FullName = key := hname
      rw [hn] at this
      rw [← this]
      simp only [AddToLayersMD, GoMap.set, hn]
    refine ⟨?_, ?_⟩
    · intro k hk
      have hk1 : ¬ key = k := fun h => hk (by rw [← h]; simp)
      have hk2 : k ∉ rest.map Prod.fst := fun h => hk (List.mem_cons_of_mem _ h)
      rw [hframe k hk2, hset, if_neg hk1]
    · intro x hx
      rcases List.mem_cons.mp hx with hx | hx
      · subst hx
        refine ⟨{ API := bp.Descriptor.API, Stacks := bp.Descriptor.Stacks,
                  LayerDiffID := module.diffID }, ?_, rfl⟩
        rw [hframe key hkey, hset, if_pos rfl]
      · exact hrec x hx

theorem collectLayers_groups_ok (w : World) (ro : FinalizeOrders) (b : PackageBuilder)
    (root : BuildModule) (tmpDir : String) (hall : b.flattenAllBuildpacks = false)
    (c : GoMap toAdd) (trace trace2 : List Call)
    (h : collectLayers w ro b root tmpDir trace = (.ok c, trace2)) :
    ∃ c0 trace1,
      tarModules w tmpDir (b.dependencies ++ [root]) GoMap.empty trace = (.ok c0, trace1) ∧
      flattenGroups w tmpDir b.FlattenModules 0 c0 trace1 = (.ok c, trace2) := by
  unfold collectLayers at h
  simp only [hall, Bool.false_eq_true, if_false] at h
  obtain ⟨c0, t1, h0, h1⟩ := Run.bind_eq_ok _ _ _ _ _ h
  refine ⟨c0, t1, h0, ?_⟩
  by_cases hmeta : b.flattenMetaBuildpacks = true
  · simp only [hmeta, if_true] at h1
    exact h1
  · have hm : b.flattenMetaBuildpacks = false := by simpa using hmeta
    simp only [hm, Bool.false_eq_true, if_false] at h1
    have hg : b.FlattenModules = [] := by simp [PackageBuilder.FlattenModules, hm]
    rw [hg]
    exact h1

/-- C20 (amended). After a successful `finalizeImage` of contributing modules (the root
and the dependencies) with pairwise distinct full names, the last call writes the
layer-map label, which holds an entry under the full name of the root and of every
dependency. The diffID of the entry is: with `flattenAllBuildpacks`, the hash of the
merged tar `all-flatten.tar`; otherwise, when the full name is in no flatten group, the
hash of the module's own layer tar, and when it is in a flatten group, the hash of the
merged tar of a flatten group that holds it. -/
theorem finalizeImage_layer_map (w : World) (ro : FinalizeOrders) (b : PackageBuilder)
    (tmpDir : String) (root : BuildModule) (hroot : b.buildpack = some root)
    (hnames : ((b.dependencies ++ [root]).map BuildModule.FullName).Nodup)
    (hok : (b.finalizeImage w ro tmpDir []).1 = .ok ()) :
    ∃ layers,
      (b.finalizeImage w ro tmpDir []).2.getLast? =
        some (Call.SetLabel .BuildpackLayersLabel (.ModuleLayers layers)) ∧
      ∀ m ∈ b.dependencies ++ [root], ∃ info,
        getEntry m.FullName layers = some info ∧
        (b.flattenAllBuildpacks = true →
          MergedLayerHash w (b.finalizeImage w ro tmpDir []).2 (allFlattenTarPath tmpDir)
            info.LayerDiffID) ∧
        (b.flattenAllBuildpacks = false →
          (∀ g ∈ b.FlattenModules, m.FullName ∉ g.map BuildModule.FullName) →
          OwnLayerHash w (b.finalizeImage w ro tmpDir []).2 tmpDir m info.LayerDiffID) ∧
        (b.flattenAllBuildpacks = false →
          (∃ g ∈ b.FlattenModules, m.FullName ∈ g.map BuildModule.FullName) →
          ∃ i g, b.FlattenModules[i]? = some g ∧ m.FullName ∈ g.map BuildModule.FullName ∧
            MergedLayerHash w (b.finalizeImage w ro tmpDir []).2
              (groupFlattenTarPath tmpDir i) info.LayerDiffID) := by
  obtain ⟨c, t2, md, t4, h2, h4, htr⟩ := finalizeImage_ok w ro b tmpDir root hroot hok
  obtain ⟨e4, he4, _, _⟩ :=
    addLayers_emits w b (ro.layers.pick c.entries) GoMap.empty GoMap.empty t2
  rw [h4] at he4
  simp only at he4
  have htrace : (b.finalizeImage w ro tmpDir []).2 =
      t2 ++ (e4 ++ [Call.SetLabel .BuildpackLayersLabel (.ModuleLayers md.entries)]) := by
    rw [htr, he4, List.append_assoc]
  have hpick : ∀ x, x ∈ ro.layers.pick c.entries ↔ x ∈ c.entries :=
    fun x => (ro.layers.perm c.entries).mem_iff
  refine ⟨md.entries, by rw [htr]; simp, ?_⟩
  cases hall : b.flattenAllBuildpacks with
  | true =>
    obtain ⟨d, pre, srcs, ht2, hd, hmem, hent⟩ :=
      collectLayers_flattenAll_ok w ro b root tmpDir hall c _ t2 h2
    obtain ⟨hval, hkeys⟩ := addLayers_layers w b d (ro.layers.pick c.entries) GoMap.empty
      GoMap.empty md t2 t4
      (fun x hx => by
        have := hent x ((hpick x).mp hx)
        exact ⟨this.2.1, this.2.2⟩)
      (by intro x hx; simp [GoMap.empty] at hx) h4
    intro m hm
    have hk : m.FullName ∈ md.keys := by
      apply hkeys
      right
      obtain ⟨x, hx, hxk⟩ := List.mem_map.mp (hmem m hm)
      exact List.mem_map.mpr ⟨x, (hpick x).mpr hx, hxk⟩
    obtain ⟨info, hinfo⟩ := (getEntry_isSome_iff md.entries _).mpr hk
    have hdi : info.LayerDiffID = d := hval _ (mem_of_getEntry _ _ _ hinfo)
    refine ⟨info, hinfo, ?_, ?_, ?_⟩
    · intro _
      rw [htrace, hdi]
      exact mergedLayerHash_append ⟨pre, srcs, [], by rw [ht2]; simp [allFlattenTarPath], hd⟩ _
    · intro h; cases h
    · intro h; cases h
  | false =>
    obtain ⟨c0, t1, htar, hgrp⟩ := collectLayers_groups_ok w ro b root tmpDir hall c _ t2 h2
    obtain ⟨_, hown, _, _⟩ := tarModules_own w tmpDir (b.dependencies ++ [root]) hnames
      GoMap.empty c0 _ t1 htar
    obtain ⟨_, _, _, hv⟩ := tarModules_value w tmpDir (b.dependencies ++ [root]) GoMap.empty
      ⟨by simp [GoMap.keys, GoMap.empty], by simp [GoMap.empty]⟩
      [Call.SetLabel .MetadataLabel
        (.Metadata root.Descriptor.Info (resolvedStacks root b.dependencies))]
    obtain ⟨hwk0, _, _⟩ := hv c0 (by rw [htar])
    obtain ⟨hnd, hframe, hmerged, ex2, hext2⟩ :=
      flattenGroups_ok w tmpDir b.FlattenModules 0 c0 c t1 t2 hgrp
    have hcnd : c.keys.Nodup := hnd hwk0.1
    have hLnd : ((ro.layers.pick c.entries).map Prod.fst).Nodup :=
      ((ro.layers.perm c.entries).map Prod.fst).nodup_iff.mpr hcnd
    have hmodule : ∀ k v, c.get? k = some v →
        v.module = ((c0.get? k).getD toAdd.zero).module := by
      intro k v hkv
      by_cases hin : ∃ g ∈ b.FlattenModules, k ∈ g.map BuildModule.FullName
      · obtain ⟨j, g, d, _, _, _, hget⟩ := hmerged k hin
        rw [hget] at hkv
        rw [← Option.some.inj hkv]
      · have := hframe k (fun g hg hkg => hin ⟨g, hg, hkg⟩)
        rw [this] at hkv
        rw [hkv]; rfl
    have hLwk : ∀ e ∈ ro.layers.pick c.entries, ∀ bp, e.2.module = some bp →
        bp.FullName = e.1 := by
      intro e he bp hbp
      have hget : c.get? e.1 = some e.2 :=
        getEntry_of_mem_nodup c.entries e.1 e.2 hcnd ((hpick e).mp he)
      have hm0 := hmodule e.1 e.2 hget
      rw [hbp] at hm0
      cases h0 : c0.get? e.1 with
      | none => rw [h0] at hm0; cases hm0
      | some v0 =>
        rw [h0] at hm0
        obtain ⟨bp2, hbp2, hn2⟩ := hwk0.2 (e.1, v0) (mem_of_getEntry _ _ _ h0)
        have : some bp = some bp2 := by rw [hm0]; exact hbp2
        rw [Option.some.inj this]; exact hn2
    obtain ⟨_, hrec⟩ := addLayers_record w b (ro.layers.pick c.entries) hLnd hLwk
      GoMap.empty GoMap.empty md t2 t4 h4
    intro m hm
    obtain ⟨tar, d0, hc0, hownm⟩ := hown m hm
    by_cases hin : ∃ g ∈ b.FlattenModules, m.FullName ∈ g.map BuildModule.FullName
    · obtain ⟨j, g, d, hj, hkg, hmh, hget⟩ := hmerged m.FullName hin
      have hmem : (m.FullName, _) ∈ ro.layers.pick c.entries :=
        (hpick _).mpr (mem_of_getEntry _ _ _ hget)
      obtain ⟨info, hinfo, hdi⟩ := hrec _ hmem
      refine ⟨info, hinfo, ?_, ?_, ?_⟩
      · intro h; cases h
      · intro _ hno
        obtain ⟨g2, hg2, hk2⟩ := hin
        exact absurd hk2 (hno g2 hg2)
      · intro _ _
        refine ⟨j, g, hj, hkg, ?_⟩
        rw [htrace, hdi]
        have : 0 + j = j := by omega
        rw [this] at hmh
        exact mergedLayerHash_append hmh _
    · have hget : c.get? m.FullName = some { tarPath := tar, diffID := d0, module := some m } := by
        rw [hframe m.FullName (fun g hg hkg => hin ⟨g, hg, hkg⟩)]
        exact hc0
      have hmem : (m.FullName, _) ∈ ro.layers.pick c.entries :=
        (hpick _).mpr (mem_of_getEntry _ _ _ hget)
      obtain ⟨info, hinfo, hdi⟩ := hrec _ hmem
      refine ⟨info, hinfo, ?_, ?_, ?_⟩
      · intro h; cases h
      · intro _ _
        rw [htrace, hdi]
        have : OwnLayerHash w t2 tmpDir m d0 := by
          rw [hext2]; exact ownLayerHash_append hownm _
        exact ownLayerHash_append this _
      · intro _ hyes
        exact absurd hyes hin

/-- Counterexample to C20 as stated: two dependencies share the full name `dep/a@1.0.0`
and differ in content. Validation passes and `finalizeImage` succeeds; the first
dependency is not flattened and the hash of its own layer tar is `sha256:content-1`, but
the entry of the layer map under `dep/a@1.0.0` holds `sha256:content-2`, the hash of the
second one, which replaced it in the collection keyed by full name. -/
theorem finalizeImage_layer_map_same_name :
    PackageBuilder.validate RangeOrder.stored sameNameBuilder = .ok () ∧
    sameNameBuilder.finalizeImage World.byContent FinalizeOrders.stored "/tmp" [] =
      (.ok (),
       [Call.SetLabel .MetadataLabel
          (.Metadata { ID := "meta/root", Version := "1.0.0" }
            [{ ID := "some.stack.id", Mixins := [] }]),
        Call.ToLayerTar "/tmp"
          { leafModule "dep/a" "1.0.0" ["some.stack.id"] with blob := "content-1" },
        Call.LayerDiffID "/tmp/dep/a@1.0.0.tar",
        Call.ToLayerTar "/tmp"
          { leafModule "dep/a" "1.0.0" ["some.stack.id"] with blob := "content-2" },
        Call.LayerDiffID "/tmp/dep/a@1.0.0.tar",
        Call.ToLayerTar "/tmp" (metaModule "meta/root" "1.0.0" [("dep/a", "1.0.0")]),
        Call.LayerDiffID "/tmp/meta/root@1.0.0.tar",
        Call.AddLayerWithDiffID "/tmp/dep/a@1.0.0.tar" "sha256:content-2",
        Call.AddLayerWithDiffID "/tmp/meta/root@1.0.0.tar" "sha256:meta/root",
        Call.SetLabel .BuildpackLayersLabel
          (.ModuleLayers
            [("dep/a@1.0.0",
              { API := "0.3", Stacks := [{ ID := "some.stack.id", Mixins := [] }],
                LayerDiffID := "sha256:content-2" }),
             ("meta/root@1.0.0",
              { API := "0.3", Stacks := [], LayerDiffID := "sha256:meta/root" })])]) ∧
    World.byContent.respond
        [Call.SetLabel .MetadataLabel
          (.Metadata { ID := "meta/root", Version := "1.0.0" }
            [{ ID := "some.stack.id", Mixins := [] }]),
         Call.ToLayerTar "/tmp"
          { leafModule "dep/a" "1.0.0" ["some.stack.id"] with blob := "content-1" }]
        (Call.LayerDiffID "/tmp/dep/a@1.0.0.tar") = .ok "sha256:content-1" := by
  refine ⟨rfl, rfl, rfl⟩

/-- Witness of C20 (amended): per-group flattening with one group holding `dep/a`. -/
theorem finalizeImage_layer_map_witness :
    groupFlattenBuilder.buildpack =
      some (metaModule "meta/root" "1.0.0" [("dep/a", "1.0.0"), ("dep/b", "1.0.0")]) ∧
    ((groupFlattenBuilder.dependencies ++
      [metaModule "meta/root" "1.0.0" [("dep/a", "1.0.0"), ("dep/b", "1.0.0")]]).map
        BuildModule.FullName).Nodup ∧
    (groupFlattenBuilder.finalizeImage World.agreeable FinalizeOrders.stored "/tmp" []).1
      = .ok () ∧
    ∃ layers,
      (groupFlattenBuilder.finalizeImage World.agreeable FinalizeOrders.stored "/tmp"
        []).2.getLast? =
        some (Call.SetLabel .BuildpackLayersLabel (.ModuleLayers layers)) ∧
      ∀ m ∈ groupFlattenBuilder.dependencies ++
          [metaModule "meta/root" "1.0.0" [("dep/a", "1.0.0"), ("dep/b", "1.0.0")]],
        ∃ info,
          getEntry m.FullName layers = some info ∧
          (groupFlattenBuilder.flattenAllBuildpacks = true →
            MergedLayerHash World.agreeable
              (groupFlattenBuilder.finalizeImage World.agreeable FinalizeOrders.stored "/tmp"
                []).2 (allFlattenTarPath "/tmp") info.LayerDiffID) ∧
          (groupFlattenBuilder.flattenAllBuildpacks = false →
            (∀ g ∈ groupFlattenBuilder.FlattenModules,
              m.FullName ∉ g.map BuildModule.FullName) →
            OwnLayerHash World.agreeable
              (groupFlattenBuilder.finalizeImage World.agreeable FinalizeOrders.stored "/tmp"
                []).2 "/tmp" m info.LayerDiffID) ∧
          (groupFlattenBuilder.flattenAllBuildpacks = false →
            (∃ g ∈ groupFlattenBuilder.FlattenModules,
              m.FullName ∈ g.map BuildModule.FullName) →
            ∃ i g, groupFlattenBuilder.FlattenModules[i]? = some g ∧
              m.FullName ∈ g.map BuildModule.FullName ∧
              MergedLayerHash World.agreeable
                (groupFlattenBuilder.finalizeImage World.agreeable FinalizeOrders.stored "/tmp"
                  []).2 (groupFlattenTarPath "/tmp" i) info.LayerDiffID) :=
  ⟨rfl, by decide, rfl,
   finalizeImage_layer_map World.agreeable FinalizeOrders.stored groupFlattenBuilder "/tmp"
     (metaModule "meta/root" "1.0.0" [("dep/a", "1.0.0"), ("dep/b", "1.0.0")]) rfl
     (by decide) rfl⟩

/-! ## Module manager: the recursion -/

theorem filter_chain_head (a b : BuildModule) (rest : List BuildModule)
    (h : refersOnlyTo a b) (hnd : ((b :: rest).map BuildModule.FullName).Nodup) :
    (b :: rest).filter (fun dep => decide (dep.FullName ∈ orderNames a.Descriptor.Order)) = [b] ∧
    (b :: rest).filter (fun dep => !decide (dep.FullName ∈ orderNames a.Descriptor.Order))
      = rest := by
  have hb : b.FullName ∉ rest.map BuildModule.FullName := (List.nodup_cons.mp hnd).1
  have hrest : ∀ x ∈ rest, x.FullName ∉ orderNames a.Descriptor.Order := by
    intro x hx hin
    exact hb (by rw [← h.2 _ hin]; exact List.mem_map_of_mem _ hx)
  constructor
  · rw [List.filter_cons_of_pos (by simpa using h.1)]
    rw [List.filter_eq_nil_iff.mpr (by intro x hx; simpa using hrest x hx)]
  · rw [List.filter_cons_of_neg (by simpa using h.1)]
    rw [List.filter_eq_self.mpr (by intro x hx; simpa using hrest x hx)]

theorem calculateFlattenModules_chain_aux (maxDepth : Int) :
    ∀ (rest : List BuildModule) (a : BuildModule) (depth : Int),
      depth ≤ maxDepth →
      compositionChain (a :: rest) = true →
      ((a :: rest).map BuildModule.FullName).Nodup →
      calculateFlattenModules maxDepth a rest depth =
        ((a :: rest).take (maxDepth - depth).toNat).map (fun m => [m]) ++
          (if (a :: rest).drop (maxDepth - depth).toNat = [] then []
           else [(a :: rest).drop (maxDepth - depth).toNat]) := by
  intro rest
  induction rest with
  | nil =>
    intro a depth hle _ _
    rw [calculateFlattenModules]
    by_cases hd : depth = maxDepth
    · subst hd
      by_cases ho : a.Descriptor.Order.length > 0 <;> simp [ho, buildpacksFromGroup_eq]
    · have hlt : depth < maxDepth := by omega
      obtain ⟨j, hj⟩ : ∃ j, (maxDepth - depth).toNat = j + 1 := ⟨(maxDepth - depth).toNat - 1, by omega⟩
      by_cases ho : a.Descriptor.Order.length > 0 <;>
        simp [ho, hd, hlt, hj, buildpacksFromGroup_eq]
  | cons b rest ih =>
    intro a depth hle hchain hnd
    simp only [compositionChain, Bool.and_eq_true, decide_eq_true_eq] at hchain
    have hab : refersOnlyTo a b := hchain.1
    have hchain2 : compositionChain (b :: rest) = true := hchain.2
    have hnd2 : ((b :: rest).map BuildModule.FullName).Nodup := by
      rw [List.map_cons] at hnd; exact (List.nodup_cons.mp hnd).2
    have ho : a.Descriptor.Order.length > 0 := by
      apply List.length_pos.mpr
      intro h0
      have := hab.1
      rw [h0] at this
      simp [orderNames] at this
    rw [calculateFlattenModules]
    by_cases hd : depth = maxDepth
    · subst hd
      simp [ho]
    · have hlt : depth < maxDepth := by omega
      obtain ⟨j, hj⟩ : ∃ j, (maxDepth - depth).toNat = j + 1 := ⟨(maxDepth - depth).toNat - 1, by omega⟩
      have hj2 : (maxDepth - (depth + 1)).toNat = j := by omega
      have hf := filter_chain_head a b rest hab hnd2
      simp only [ho, hd, hlt, if_true, if_false, dite_true, buildpacksFromGroup_eq, hf.1, hf.2,
        List.nil_append, List.flatMap_cons, List.flatMap_nil, List.append_nil, hj,
        List.take_succ_cons, List.drop_succ_cons, List.map_cons, List.cons_append]
      rw [ih b (depth + 1) (by omega) hchain2 hnd2, hj2]

/-- C23. For a chain `A0 -> A1 -> ... -> An` of modules with pairwise distinct full
names, each `Ai` before the last referencing `A(i+1)` and nothing else,
`calculateFlattenModules(A0, [A1..An], 0)` with `maxDepth = k` returns the singleton
groups `[A0]`, ..., `[A(k-1)]` followed by the one group `[Ak, ..., An]` when `k ≤ n`, and
the `n + 1` singleton groups `[A0]`, ..., `[An]` when `k > n`. -/
theorem calculateFlattenModules_chain (k : Nat) (A0 : BuildModule) (rest : List BuildModule)
    (hchain : compositionChain (A0 :: rest) = true)
    (hnames : ((A0 :: rest).map BuildModule.FullName).Nodup) :
    (k ≤ rest.length →
      calculateFlattenModules k A0 rest 0 =
        ((A0 :: rest).take k).map (fun m => [m]) ++ [(A0 :: rest).drop k]) ∧
    (rest.length < k →
      calculateFlattenModules k A0 rest 0 = (A0 :: rest).map (fun m => [m])) := by
  have h := calculateFlattenModules_chain_aux k rest A0 0 (by omega) hchain hnames
  have hk : ((k : Int) - 0).toNat = k := by omega
  rw [hk] at h
  constructor
  · intro hle
    rw [h, if_neg]
    intro h0
    have := congrArg List.length h0
    simp at this
    omega
  · intro hlt
    rw [h, if_pos, List.append_nil, List.take_of_length_le]
    · simp; omega
    · apply List.drop_eq_nil_of_le
      simp; omega

/-- Witness of C23: the chain `c0 -> c1 -> c2` at `maxDepth = 1` and at `maxDepth = 5`. -/
theorem calculateFlattenModules_chain_witness :
    calculateFlattenModules 1 (metaModule "c0" "1" [("c1", "1")])
        [metaModule "c1" "1" [("c2", "1")], leafModule "c2" "1" ["s"]] 0 =
      [[metaModule "c0" "1" [("c1", "1")]],
       [metaModule "c1" "1" [("c2", "1")], leafModule "c2" "1" ["s"]]] ∧
    calculateFlattenModules 5 (metaModule "c0" "1" [("c1", "1")])
        [metaModule "c1" "1" [("c2", "1")], leafModule "c2" "1" ["s"]] 0 =
      [[metaModule "c0" "1" [("c1", "1")]], [metaModule "c1" "1" [("c2", "1")]],
       [leafModule "c2" "1" ["s"]]] :=
  ⟨(calculateFlattenModules_chain 1 (metaModule "c0" "1" [("c1", "1")])
      [metaModule "c1" "1" [("c2", "1")], leafModule "c2" "1" ["s"]]
      (by decide) (by decide)).1 (by decide),
   (calculateFlattenModules_chain 5 (metaModule "c0" "1" [("c1", "1")])
      [metaModule "c1" "1" [("c2", "1")], leafModule "c2" "1" ["s"]]
      (by decide) (by decide)).2 (by decide)⟩

theorem orderNames_any (orders : Order) (dep : BuildModule) :
    decide (dep.FullName ∈ orderNames orders) =
      orders.any (fun order =>
        order.Group.any (fun ref => ref.ModuleInfo.FullName == dep.FullName)) := by
  rw [Bool.eq_iff_iff]
  simp only [orderNames, decide_eq_true_eq, List.mem_flatMap, List.mem_map, List.any_eq_true,
    beq_iff_eq]

theorem count_filter_add (p : BuildModule → Bool) (deps : List BuildModule) (d : BuildModule) :
    (deps.filter p).count d + (deps.filter (fun x => !p x)).count d = deps.count d := by
  induction deps with
  | nil => rfl
  | cons x xs ih =>
    cases hp : p x <;> simp [List.filter_cons, hp, List.count_cons] <;> omega

/-- C24. `buildpacksFromGroup(orders, deps)` partitions `deps`: `bps` is the subsequence
of `deps` whose full name equals the full name of some reference in `orders`, `newDeps`
is the subsequence of the others, both in the order of `deps`, and every element of
`deps` is in exactly one of the two. -/
theorem buildpacksFromGroup_partition (orders : Order) (deps : List BuildModule) :
    (buildpacksFromGroup orders deps).1 =
      deps.filter (fun dep => orders.any (fun order =>
        order.Group.any (fun ref => ref.ModuleInfo.FullName == dep.FullName))) ∧
    (buildpacksFromGroup orders deps).2 =
      deps.filter (fun dep => !orders.any (fun order =>
        order.Group.any (fun ref => ref.ModuleInfo.FullName == dep.FullName))) ∧
    (buildpacksFromGroup orders deps).1.Sublist deps ∧
    (buildpacksFromGroup orders deps).2.Sublist deps ∧
    (∀ d, d ∈ (buildpacksFromGroup orders deps).1 → d ∉ (buildpacksFromGroup orders deps).2) ∧
    ∀ d, (buildpacksFromGroup orders deps).1.count d + (buildpacksFromGroup orders deps).2.count d
      = deps.count d := by
  rw [buildpacksFromGroup_eq]
  simp only [orderNames_any]
  refine ⟨trivial, trivial, List.filter_sublist _, List.filter_sublist _, ?_, ?_⟩
  · intro d h1 h2
    have a := (List.mem_filter.mp h1).2
    have b := (List.mem_filter.mp h2).2
    rw [a] at b
    cases b
  · intro d
    exact count_filter_add _ deps d

theorem reachable_mem (deps : List BuildModule) (a c : BuildModule)
    (h : Reachable deps a c) : c = a ∨ c ∈ deps := by
  induction h with
  | here a => exact Or.inl rfl
  | step a b c hb _ _ ih =>
    rcases ih with h1 | h1
    · right; rw [h1]; exact hb
    · exact Or.inr h1

theorem reachable_split (deps : List BuildModule) (p : BuildModule → Bool)
    (a c : BuildModule) (h : Reachable deps a c) :
    Reachable (deps.filter (fun d => !p d)) a c ∨
      ∃ b ∈ deps.filter p, Reachable (deps.filter (fun d => !p d)) b c := by
  induction h with
  | here a => exact Or.inl (Reachable.here a)
  | step a b c hb href _ ih =>
    rcases ih with h1 | h1
    · cases hp : p b with
      | true => exact Or.inr ⟨b, List.mem_filter.mpr ⟨hb, hp⟩, h1⟩
      | false =>
        exact Or.inl (Reachable.step a b c (List.mem_filter.mpr ⟨hb, by simp [hp]⟩) href h1)
    · exact Or.inr h1

theorem reachable_calculateFlattenModules (maxDepth : Int) (n : Nat) :
    ∀ (main : BuildModule) (deps : List BuildModule) (depth : Int),
      (maxDepth - depth).toNat = n → depth ≤ maxDepth →
      ∀ c, Reachable deps main c →
        ∃ g ∈ calculateFlattenModules maxDepth main deps depth, c ∈ g := by
  induction n using Nat.strong_induction_on with
  | _ n ih =>
    intro main deps depth hn hle c hc
    rw [calculateFlattenModules]
    simp only [buildpacksFromGroup_eq]
    by_cases ho : main.Descriptor.Order.length > 0
    · by_cases hd : depth = maxDepth
      · refine ⟨main :: deps, ?_, ?_⟩
        · simp [ho, hd]
        · rcases reachable_mem deps main c hc with h1 | h1
          · simp [h1]
          · simp [h1]
      · have hlt : depth < maxDepth := by omega
        simp only [ho, hd, hlt, if_true, if_false, dite_true, List.nil_append]
        rcases reachable_split deps
          (fun dep => decide (dep.FullName ∈ orderNames main.Descriptor.Order)) main c hc
          with h1 | ⟨b, hb, h1⟩
        · cases h1 with
          | here => exact ⟨[main], by simp, by simp⟩
          | step _ b _ hb href _ =>
            have := (List.mem_filter.mp hb).2
            simp [href] at this
        · obtain ⟨g, hg, hcg⟩ :=
            ih ((maxDepth - (depth + 1)).toNat) (by omega) b _ (depth + 1) rfl (by omega) c h1
          exact ⟨g, List.mem_cons_of_mem _ (List.mem_flatMap.mpr ⟨b, hb, hg⟩), hcg⟩
    · have hnil : main.Descriptor.Order = [] := by
        cases hO : main.Descriptor.Order with
        | nil => rfl
        | cons x xs => rw [hO] at ho; simp at ho
      refine ⟨[main], by simp [ho], ?_⟩
      cases hc with
      | here => simp
      | step _ b _ hb href _ =>
        rw [hnil] at href
        simp [orderNames] at href

theorem reachable_of_reachableWithin (n : Nat) (deps : List BuildModule) :
    ∀ (a c : BuildModule), reachableWithin n deps a c = true → Reachable deps a c := by
  induction n with
  | zero =>
    intro a c h
    simp only [reachableWithin, decide_eq_true_eq] at h
    rw [h]
    exact Reachable.here c
  | succ n ih =>
    intro a c h
    simp only [reachableWithin, Bool.or_eq_true, decide_eq_true_eq, List.any_eq_true,
      Bool.and_eq_true] at h
    rcases h with h | ⟨b, hb, href, hbc⟩
    · rw [h]
      exact Reachable.here c
    · exact Reachable.step a b c hb href (ih b c hbc)

/-- C28. For `maxDepth ≥ 0`: if every module of `deps` is reachable from `main` by
following order references resolved by full name within `deps`, then every module among
`main` and `deps` occurs in at least one group returned by
`calculateFlattenModules(main, deps, 0)`, and every member of every group is `main` or a
module of `deps`. -/
theorem calculateFlattenModules_covers (maxDepth : Int) (main : BuildModule)
    (deps : List BuildModule) (h0 : 0 ≤ maxDepth)
    (hreach : ∀ d ∈ deps, Reachable deps main d) :
    (∀ m ∈ main :: deps, ∃ g ∈ calculateFlattenModules maxDepth main deps 0, m ∈ g) ∧
    ∀ g ∈ calculateFlattenModules maxDepth main deps 0, ∀ m ∈ g, m ∈ main :: deps := by
  constructor
  · intro m hm
    apply reachable_calculateFlattenModules maxDepth _ main deps 0 rfl h0
    rcases List.mem_cons.mp hm with h1 | h1
    · rw [h1]; exact Reachable.here main
    · exact hreach m h1
  · intro g hg m hm
    exact List.mem_cons.mpr (mem_calculateFlattenModules maxDepth _ main deps 0 rfl g hg m hm)

/-- Witness of C28: the sample tree `root -> {a -> b, x -> y}` at `maxDepth = 1`. -/
theorem calculateFlattenModules_covers_witness :
    (∀ m ∈ treeRoot :: treeDeps, ∃ g ∈ calculateFlattenModules 1 treeRoot treeDeps 0, m ∈ g) ∧
    ∀ g ∈ calculateFlattenModules 1 treeRoot treeDeps 0, ∀ m ∈ g, m ∈ treeRoot :: treeDeps :=
  calculateFlattenModules_covers 1 treeRoot treeDeps (by decide)
    (fun d hd => reachable_of_reachableWithin 2 treeDeps treeRoot d
      ((by decide : ∀ d ∈ treeDeps, reachableWithin 2 treeDeps treeRoot d = true) d hd))

theorem foldl_fuel (f : BuildModule → Option (List (List BuildModule)))
    (g : BuildModule → List (List BuildModule)) (bps : List BuildModule) :
    ∀ (init : List (List BuildModule)), (∀ bp ∈ bps, f bp = some (g bp)) →
      bps.foldl
        (fun acc bp =>
          match acc, f bp with
          | some groups, some more => some (groups ++ more)
          | _, _ => none)
        (some init) = some (init ++ bps.flatMap g) := by
  induction bps with
  | nil => intro init _; simp
  | cons x xs ih =>
    intro init h
    rw [List.foldl_cons, h x (List.mem_cons_self _ _)]
    simp only
    rw [ih _ (fun bp hbp => h bp (List.mem_cons_of_mem _ hbp))]
    simp

theorem length_filter_add (p : BuildModule → Bool) (deps : List BuildModule) :
    (deps.filter p).length + (deps.filter (fun d => !p d)).length = deps.length := by
  induction deps with
  | nil => rfl
  | cons x xs ih =>
    cases hp : p x <;> simp [List.filter_cons, hp] <;> omega

theorem length_filter_not_lt (p : BuildModule → Bool) (deps : List BuildModule)
    (bp : BuildModule) (hbp : bp ∈ deps.filter p) :
    (deps.filter (fun d => !p d)).length < deps.length := by
  have h1 : 0 < (deps.filter p).length := List.length_pos_of_mem hbp
  have h2 := length_filter_add p deps
  omega

theorem calculateFlattenModulesFuel_eq (maxDepth : Int) :
    ∀ (fuel : Nat) (main : BuildModule) (deps : List BuildModule) (depth : Int),
      min (maxDepth - depth).toNat deps.length < fuel →
      calculateFlattenModulesFuel fuel maxDepth main deps depth =
        some (calculateFlattenModules maxDepth main deps depth) := by
  intro fuel
  induction fuel with
  | zero => intro main deps depth h; omega
  | succ fuel ih =>
    intro main deps depth h
    rw [calculateFlattenModules]
    simp only [calculateFlattenModulesFuel, buildpacksFromGroup_eq]
    by_cases ho : main.Descriptor.Order.length > 0
    · by_cases hlt : depth < maxDepth
      · simp only [ho, hlt, if_true, dite_true]
        rw [foldl_fuel _ (fun bp => calculateFlattenModules maxDepth bp
          (deps.filter (fun dep => !decide (dep.FullName ∈ orderNames main.Descriptor.Order)))
          (depth + 1))]
        · simp
        · intro bp hbp
          apply ih
          have := length_filter_not_lt _ deps bp hbp
          omega
      · simp [ho, hlt]
    · simp [ho]

theorem flattenCalls_bounds (maxDepth : Int) (n : Nat) :
    ∀ (caller : Option (List BuildModule)) (main : BuildModule) (deps : List BuildModule)
      (depth : Int),
      (maxDepth - depth).toNat = n → 0 ≤ depth → depth ≤ maxDepth →
      (∀ cd, caller = some cd → deps.length < cd.length) →
      ∀ c ∈ flattenCalls maxDepth caller main deps depth,
        0 ≤ c.depth ∧ c.depth ≤ maxDepth ∧
          ∀ cd, c.callerDeps = some cd → c.deps.length < cd.length := by
  induction n using Nat.strong_induction_on with
  | _ n ih =>
    intro caller main deps depth hn h0 hle hcaller c hc
    rw [flattenCalls] at hc
    simp only [buildpacksFromGroup_eq] at hc
    rcases List.mem_cons.mp hc with h1 | h1
    · subst h1
      exact ⟨h0, hle, hcaller⟩
    · split at h1
      · split at h1
        · rename_i hlt
          obtain ⟨bp, hbp, hcbp⟩ := List.mem_flatMap.mp h1
          refine ih ((maxDepth - (depth + 1)).toNat) (by omega) (some deps) bp _ (depth + 1) rfl
            (by omega) (by omega) ?_ c hcbp
          intro cd hcd
          cases hcd
          exact length_filter_not_lt _ deps bp hbp
        · cases h1
      · cases h1

/-- C29. `calculateFlattenModules(main, deps, 0)` terminates for every `maxDepth ≥ 0`
and every input, cyclic and self-referencing orders included: run with a bound on the
nesting of invocations larger than `maxDepth`, or larger than the number of
dependencies, it returns its result; every invocation made on the way has a depth between
`0` and `maxDepth`, and every recursive one receives a dependency list strictly shorter
than that of its caller. -/
theorem calculateFlattenModules_terminates (maxDepth : Int) (h0 : 0 ≤ maxDepth)
    (main : BuildModule) (deps : List BuildModule) :
    (∀ fuel, min maxDepth.toNat deps.length < fuel →
      calculateFlattenModulesFuel fuel maxDepth main deps 0 =
        some (calculateFlattenModules maxDepth main deps 0)) ∧
    ∀ c ∈ flattenCalls maxDepth none main deps 0,
      0 ≤ c.depth ∧ c.depth ≤ maxDepth ∧
        ∀ cd, c.callerDeps = some cd → c.deps.length < cd.length := by
  constructor
  · intro fuel h
    apply calculateFlattenModulesFuel_eq
    simpa using h
  · exact flattenCalls_bounds maxDepth _ none main deps 0 rfl (le_refl 0) h0
      (fun cd hcd => by cases hcd)

/-- Witness of C29: a module whose order references itself, listed among its own
dependencies, at `maxDepth = 3`. -/
theorem calculateFlattenModules_terminates_witness :
    calculateFlattenModulesFuel 2 3 (metaModule "self" "1" [("self", "1")])
        [metaModule "self" "1" [("self", "1")]] 0 =
      some (calculateFlattenModules 3 (metaModule "self" "1" [("self", "1")])
        [metaModule "self" "1" [("self", "1")]] 0) :=
  (calculateFlattenModules_terminates 3 (by decide) (metaModule "self" "1" [("self", "1")])
    [metaModule "self" "1" [("self", "1")]]).1 2 (by decide)

/-! ## Validation: the whole condition -/

theorem nodup_keys_initialDepsWithRefs_aux (depBPs : List BuildModule)
    (m : GoMap (List ModuleInfo)) (hm : m.keys.Nodup) :
    (depBPs.foldl (fun m bp => m.set bp.FullName []) m).keys.Nodup := by
  induction depBPs generalizing m with
  | nil => simpa using hm
  | cons d ds ih =>
    rw [List.foldl_cons]
    exact ih _ (nodup_keys_setEntry _ _ _ hm)

theorem nodup_keys_initialDepsWithRefs (depBPs : List BuildModule) :
    (initialDepsWithRefs depBPs).keys.Nodup := by
  unfold initialDepsWithRefs
  apply nodup_keys_initialDepsWithRefs_aux
  simp [GoMap.keys, GoMap.empty]

theorem walkRefs_ok_resolves (pre : List (Descriptor × ModuleRef))
    (m m1 : GoMap (List ModuleInfo)) (hw : walkRefs pre m = .ok m1) :
    ∀ q ∈ pre, refResolves m.keys q := by
  by_contra h
  push_neg at h
  obtain ⟨q, hq, hbad⟩ := h
  obtain ⟨err, he⟩ := walkRefs_error_of_unresolved pre m ⟨q, hq, hbad⟩
  rw [he] at hw
  cases hw

theorem walkRefs_count (pre : List (Descriptor × ModuleRef)) :
    ∀ (m m1 : GoMap (List ModuleInfo)), walkRefs pre m = .ok m1 →
      ∀ k v, m.get? k = some v →
        ∃ v1, m1.get? k = some v1 ∧
          v1.length = v.length + pre.countP (fun q => decide (q.2.ModuleInfo.FullName = k)) := by
  induction pre with
  | nil =>
    intro m m1 hw k v hv
    have : m = m1 := by
      have h2 : walkRefs [] m = .ok m := rfl
      rw [h2] at hw
      cases hw
      rfl
    subst this
    exact ⟨v, hv, by simp⟩
  | cons p rest ih =>
    intro m m1 hw k v hv
    obtain ⟨hver, hk⟩ := walkRefs_ok_resolves (p :: rest) m m1 hw p (List.mem_cons_self _ _)
    obtain ⟨refs, hg, hc⟩ := checkGroupEntry_resolves p.1 m p.2 hver hk
    rw [walkRefs_cons, hc] at hw
    have hw2 : walkRefs rest (m.set p.2.ModuleInfo.FullName (refs ++ [p.1.Info])) = .ok m1 := hw
    have hget : (m.set p.2.ModuleInfo.FullName (refs ++ [p.1.Info])).get? k =
        if p.2.ModuleInfo.FullName = k then some (refs ++ [p.1.Info]) else m.get? k :=
      getEntry_setEntry _ _ _ _
    by_cases hpk : p.2.ModuleInfo.FullName = k
    · rw [if_pos hpk] at hget
      obtain ⟨v1, h1, h2⟩ := ih _ m1 hw2 k _ hget
      refine ⟨v1, h1, ?_⟩
      have hrv : refs = v := by
        rw [hpk, hv] at hg
        cases hg
        rfl
      rw [h2, List.countP_cons_of_pos _ _ (by simpa using hpk), hrv]
      simp
      omega
    · rw [if_neg hpk, hv] at hget
      obtain ⟨v1, h1, h2⟩ := ih _ m1 hw2 k _ hget
      refine ⟨v1, h1, ?_⟩
      rw [h2, List.countP_cons_of_neg _ _ (by simpa using hpk)]

theorem fullName_of_versioned (b : ModuleInfo) (h : b.Version ≠ "") :
    b.FullName = b.ID ++ "@" ++ b.Version := by
  simp [ModuleInfo.FullName, h]

theorem validateBuildpacks_accepts_iff (ro : RangeOrder (String × List ModuleInfo))
    (mainBP : BuildModule) (depBPs : List BuildModule) :
    validateBuildpacks ro mainBP depBPs = .ok () ↔
      (∀ p ∈ orderRefs (mainBP :: depBPs),
        p.2.ModuleInfo.Version ≠ "" ∧
        p.2.ModuleInfo.ID ++ "@" ++ p.2.ModuleInfo.Version ∈ depBPs.map BuildModule.FullName) ∧
      (∀ d ∈ depBPs, ∃ p ∈ orderRefs (mainBP :: depBPs),
        p.2.ModuleInfo.FullName = d.FullName) := by
  have hkeys := mem_keys_initialDepsWithRefs depBPs
  rw [validateBuildpacks_eq]
  constructor
  · intro h
    cases hw : walkRefs (orderRefs (mainBP :: depBPs)) (initialDepsWithRefs depBPs) with
    | error err => rw [hw] at h; cases h
    | ok m1 =>
      rw [hw] at h
      have hres := walkRefs_ok_resolves _ _ _ hw
      have hfind : (ro.pick m1.entries).find? (fun e => e.2.length = 0) = none := by
        cases hf : (ro.pick m1.entries).find? (fun e => e.2.length = 0) with
        | none => rfl
        | some e => simp only [hf] at h; cases h
      constructor
      · intro p hp
        obtain ⟨hv, hin⟩ := hres p hp
        refine ⟨hv, ?_⟩
        rw [← fullName_of_versioned _ hv]
        exact (hkeys _).mp hin
      · intro d hd
        have hdk : d.FullName ∈ (initialDepsWithRefs depBPs).keys :=
          (hkeys _).mpr (List.mem_map_of_mem _ hd)
        obtain ⟨v, hv⟩ := (getEntry_isSome_iff _ _).mpr hdk
        have hvnil : v = [] :=
          values_initialDepsWithRefs depBPs _ (mem_of_getEntry _ _ _ hv)
        obtain ⟨v1, h1, h2⟩ := walkRefs_count _ _ m1 hw d.FullName v hv
        have hmem : (d.FullName, v1) ∈ ro.pick m1.entries :=
          (ro.perm _).mem_iff.mpr (mem_of_getEntry _ _ _ h1)
        have hne := List.find?_eq_none.mp hfind _ hmem
        have hpos : 0 < (orderRefs (mainBP :: depBPs)).countP
            (fun q => decide (q.2.ModuleInfo.FullName = d.FullName)) := by
          rw [hvnil] at h2
          simp at hne h2
          have : v1.length ≠ 0 := fun h0 => hne (List.length_eq_zero.mp h0)
          omega
        obtain ⟨p, hp, hpn⟩ := List.countP_pos_iff.mp hpos
        exact ⟨p, hp, by simpa using hpn⟩
  · rintro ⟨h1, h2⟩
    have hall : ∀ q ∈ orderRefs (mainBP :: depBPs),
        refResolves (initialDepsWithRefs depBPs).keys q := by
      intro q hq
      obtain ⟨hv, hin⟩ := h1 q hq
      refine ⟨hv, (hkeys _).mpr ?_⟩
      rw [fullName_of_versioned _ hv]
      exact hin
    obtain ⟨m1, hw, hk1, _⟩ := walkRefs_resolving _ _ hall
    rw [hw]
    have hnd : (m1.entries.map Prod.fst).Nodup := by
      have := nodup_keys_initialDepsWithRefs depBPs
      rw [← hk1] at this
      exact this
    have hfind : (ro.pick m1.entries).find? (fun e => e.2.length = 0) = none := by
      apply List.find?_eq_none.mpr
      intro e he
      have he1 : e ∈ m1.entries := (ro.perm _).mem_iff.mp he
      have hek : e.1 ∈ (initialDepsWithRefs depBPs).keys := by
        rw [← hk1]; exact List.mem_map_of_mem Prod.fst he1
      obtain ⟨d, hd, hdn⟩ := List.mem_map.mp ((hkeys _).mp hek)
      obtain ⟨p, hp, hpn⟩ := h2 d hd
      obtain ⟨v, hv⟩ := (getEntry_isSome_iff _ _).mpr hek
      obtain ⟨v1, hg1, hlen⟩ := walkRefs_count _ _ m1 hw e.1 v hv
      have hev : getEntry e.1 m1.entries = some e.2 :=
        getEntry_of_mem_nodup _ _ _ hnd he1
      have : v1 = e.2 := by
        have hg2 : getEntry e.1 m1.entries = some v1 := hg1
        rw [hev] at hg2
        cases hg2
        rfl
      have hpos : 0 < (orderRefs (mainBP :: depBPs)).countP
          (fun q => decide (q.2.ModuleInfo.FullName = e.1)) :=
        List.countP_pos_iff.mpr ⟨p, hp, by simp [hpn, hdn]⟩
      rw [this] at hlen
      simp
      intro h0
      rw [h0] at hlen
      simp at hlen
      omega
    simp only [hfind]

/-- C25. `validateBuildpacks(mainBP, depBPs)` returns no error if and only if (1) every
order-group reference of the root and of the dependencies has a non-empty version and
its `id@version` equals the full name of some module of `depBPs`, and (2) the full name of
every module of `depBPs` is referenced by at least one order-group reference; this for
every order in which the map of dependencies is ranged over. -/
theorem validateBuildpacks_ok_iff (ro : RangeOrder (String × List ModuleInfo))
    (mainBP : BuildModule) (depBPs : List BuildModule) :
    validateBuildpacks ro mainBP depBPs = .ok () ↔
      (∀ p ∈ orderRefs (mainBP :: depBPs),
        p.2.ModuleInfo.Version ≠ "" ∧
        p.2.ModuleInfo.ID ++ "@" ++ p.2.ModuleInfo.Version ∈ depBPs.map BuildModule.FullName) ∧
      (∀ d ∈ depBPs, ∃ p ∈ orderRefs (mainBP :: depBPs),
        p.2.ModuleInfo.FullName = d.FullName) :=
  validateBuildpacks_accepts_iff ro mainBP depBPs

theorem reachable_of_empty_order (deps : List BuildModule) (a c : BuildModule)
    (h : Reachable deps a c) (ho : a.Descriptor.Order = []) : c = a := by
  cases h with
  | here => rfl
  | step _ b _ hb href _ =>
    rw [ho] at href
    simp [orderNames] at href

/-- C30. Validation does not require reachability from the root: for the root
`root@1.0.0` with empty order and one stack and the single dependency `dep/self@1.0.0`
whose only order group references `dep/self@1.0.0` itself, `validateBuildpacks` and
`validate` both succeed, for every range order, although the root references nothing and
the dependency is not reachable from it. -/
theorem validate_unreachable_dependency (ro : RangeOrder (String × List ModuleInfo)) :
    (leafModule "root" "1.0.0" ["some.stack.id"]).Descriptor.Order = [] ∧
    (leafModule "root" "1.0.0" ["some.stack.id"]).Descriptor.Stacks ≠ [] ∧
    (metaModule "dep/self" "1.0.0" [("dep/self", "1.0.0")]).Descriptor.Order =
      [OrderEntry.mk [ModuleRef.mk (ModuleInfo.mk "dep/self" "1.0.0") false]] ∧
    validateBuildpacks ro (leafModule "root" "1.0.0" ["some.stack.id"])
      [metaModule "dep/self" "1.0.0" [("dep/self", "1.0.0")]] = .ok () ∧
    PackageBuilder.validate ro
      ((NewBuilder.SetBuildpack (leafModule "root" "1.0.0" ["some.stack.id"])).AddDependency
        (metaModule "dep/self" "1.0.0" [("dep/self", "1.0.0")])) = .ok () ∧
    ¬ Reachable [metaModule "dep/self" "1.0.0" [("dep/self", "1.0.0")]]
      (leafModule "root" "1.0.0" ["some.stack.id"])
      (metaModule "dep/self" "1.0.0" [("dep/self", "1.0.0")]) := by
  have hv : validateBuildpacks ro (leafModule "root" "1.0.0" ["some.stack.id"])
      [metaModule "dep/self" "1.0.0" [("dep/self", "1.0.0")]] = .ok () := by
    rw [validateBuildpacks_accepts_iff]
    constructor
    · intro p hp
      simp [orderRefs, leafModule, metaModule] at hp
      subst hp
      simp [BuildModule.FullName, ModuleInfo.FullName, metaModule]
    · intro d hd
      simp at hd
      subst hd
      refine ⟨((metaModule "dep/self" "1.0.0" [("dep/self", "1.0.0")]).Descriptor,
        ModuleRef.mk (ModuleInfo.mk "dep/self" "1.0.0") false), ?_, ?_⟩
      · simp [orderRefs, leafModule, metaModule]
      · simp [BuildModule.FullName, metaModule]
  refine ⟨rfl, by decide, rfl, hv, ?_, ?_⟩
  · simp only [PackageBuilder.validate, NewBuilder, PackageBuilder.SetBuildpack,
      PackageBuilder.AddDependency, List.nil_append]
    rw [hv]
    rfl
  · intro h
    have := reachable_of_empty_order _ _ _ h rfl
    revert this
    decide

/-! ## Validation: the resolved stacks -/

theorem mem_ids_MergeCompatible (stacksA stacksB : List Stack) (id : String) :
    id ∈ (MergeCompatible stacksA stacksB).map Stack.ID ↔
      id ∈ stacksA.map Stack.ID ∧ id ∈ stacksB.map Stack.ID := by
  simp only [MergeCompatible, List.mem_map, List.mem_filter, List.any_eq_true, beq_iff_eq]
  constructor
  · rintro ⟨a, ⟨ha, b, hb, hba⟩, rfl⟩
    exact ⟨⟨a, ha, rfl⟩, ⟨b, hb, hba⟩⟩
  · rintro ⟨⟨a, ha, rfl⟩, ⟨b, hb, hba⟩⟩
    exact ⟨a, ⟨ha, b, hb, hba⟩, rfl⟩

theorem resolvedStacks_fold_nonempty (deps : List BuildModule) :
    ∀ (acc : List Stack) (id0 : String), id0 ∈ acc.map Stack.ID →
      (∀ m ∈ deps, m.Descriptor.Stacks ≠ [] → id0 ∈ m.Descriptor.Stacks.map Stack.ID) →
      ∀ id, id ∈ (deps.foldl
          (fun stackList bp =>
            if stackList.length = 0 then bp.Descriptor.Stacks
            else if bp.Descriptor.Stacks.length > 0 then
              MergeCompatible stackList bp.Descriptor.Stacks
            else stackList)
          acc).map Stack.ID ↔
        id ∈ acc.map Stack.ID ∧
          ∀ m ∈ deps, m.Descriptor.Stacks ≠ [] → id ∈ m.Descriptor.Stacks.map Stack.ID := by
  induction deps with
  | nil => intro acc id0 _ _ id; simp
  | cons d ds ih =>
    intro acc id0 h0 hall id
    rw [List.foldl_cons]
    have hacc : ¬ acc.length = 0 := by
      intro h
      rw [List.length_eq_zero.mp h] at h0
      simp at h0
    rw [if_neg hacc]
    have hds : ∀ m ∈ ds, m.Descriptor.Stacks ≠ [] → id0 ∈ m.Descriptor.Stacks.map Stack.ID :=
      fun m hm => hall m (List.mem_cons_of_mem _ hm)
    by_cases hd : d.Descriptor.Stacks.length > 0
    · have hdne : d.Descriptor.Stacks ≠ [] := List.length_pos.mp hd
      rw [if_pos hd]
      rw [ih _ id0 ((mem_ids_MergeCompatible _ _ _).mpr
        ⟨h0, hall d (List.mem_cons_self _ _) hdne⟩) hds id, mem_ids_MergeCompatible]
      constructor
      · rintro ⟨⟨h1, h2⟩, h3⟩
        refine ⟨h1, ?_⟩
        intro m hm hne
        rcases List.mem_cons.mp hm with h | h
        · rw [h]; exact h2
        · exact h3 m h hne
      · rintro ⟨h1, h2⟩
        exact ⟨⟨h1, h2 d (List.mem_cons_self _ _) hdne⟩,
          fun m hm hne => h2 m (List.mem_cons_of_mem _ hm) hne⟩
    · have hdnil : d.Descriptor.Stacks = [] := by
        cases hs : d.Descriptor.Stacks with
        | nil => rfl
        | cons x xs => rw [hs] at hd; simp at hd
      rw [if_neg hd, ih acc id0 h0 hds id]
      constructor
      · rintro ⟨h1, h2⟩
        refine ⟨h1, ?_⟩
        intro m hm hne
        rcases List.mem_cons.mp hm with h | h
        · rw [h] at hne; exact absurd hdnil hne
        · exact h2 m h hne
      · rintro ⟨h1, h2⟩
        exact ⟨h1, fun m hm hne => h2 m (List.mem_cons_of_mem _ hm) hne⟩

theorem resolvedStacks_fold_empty (deps : List BuildModule) :
    ∀ (id0 : String),
      (∀ m ∈ deps, m.Descriptor.Stacks ≠ [] → id0 ∈ m.Descriptor.Stacks.map Stack.ID) →
      ∀ id, id ∈ (deps.foldl
          (fun stackList bp =>
            if stackList.length = 0 then bp.Descriptor.Stacks
            else if bp.Descriptor.Stacks.length > 0 then
              MergeCompatible stackList bp.Descriptor.Stacks
            else stackList)
          []).map Stack.ID ↔
        (∃ m ∈ deps, id ∈ m.Descriptor.Stacks.map Stack.ID) ∧
          ∀ m ∈ deps, m.Descriptor.Stacks ≠ [] → id ∈ m.Descriptor.Stacks.map Stack.ID := by
  induction deps with
  | nil => intro id0 _ id; simp
  | cons d ds ih =>
    intro id0 hall id
    rw [List.foldl_cons]
    have hds : ∀ m ∈ ds, m.Descriptor.Stacks ≠ [] → id0 ∈ m.Descriptor.Stacks.map Stack.ID :=
      fun m hm => hall m (List.mem_cons_of_mem _ hm)
    rw [if_pos (by rfl)]
    by_cases hdnil : d.Descriptor.Stacks = []
    · rw [hdnil, ih id0 hds id]
      constructor
      · rintro ⟨⟨m, hm, hid⟩, h2⟩
        refine ⟨⟨m, List.mem_cons_of_mem _ hm, hid⟩, ?_⟩
        intro m hm hne
        rcases List.mem_cons.mp hm with h | h
        · rw [h] at hne; exact absurd hdnil hne
        · exact h2 m h hne
      · rintro ⟨⟨m, hm, hid⟩, h2⟩
        refine ⟨?_, fun m hm hne => h2 m (List.mem_cons_of_mem _ hm) hne⟩
        rcases List.mem_cons.mp hm with h | h
        · rw [h, hdnil] at hid; simp at hid
        · exact ⟨m, h, hid⟩
    · rw [resolvedStacks_fold_nonempty ds _ id0 (hall d (List.mem_cons_self _ _) hdnil) hds id]
      constructor
      · rintro ⟨h1, h2⟩
        refine ⟨⟨d, List.mem_cons_self _ _, h1⟩, ?_⟩
        intro m hm hne
        rcases List.mem_cons.mp hm with h | h
        · rw [h]; exact h1
        · exact h2 m h hne
      · rintro ⟨_, h2⟩
        exact ⟨h2 d (List.mem_cons_self _ _) hdnil,
          fun m hm hne => h2 m (List.mem_cons_of_mem _ hm) hne⟩

theorem mem_ids_resolvedStacks (buildpack : BuildModule) (dependencies : List BuildModule)
    (h : ∃ id, inEveryStackSet (buildpack :: dependencies) id) :
    ∀ id, id ∈ (resolvedStacks buildpack dependencies).map Stack.ID ↔
      inEveryStackSet (buildpack :: dependencies) id := by
  obtain ⟨id0, _, hall0⟩ := h
  have hds : ∀ m ∈ dependencies, m.Descriptor.Stacks ≠ [] →
      id0 ∈ m.Descriptor.Stacks.map Stack.ID :=
    fun m hm => hall0 m (List.mem_cons_of_mem _ hm)
  intro id
  unfold resolvedStacks inEveryStackSet
  by_cases hb : buildpack.Descriptor.Stacks = []
  · rw [hb, resolvedStacks_fold_empty dependencies id0 hds id]
    constructor
    · rintro ⟨⟨m, hm, hid⟩, h2⟩
      refine ⟨⟨m, List.mem_cons_of_mem _ hm, hid⟩, ?_⟩
      intro m hm hne
      rcases List.mem_cons.mp hm with h | h
      · rw [h] at hne; exact absurd hb hne
      · exact h2 m h hne
    · rintro ⟨⟨m, hm, hid⟩, h2⟩
      refine ⟨?_, fun m hm hne => h2 m (List.mem_cons_of_mem _ hm) hne⟩
      rcases List.mem_cons.mp hm with h | h
      · rw [h, hb] at hid; simp at hid
      · exact ⟨m, h, hid⟩
  · rw [resolvedStacks_fold_nonempty dependencies _ id0
      (hall0 buildpack (List.mem_cons_self _ _) hb) hds id]
    constructor
    · rintro ⟨h1, h2⟩
      refine ⟨⟨buildpack, List.mem_cons_self _ _, h1⟩, ?_⟩
      intro m hm hne
      rcases List.mem_cons.mp hm with h | h
      · rw [h]; exact h1
      · exact h2 m h hne
    · rintro ⟨_, h2⟩
      exact ⟨h2 buildpack (List.mem_cons_self _ _) hb,
        fun m hm hne => h2 m (List.mem_cons_of_mem _ hm) hne⟩

theorem inEveryStackSet_perm (buildpack : BuildModule) (a b : List BuildModule)
    (hp : a.Perm b) (id : String) :
    inEveryStackSet (buildpack :: a) id ↔ inEveryStackSet (buildpack :: b) id := by
  have hmem : ∀ m, m ∈ buildpack :: a ↔ m ∈ buildpack :: b := by
    intro m
    simp only [List.mem_cons, hp.mem_iff]
  unfold inEveryStackSet
  simp only [hmem]

theorem resolvedStacks_skip_empty (dependencies : List BuildModule) :
    ∀ acc : List Stack,
      dependencies.foldl
        (fun stackList bp =>
          if stackList.length = 0 then bp.Descriptor.Stacks
          else if bp.Descriptor.Stacks.length > 0 then
            MergeCompatible stackList bp.Descriptor.Stacks
          else stackList)
        acc =
      (dependencies.filter (fun bp => decide (bp.Descriptor.Stacks.length > 0))).foldl
        (fun stackList bp =>
          if stackList.length = 0 then bp.Descriptor.Stacks
          else if bp.Descriptor.Stacks.length > 0 then
            MergeCompatible stackList bp.Descriptor.Stacks
          else stackList)
        acc := by
  induction dependencies with
  | nil => intro acc; rfl
  | cons d ds ih =>
    intro acc
    by_cases hd : d.Descriptor.Stacks.length > 0
    · rw [List.filter_cons_of_pos (by simpa using hd), List.foldl_cons, List.foldl_cons, ih]
    · rw [List.filter_cons_of_neg (by simpa using hd), List.foldl_cons, ← ih]
      congr 1
      have hdnil : d.Descriptor.Stacks = [] := by
        cases hs : d.Descriptor.Stacks with
        | nil => rfl
        | cons x xs => rw [hs] at hd; simp at hd
      by_cases hacc : acc.length = 0
      · rw [if_pos hacc, hdnil, List.length_eq_zero.mp hacc]
      · rw [if_neg hacc, if_neg hd]

/-- C26. With `MergeCompatible` the intersection by stack ID: if the intersection of the
stack-ID sets of all modules with non-empty stacks, root and dependencies, is non-empty,
then the IDs of `resolvedStacks()` are exactly that intersection, whatever the order of
the dependencies; and modules with empty stacks never change the result: leaving them
out of the dependencies gives the same stacks. -/
theorem resolvedStacks_intersection (buildpack : BuildModule) (dependencies : List BuildModule)
    (h : ∃ id, inEveryStackSet (buildpack :: dependencies) id) :
    (∀ id, id ∈ (resolvedStacks buildpack dependencies).map Stack.ID ↔
      inEveryStackSet (buildpack :: dependencies) id) ∧
    (∀ reordered : List BuildModule, reordered.Perm dependencies →
      ∀ id, id ∈ (resolvedStacks buildpack reordered).map Stack.ID ↔
        id ∈ (resolvedStacks buildpack dependencies).map Stack.ID) ∧
    resolvedStacks buildpack dependencies =
      resolvedStacks buildpack
        (dependencies.filter (fun bp => decide (bp.Descriptor.Stacks.length > 0))) := by
  refine ⟨mem_ids_resolvedStacks buildpack dependencies h, ?_, ?_⟩
  · intro reordered hp id
    obtain ⟨id0, h0⟩ := h
    rw [mem_ids_resolvedStacks buildpack reordered
        ⟨id0, (inEveryStackSet_perm buildpack _ _ hp id0).mpr h0⟩,
      mem_ids_resolvedStacks buildpack dependencies ⟨id0, h0⟩]
    exact inEveryStackSet_perm buildpack _ _ hp id
  · unfold resolvedStacks
    exact resolvedStacks_skip_empty dependencies _

/-- Witness of C26: a root without stacks, a dependency on stacks `s1, s2`, one without
stacks and one on stacks `s2, s3`: the resolved stacks are `s2`. -/
theorem resolvedStacks_intersection_witness :
    (resolvedStacks (metaModule "root" "1" [])
      [leafModule "a" "1" ["s1", "s2"], metaModule "b" "1" [],
       leafModule "c" "1" ["s2", "s3"]]).map Stack.ID = ["s2"] ∧
    ∀ id, id ∈ (resolvedStacks (metaModule "root" "1" [])
        [leafModule "a" "1" ["s1", "s2"], metaModule "b" "1" [],
         leafModule "c" "1" ["s2", "s3"]]).map Stack.ID ↔
      inEveryStackSet (metaModule "root" "1" [] ::
        [leafModule "a" "1" ["s1", "s2"], metaModule "b" "1" [],
         leafModule "c" "1" ["s2", "s3"]]) id :=
  ⟨by decide,
   (resolvedStacks_intersection (metaModule "root" "1" [])
      [leafModule "a" "1" ["s1", "s2"], metaModule "b" "1" [],
       leafModule "c" "1" ["s2", "s3"]] ⟨"s2", by decide⟩).1⟩

/-! ## The extension package -/

theorem finalizeExtensionImage_ok (w : World) (b : PackageBuilder) (extension : BuildModule)
    (tmpDir : String) (hex : b.extension = some extension) (trace0 trace : List Call)
    (h : b.finalizeExtensionImage w tmpDir trace0 = (.ok (), trace)) :
    ∃ exLayerTar diffID,
      w.respond (trace0 ++ [Call.SetLabel .MetadataLabel (.Metadata extension.Descriptor.Info [])])
        (Call.ToLayerTar tmpDir extension) = .ok exLayerTar ∧
      w.respond (trace0 ++ [Call.SetLabel .MetadataLabel (.Metadata extension.Descriptor.Info [])]
        ++ [Call.ToLayerTar tmpDir extension]) (Call.LayerDiffID exLayerTar) = .ok diffID ∧
      trace = trace0 ++
        [Call.SetLabel .MetadataLabel (.Metadata extension.Descriptor.Info []),
         Call.ToLayerTar tmpDir extension,
         Call.LayerDiffID exLayerTar,
         Call.AddLayerWithDiffID exLayerTar diffID,
         Call.SetLabel .ExtensionLayersLabel (.ModuleLayers
           [(extension.FullName,
             { API := extension.Descriptor.API, Stacks := extension.Descriptor.Stacks,
               LayerDiffID := diffID })])] := by
  simp only [PackageBuilder.finalizeExtensionImage, hex] at h
  obtain ⟨a1, t1, h1, h⟩ := Run.bind_eq_ok _ _ _ _ _ h
  obtain ⟨_, ht1⟩ := World.call_ok _ _ _ _ _ h1
  subst ht1
  obtain ⟨exLayerTar, t2, h2, h⟩ := Run.bind_eq_ok _ _ _ _ _ h
  obtain ⟨hr2, ht2⟩ := World.call_ok _ _ _ _ _ h2
  subst ht2
  obtain ⟨diffID, t3, h3, h⟩ := Run.bind_eq_ok _ _ _ _ _ h
  obtain ⟨hr3, ht3⟩ := World.call_ok _ _ _ _ _ (Run.wrapErr_ok _ _ _ _ _ _ h3)
  subst ht3
  obtain ⟨a4, t4, h4, h⟩ := Run.bind_eq_ok _ _ _ _ _ h
  obtain ⟨_, ht4⟩ := World.call_ok _ _ _ _ _ (Run.wrapErr_ok _ _ _ _ _ _ h4)
  subst ht4
  obtain ⟨a5, t5, h5, h⟩ := Run.bind_eq_ok _ _ _ _ _ h
  obtain ⟨_, ht5⟩ := World.call_ok _ _ _ _ _ h5
  subst ht5
  refine ⟨exLayerTar, diffID, hr2, hr3, ?_⟩
  change (Except.ok (), _) = _ at h
  have ht := congrArg Prod.snd h
  simp only at ht
  rw [← ht]
  simp [AddToLayersMD, GoMap.set, GoMap.empty, setEntry, BuildModule.FullName]

/-- C27. For a package whose root is an extension, no buildpack root being set:
`validate` succeeds whatever dependencies were added, and `finalizeExtensionImage` does
not read them; a successful `finalizeExtensionImage` adds exactly one layer, the layer of
the extension, writes the package-metadata label holding the `ModuleInfo` of the extension and
no stacks, and writes the extension layer-map label with exactly one entry, the one of
the extension. -/
theorem finalizeExtensionImage_single_layer (w : World)
    (ro : RangeOrder (String × List ModuleInfo)) (b : PackageBuilder) (extension : BuildModule)
    (tmpDir : String) (hbp : b.buildpack = none) (hex : b.extension = some extension) :
    b.validate ro = .ok () ∧
    (∀ dependencies : List BuildModule,
      PackageBuilder.finalizeExtensionImage w { b with dependencies := dependencies } tmpDir =
        b.finalizeExtensionImage w tmpDir) ∧
    ∀ trace0 trace, b.finalizeExtensionImage w tmpDir trace0 = (.ok (), trace) →
      ∃ exLayerTar diffID,
        trace = trace0 ++
          [Call.SetLabel .MetadataLabel (.Metadata extension.Descriptor.Info []),
           Call.ToLayerTar tmpDir extension,
           Call.LayerDiffID exLayerTar,
           Call.AddLayerWithDiffID exLayerTar diffID,
           Call.SetLabel .ExtensionLayersLabel (.ModuleLayers
             [(extension.FullName,
               { API := extension.Descriptor.API, Stacks := extension.Descriptor.Stacks,
                 LayerDiffID := diffID })])] ∧
        (trace.drop trace0.length).filter Call.isAddLayer =
          [Call.AddLayerWithDiffID exLayerTar diffID] ∧
        (trace.drop trace0.length).filter Call.isSetLabel =
          [Call.SetLabel .MetadataLabel (.Metadata extension.Descriptor.Info []),
           Call.SetLabel .ExtensionLayersLabel (.ModuleLayers
             [(extension.FullName,
               { API := extension.Descriptor.API, Stacks := extension.Descriptor.Stacks,
                 LayerDiffID := diffID })])] := by
  refine ⟨?_, ?_, ?_⟩
  · simp [PackageBuilder.validate, hbp, hex]
  · intro dependencies
    simp only [PackageBuilder.finalizeExtensionImage]
  · intro trace0 trace h
    obtain ⟨exLayerTar, diffID, _, _, ht⟩ :=
      finalizeExtensionImage_ok w b extension tmpDir hex trace0 trace h
    refine ⟨exLayerTar, diffID, ht, ?_, ?_⟩
    · rw [ht, List.drop_left]
      simp [Call.isAddLayer]
    · rw [ht, List.drop_left]
      simp [Call.isSetLabel]

/-- Witness of C27: an extension packaged together with a stray dependency, every call
succeeding. -/
theorem finalizeExtensionImage_single_layer_witness :
    ∃ exLayerTar diffID,
      (PackageBuilder.finalizeExtensionImage World.agreeable
        ((NewBuilder.SetExtension (leafModule "ext/a" "1.0.0" [])).AddDependency
          (leafModule "dep/a" "1.0.0" ["some.stack.id"])) "/tmp/pkg" []).2 =
        [] ++
        [Call.SetLabel .MetadataLabel
           (.Metadata (leafModule "ext/a" "1.0.0" []).Descriptor.Info []),
         Call.ToLayerTar "/tmp/pkg" (leafModule "ext/a" "1.0.0" []),
         Call.LayerDiffID exLayerTar,
         Call.AddLayerWithDiffID exLayerTar diffID,
         Call.SetLabel .ExtensionLayersLabel (.ModuleLayers
           [((leafModule "ext/a" "1.0.0" []).FullName,
             { API := (leafModule "ext/a" "1.0.0" []).Descriptor.API,
               Stacks := (leafModule "ext/a" "1.0.0" []).Descriptor.Stacks,
               LayerDiffID := diffID })])] := by
  obtain ⟨exLayerTar, diffID, h, _⟩ :=
    (finalizeExtensionImage_single_layer World.agreeable RangeOrder.stored
      ((NewBuilder.SetExtension (leafModule "ext/a" "1.0.0" [])).AddDependency
        (leafModule "dep/a" "1.0.0" ["some.stack.id"]))
      (leafModule "ext/a" "1.0.0" []) "/tmp/pkg" rfl rfl).2.2 []
      (PackageBuilder.finalizeExtensionImage World.agreeable
        ((NewBuilder.SetExtension (leafModule "ext/a" "1.0.0" [])).AddDependency
          (leafModule "dep/a" "1.0.0" ["some.stack.id"])) "/tmp/pkg" []).2 rfl
  exact ⟨exLayerTar, diffID, h⟩

/-! ## Module locator resolver -/

/-- C21. `Download` of an image reference, given as the locator or as the explicit image
reference of the options, whose fetched image carries no package-metadata label fails
with the error `extracting buildpacks from <image>: could not find label
io.buildpacks.buildpackage.metadata` (wrapped with the stage), whatever other labels the
image carries, the layer-map label included, and whatever the layer map records; no
module is returned, and the fetch is the only call made. -/
theorem Download_image_without_metadata_label (c : Collaborators) (moduleURI : String)
    (opts : BuildpackDownloadOptions) (reference : String) (image : PackageImage)
    (href : (c.shapeOf moduleURI = .ImageReference ∧ opts.ImageName = "" ∧
        reference = moduleURI) ∨
      (c.shapeOf moduleURI ≠ .RegistryURN ∧ opts.ImageName ≠ "" ∧ reference = opts.ImageName))
    (hfetch : c.Fetch reference opts.Daemon opts.PullPolicy = .ok image)
    (hlabel : "io.buildpacks.buildpackage.metadata" ∉ image.labels) :
    Download c moduleURI opts =
      (.error (.wrap
        (.wrap (.new "could not find label %s" ["io.buildpacks.buildpackage.metadata"])
          "extracting buildpacks from %s" [reference])
        "extracting from registry %s" [reference]),
       [.Fetch reference opts.Daemon opts.PullPolicy]) ∧
    ∀ modules, (Download c moduleURI opts).1 ≠ .ok modules := by
  have hx : extractPackaged c reference opts =
      (.error (.wrap (.new "could not find label %s" ["io.buildpacks.buildpackage.metadata"])
        "extracting buildpacks from %s" [reference]),
       [.Fetch reference opts.Daemon opts.PullPolicy]) := by
    simp only [extractPackaged, hfetch, MetadataLabelName, if_neg hlabel]
  have hd : Download c moduleURI opts =
      (.error (.wrap
        (.wrap (.new "could not find label %s" ["io.buildpacks.buildpackage.metadata"])
          "extracting buildpacks from %s" [reference])
        "extracting from registry %s" [reference]),
       [.Fetch reference opts.Daemon opts.PullPolicy]) := by
    rcases href with ⟨hs, hn, hr⟩ | ⟨hs, hn, hr⟩
    · subst hr
      simp only [Download, hs, hn, beq_self_eq_true, fromImage, hx, List.nil_append]
    · have hb : (opts.ImageName == "") = false := by simpa using hn
      rw [← hr] at hb
      subst hr
      unfold Download
      rw [hb]
      cases hshape : c.shapeOf moduleURI <;>
        first
        | exact absurd hshape hs
        | simp only [fromImage, hx, List.nil_append]
  refine ⟨hd, ?_⟩
  intro modules h
  rw [hd] at h
  cases h

/-- Witness of C21: the image `docker.io/not/package` of the downloader test, carrying
the layer-map label only, given as the explicit image reference. -/
theorem Download_image_without_metadata_label_witness :
    Download sampleCollaborators "" notPackageOptions =
      (.error (.wrap
        (.wrap (.new "could not find label %s" ["io.buildpacks.buildpackage.metadata"])
          "extracting buildpacks from %s" ["docker.io/not/package"])
        "extracting from registry %s" ["docker.io/not/package"]),
       [.Fetch "docker.io/not/package" false .PullAlways]) :=
  (Download_image_without_metadata_label sampleCollaborators "" notPackageOptions
    "docker.io/not/package" { labels := [BuildpackLayersLabelName], contents := none }
    (Or.inr ⟨by decide, by decide, rfl⟩) rfl (by decide)).1

/-- C22. When the locator is a registry URN and the registry resolver returns an error,
`Download` returns that error wrapped with the registry stage `locating in registry` and
falls back to no other strategy: the lookup is the only call made, no image is fetched and
no path is read. -/
theorem Download_registry_error (c : Collaborators) (moduleURI : String)
    (opts : BuildpackDownloadOptions) (err : PkgError)
    (hshape : c.shapeOf moduleURI = .RegistryURN)
    (hresolve : c.Resolve opts.RegistryName moduleURI = .error err) :
    Download c moduleURI opts =
      (.error (.wrap err "locating in registry: %s" [moduleURI]),
       [.Resolve opts.RegistryName moduleURI]) ∧
    (∀ reference daemon pullPolicy,
      CollaboratorCall.Fetch reference daemon pullPolicy ∉ (Download c moduleURI opts).2) ∧
    ∀ locator, CollaboratorCall.Download locator ∉ (Download c moduleURI opts).2 := by
  have hd : Download c moduleURI opts =
      (.error (.wrap err "locating in registry: %s" [moduleURI]),
       [.Resolve opts.RegistryName moduleURI]) := by
    simp only [Download, hshape, hresolve]
  rw [hd]
  refine ⟨rfl, ?_, ?_⟩
  · intro reference daemon pullPolicy h
    simp at h
  · intro locator h
    simp at h

/-- Witness of C22: the locator `urn:cnb:registry:fake` of the downloader test, the
resolver failing with `bad mhkay`. -/
theorem Download_registry_error_witness :
    Download sampleCollaborators "urn:cnb:registry:fake" badRegistryOptions =
      (.error (.wrap (.new "bad mhkay" []) "locating in registry: %s" ["urn:cnb:registry:fake"]),
       [.Resolve "://bad-url" "urn:cnb:registry:fake"]) :=
  (Download_registry_error sampleCollaborators "urn:cnb:registry:fake" badRegistryOptions
    (.new "bad mhkay" []) (by decide) rfl).1

end Pack
